import Mathlib

/-!
# Recommender system: content-based and collaborative-filtering recommendation

A shallow embedding of `RecommenderSystem.cpp` / `RecommenderSystem.h`.

Conventions of the embedding.

* The numbers of type `double` are the elements of an arbitrary linearly
  ordered field `α`, together with a square root function `sqrt : α → α`
  passed to the functions that call `std::sqrt`.  Sums, differences and
  products of numbers are exact: rounding and overflow are outside the model.
* The result of a division of type `double`, and every value computed from
  one, is a `Dbl α`: a number, an infinity or NaN, with the rules of IEEE 754
  for these values.  A number over zero is NaN when the number is zero and
  an infinity of the sign of the number otherwise, an operation with NaN
  gives NaN, and a comparison with NaN is false.  The zero of `α` stands for
  `+0.0`: the divisors of the program are products of norms, which the
  loader computes as square roots, and sums that start at `0.0`, and neither
  is ever `-0.0`.
* `std::unordered_map<string, V>` is `UMap V`: a list of key/value pairs with
  pairwise distinct keys.  The order of the list is the (unspecified) order in
  which the table is iterated.
* A member function is a function of the store that returns its outcome
  together with the store after the call.  The outcome is an
  `Except Fault _`: `Fault.outOfRange` is the `std::out_of_range` thrown by
  `at`, `Fault.undefinedBehaviour` marks an execution the C++ standard gives
  no meaning to (dereferencing `begin()` of an empty table, indexing a vector
  past its end).
* `std::sort` is a parameter `StdSort α`: any function that returns a
  permutation of its input, ordered by the comparison function when no key
  is NaN.  With a NaN key the comparison function is no strict weak order and
  the order of the output is left open.
* A file is `none` when it cannot be opened, else the list of its lines.  A
  line of the attributes file is the film name and the numbers the extraction
  operators read from it; a line of the rating file is the list of its
  whitespace-separated tokens, and the number read from a rating token is
  given by a parameter `parseDouble`.
-/

namespace Recommender

/-! ## Constants of `RecommenderSystem.h` -/

/-- The message returned for an unknown user. -/
def UND_MSG : String := "USER NOT FOUND"

/-- The token of the rating file that marks a film the user did not rate. -/
def NOT_RANKED_FILM : String := "NA"

/-- The value of a rating entry of a film the user did not rate. -/
def NA_VALUE {α : Type} [LinearOrderedField α] : α := 0

/-- The failure value of a method, an `int` that is converted to `double` where a score is
returned. -/
def METHOD_FAILURE {α : Type} [Neg α] [One α] : α := -1

/-- The success value of a method. -/
def METHOD_SUCCESS : Int := 0

/-- The constant `INT_MAX` of `<climits>` for a 32-bit `int`. -/
def INT_MAX {α : Type} [LinearOrderedField α] : α := 2147483647

/-! ## Values of type `double` -/

/-- A value of type `double` as a division leaves it: a number, an infinity or NaN. -/
inductive Dbl (α : Type) where
  | fin (x : α)
  | posInf
  | negInf
  | nan
  deriving DecidableEq

namespace Dbl

variable {α : Type} [LinearOrderedField α]

/-- The sum of two values: NaN is absorbing and the infinities of opposite sign add up to
NaN. -/
def add : Dbl α → Dbl α → Dbl α
  | fin a, fin b => fin (a + b)
  | fin _, posInf => posInf
  | fin _, negInf => negInf
  | posInf, fin _ => posInf
  | posInf, posInf => posInf
  | negInf, fin _ => negInf
  | negInf, negInf => negInf
  | _, _ => nan

/-- The product of two values: NaN is absorbing, an infinity times zero is NaN and else
the product of an infinity has the product of the signs. -/
def mul : Dbl α → Dbl α → Dbl α
  | fin a, fin b => fin (a * b)
  | fin a, posInf => if a = 0 then nan else if 0 < a then posInf else negInf
  | fin a, negInf => if a = 0 then nan else if 0 < a then negInf else posInf
  | posInf, fin b => if b = 0 then nan else if 0 < b then posInf else negInf
  | negInf, fin b => if b = 0 then nan else if 0 < b then negInf else posInf
  | posInf, posInf => posInf
  | posInf, negInf => negInf
  | negInf, posInf => negInf
  | negInf, negInf => posInf
  | _, _ => nan

/-- The quotient of two values: zero over zero is NaN, another number over zero is the
infinity of its sign, a number over an infinity is zero, an infinity over a number keeps or
changes its sign with the sign of the number, and every other quotient with an infinity or
NaN is NaN. -/
def div : Dbl α → Dbl α → Dbl α
  | fin a, fin b =>
    if b = 0 then (if a = 0 then nan else if 0 < a then posInf else negInf) else fin (a / b)
  | fin _, posInf => fin 0
  | fin _, negInf => fin 0
  | posInf, fin b => if b < 0 then negInf else posInf
  | negInf, fin b => if b < 0 then posInf else negInf
  | _, _ => nan

/-- The comparison `x > y`: false when either value is NaN. -/
def gt : Dbl α → Dbl α → Bool
  | fin a, fin b => decide (b < a)
  | fin _, negInf => true
  | posInf, fin _ => true
  | posInf, negInf => true
  | _, _ => false

/-- The comparison `x >= y`: false when either value is NaN. -/
def ge : Dbl α → Dbl α → Bool
  | fin a, fin b => decide (b ≤ a)
  | fin _, negInf => true
  | posInf, fin _ => true
  | posInf, negInf => true
  | posInf, posInf => true
  | negInf, negInf => true
  | _, _ => false

/-- The sum of a list of values, accumulated from `0.0` from the left. -/
def sum (l : List (Dbl α)) : Dbl α :=
  l.foldl add (fin 0)

/-- The number a value holds, `0` for an infinity and NaN. -/
def toNumber : Dbl α → α
  | fin x => x
  | _ => 0

end Dbl

/-! ## Faults and tables -/

/-- The ways a call can end without returning a value. -/
inductive Fault where
  | outOfRange
  | undefinedBehaviour
  deriving DecidableEq, Repr

/-- A table `std::unordered_map<string, V>`: pairs with pairwise distinct keys. -/
structure UMap (V : Type) where
  entries : List (String × V)
  nodup : (entries.map Prod.fst).Nodup

namespace UMap

variable {V : Type}

/-- The value stored under a key, if the key is present (`find`). -/
def find? (m : UMap V) (key : String) : Option V :=
  m.entries.lookup key

/-- The checked access `at`: throws `std::out_of_range` on an absent key. -/
def atKey (m : UMap V) (key : String) : Except Fault V :=
  match m.find? key with
  | some v => .ok v
  | none => .error .outOfRange

/-- The keys of the table, in iteration order. -/
def keys (m : UMap V) : List String :=
  m.entries.map Prod.fst

/-- The empty table. -/
def empty : UMap V := ⟨[], List.nodup_nil⟩

end UMap

/-- The four members of `RecommenderSystem`. -/
structure Store (α : Type) where
  moviesScores : UMap (List α)
  normedMoviesVectors : UMap α
  rankedFilmOrder : List String
  usersRating : UMap (UMap α)

section Code

variable {α : Type} [LinearOrderedField α]

/-! ## Vector helpers -/

/-- The loop of `_addToPreferenceVector`: `vector[i] += source.at(i) * scalar` for every
index of `source`; writing `vector[i]` past the end of `vector` is undefined. -/
def _addToPreferenceVector : List α → List α → α → Except Fault (List α)
  | [], vector, _ => .ok vector
  | _ :: _, [], _ => .error .undefinedBehaviour
  | x :: source, v :: vector, scalar =>
    match _addToPreferenceVector source vector scalar with
    | .ok rest => .ok ((v + x * scalar) :: rest)
    | .error e => .error e

/-- The algorithm `std::inner_product(first1, last1, first2, init)`: the second range is
read as far as the first one reaches, and reading it past its end is undefined. -/
def innerProduct : List α → List α → α → Except Fault α
  | [], _, init => .ok init
  | _ :: _, [], _ => .error .undefinedBehaviour
  | a :: vecA, b :: vecB, init => innerProduct vecA vecB (init + a * b)

/-- The scalar product of `_dotProduct`. -/
def _dotProduct (vecA vecB : List α) : Except Fault α :=
  innerProduct vecA vecB 0

/-- The Euclidean norm of `norm`: the square root of the accumulated squares. -/
def norm (sqrt : α → α) (vec : List α) : α :=
  sqrt (vec.foldl (fun product i => product + i * i) 0)

/-! ## `recommendByContent` -/

/-- The first loop of `recommendByContent`: the sum and the number of the entries that
differ from `NA_VALUE`. -/
def sumRated (entries : List (String × α)) : α × α :=
  entries.foldl
    (fun acc film => if film.2 ≠ NA_VALUE then (acc.1 + film.2, acc.2 + 1) else acc)
    (0, 0)

/-- The second loop of `recommendByContent`, over the entries of the private copy
`userMap`: an entry that differs from `NA_VALUE` is lowered by `avg` in the copy and its
film's feature vector is added to `preferVector` with the lowered rating as weight.
Returns the copy after the loop together with the preference vector. The copy is iterated
in the order of the stored table. -/
def centreRatings (moviesScores : UMap (List α)) (avg : α) :
    List (String × α) → List α → Except Fault (List (String × α) × List α)
  | [], preferVector => .ok ([], preferVector)
  | userFilm :: rest, preferVector =>
    if userFilm.2 ≠ NA_VALUE then
      match moviesScores.atKey userFilm.1 with
      | .error e => .error e
      | .ok source =>
        match _addToPreferenceVector source preferVector (userFilm.2 - avg) with
        | .error e => .error e
        | .ok preferVector' =>
          match centreRatings moviesScores avg rest preferVector' with
          | .error e => .error e
          | .ok (rest', out) => .ok ((userFilm.1, userFilm.2 - avg) :: rest', out)
    else
      match centreRatings moviesScores avg rest preferVector with
      | .error e => .error e
      | .ok (rest', out) => .ok (userFilm :: rest', out)

/-- The initial value of `preferVector`: as many zeros as the feature vector of
`_moviesScores.begin()` has elements; undefined on an empty feature table. -/
def initialPreferVector (moviesScores : UMap (List α)) : Except Fault (List α) :=
  match moviesScores.entries with
  | [] => .error .undefinedBehaviour
  | first :: _ => .ok (List.replicate first.2.length 0)

/-- The preference vector `recommendByContent` builds from the stored ratings `stored`
of a user. The mean `avg` is read only for an entry that differs from `NA_VALUE`, so only
when the number of such entries it is divided by is at least 1: the quotient `0.0 / 0.0`
of a user without a rated film is never read. -/
def preferenceVector (s : Store α) (stored : UMap α) : Except Fault (List α) :=
  let userMap := stored.entries
  let total := sumRated stored.entries
  let avg := total.1 / total.2
  match initialPreferVector s.moviesScores with
  | .error e => .error e
  | .ok zeros =>
    match centreRatings s.moviesScores avg userMap zeros with
    | .error e => .error e
    | .ok (_, preferVector) => .ok preferVector

/-- The score `recommendByContent` gives a film: the scalar product of the preference
vector and the film's feature vector over the product of the norm of the preference vector
and the cached norm of the film. The operands are evaluated from left to right; C++ leaves
their order open, which only decides which fault is met first when several are due. -/
def contentProduct (sqrt : α → α) (s : Store α) (preferVector : List α)
    (singleFilm : String) : Except Fault (Dbl α) :=
  match s.moviesScores.atKey singleFilm with
  | .error e => .error e
  | .ok features =>
    match _dotProduct preferVector features with
    | .error e => .error e
    | .ok dot =>
      match s.normedMoviesVectors.atKey singleFilm with
      | .error e => .error e
      | .ok cached => .ok (Dbl.div (.fin dot) (.fin (norm sqrt preferVector * cached)))

/-- The third loop of `recommendByContent`, over the rank order: `best` is the pair
`(highestRateName, highestRateScore)`. -/
def contentScan (sqrt : α → α) (s : Store α) (stored : UMap α) (preferVector : List α) :
    List String → String × Dbl α → Except Fault (String × Dbl α)
  | [], best => .ok best
  | singleFilm :: rest, best =>
    match stored.atKey singleFilm with
    | .error e => .error e
    | .ok rating =>
      if rating = NA_VALUE then
        match contentProduct sqrt s preferVector singleFilm with
        | .error e => .error e
        | .ok product =>
          if best.2 = .fin (-INT_MAX) ∨ Dbl.gt product best.2 = true then
            contentScan sqrt s stored preferVector rest (singleFilm, product)
          else
            contentScan sqrt s stored preferVector rest best
      else
        contentScan sqrt s stored preferVector rest best

/-- The method `recommendByContent`: the outcome of the call and the store after it. -/
def recommendByContent (sqrt : α → α) (userName : String) (s : Store α) :
    Except Fault String × Store α :=
  match s.usersRating.find? userName with
  | none => (.ok UND_MSG, s)
  | some stored =>
    match preferenceVector s stored with
    | .error e => (.error e, s)
    | .ok preferVector =>
      match contentScan sqrt s stored preferVector s.rankedFilmOrder
          ("", .fin (-INT_MAX)) with
      | .error e => (.error e, s)
      | .ok best => (.ok best.1, s)

/-! ## `predictMovieScoreForUser` -/

/-- The comparison function handed to `std::sort`: the first pair goes before the second
when its similarity is greater. -/
def pairDoubleSort (var1 var2 : String × Dbl α) : Bool :=
  Dbl.gt var1.2 var2.2

/-- The contract of `std::sort` with `pairDoubleSort`: the output is a permutation of the
input and, when no similarity is NaN, no element is ordered before an element that
precedes it. The order of elements with equal similarity is left to the implementation.
With a NaN among the similarities `pairDoubleSort` is no strict weak order, and the
contract keeps only that the output is a rearrangement of the input. -/
structure StdSort (α : Type) [LinearOrderedField α] where
  sort : List (String × Dbl α) → List (String × Dbl α)
  perm : ∀ l, (sort l).Perm l
  sorted : ∀ l, (∀ p ∈ l, p.2 ≠ Dbl.nan) →
    (sort l).Pairwise (fun a b => pairDoubleSort b a = false)

/-- The similarity `predictMovieScoreForUser` gives a pair of films: the scalar product of
the feature vectors over the product of the cached norms. The operands are evaluated from
left to right, as in `contentProduct`. -/
def filmSimilarity (s : Store α) (movieName singleFile : String) :
    Except Fault (Dbl α) :=
  match s.moviesScores.atKey movieName with
  | .error e => .error e
  | .ok target =>
    match s.moviesScores.atKey singleFile with
    | .error e => .error e
    | .ok features =>
      match _dotProduct target features with
      | .error e => .error e
      | .ok dot =>
        match s.normedMoviesVectors.atKey movieName with
        | .error e => .error e
        | .ok cachedTarget =>
          match s.normedMoviesVectors.atKey singleFile with
          | .error e => .error e
          | .ok cached => .ok (Dbl.div (.fin dot) (.fin (cachedTarget * cached)))

/-- The first loop of `predictMovieScoreForUser`: the vector `setN` of the rated films of
the rank order, each with its similarity to `movieName`. -/
def collectSetN (s : Store α) (movieName : String) (stored : UMap α) :
    List String → Except Fault (List (String × Dbl α))
  | [] => .ok []
  | singleFile :: rest =>
    match stored.atKey singleFile with
    | .error e => .error e
    | .ok rating =>
      if rating ≠ NA_VALUE then
        match filmSimilarity s movieName singleFile with
        | .error e => .error e
        | .ok val =>
          match collectSetN s movieName stored rest with
          | .error e => .error e
          | .ok setN => .ok ((singleFile, val) :: setN)
      else
        collectSetN s movieName stored rest

/-- The second loop of `predictMovieScoreForUser` after the given number of iterations:
the pair `(sum, divideSum)`. Iteration `i` reads `setN[i]`, which is undefined past the end
of `setN`. -/
def weightedSums (stored : UMap α) (setN : List (String × Dbl α)) :
    Nat → Except Fault (Dbl α × Dbl α)
  | 0 => .ok (.fin 0, .fin 0)
  | i + 1 =>
    match weightedSums stored setN i with
    | .error e => .error e
    | .ok (sum, divideSum) =>
      match setN[i]? with
      | none => .error .undefinedBehaviour
      | some pair =>
        match stored.atKey pair.1 with
        | .error e => .error e
        | .ok r => .ok (Dbl.add sum (Dbl.mul pair.2 (.fin r)), Dbl.add divideSum pair.2)

/-- The method `predictMovieScoreForUser`: the outcome of the call and the store after
it. The loop `for (int i = 0; i < k; ++i)` runs `k.toNat` times. -/
def predictMovieScoreForUser (S : StdSort α) (movieName userName : String) (k : Int)
    (s : Store α) : Except Fault (Dbl α) × Store α :=
  if (s.moviesScores.find? movieName).isNone || (s.usersRating.find? userName).isNone then
    (.ok (.fin METHOD_FAILURE), s)
  else
    match s.usersRating.atKey userName with
    | .error e => (.error e, s)
    | .ok stored =>
      match collectSetN s movieName stored s.rankedFilmOrder with
      | .error e => (.error e, s)
      | .ok setN =>
        match weightedSums stored (S.sort setN) k.toNat with
        | .error e => (.error e, s)
        | .ok (sum, divideSum) => (.ok (Dbl.div sum divideSum), s)

/-! ## `recommendByCF` -/

/-- The first loop of `recommendByCF`: the films of the rank order whose entry in the
user's table is `NA_VALUE`. -/
def collectNotRanked (stored : UMap α) : List String → Except Fault (List String)
  | [] => .ok []
  | temp :: rest =>
    match stored.atKey temp with
    | .error e => .error e
    | .ok rating =>
      match collectNotRanked stored rest with
      | .error e => .error e
      | .ok notRankedVectors =>
        if rating = NA_VALUE then .ok (temp :: notRankedVectors) else .ok notRankedVectors

/-- The second loop of `recommendByCF`: `best` is the pair `(maxRate, maxRateFilm)`; every
iteration calls `predictMovieScoreForUser` on the store the previous call left. -/
def cfScan (S : StdSort α) (userName : String) (k : Int) :
    List String → Dbl α × String → Store α → Except Fault (Dbl α × String) × Store α
  | [], best, s => (.ok best, s)
  | itemNA :: rest, best, s =>
    match predictMovieScoreForUser S itemNA userName k s with
    | (.error e, s') => (.error e, s')
    | (.ok tempRate, s') =>
      if Dbl.gt tempRate best.1 = true then
        cfScan S userName k rest (tempRate, itemNA) s'
      else
        cfScan S userName k rest best s'

/-- The method `recommendByCF`: the outcome of the call and the store after it. -/
def recommendByCF (S : StdSort α) (userName : String) (k : Int) (s : Store α) :
    Except Fault String × Store α :=
  match s.usersRating.find? userName with
  | none => (.ok UND_MSG, s)
  | some stored =>
    match collectNotRanked stored s.rankedFilmOrder with
    | .error e => (.error e, s)
    | .ok notRankedVectors =>
      match cfScan S userName k notRankedVectors (.fin 0, "") s with
      | (.error e, s') => (.error e, s')
      | (.ok best, s') => (.ok best.2, s')

/-- The loop of `__unguarded_linear_insert`: `val` moves towards the front past every
element it is to go before. The part of the range before `val` is given last element
first, and so is the result. -/
def linearInsert (val : String × Dbl α) : List (String × Dbl α) → List (String × Dbl α)
  | [] => [val]
  | next :: before =>
    if pairDoubleSort val next = true then next :: linearInsert val before
    else val :: next :: before

/-- One iteration of `__insertion_sort`: an element that is to go before the first
element of the range is moved to the front, any other element is inserted by
`linearInsert`. The sorted part is given last element first. -/
def insertionStep (sortedPart : List (String × Dbl α)) (val : String × Dbl α) :
    List (String × Dbl α) :=
  match sortedPart.getLast? with
  | none => [val]
  | some first =>
    if pairDoubleSort val first = true then sortedPart ++ [val]
    else linearInsert val sortedPart

/-- The function `__insertion_sort`, which `std::sort` of libstdc++ runs on a range of at
most 16 elements. -/
def insertionSortRange (l : List (String × Dbl α)) : List (String × Dbl α) :=
  (l.foldl insertionStep []).reverse

/-- An implementation of `std::sort`: the insertion sort of libstdc++. -/
def insertionStdSort : StdSort α :=
  have hasymm : ∀ a b : Dbl α, Dbl.gt a b = true → Dbl.gt b a = false := by
    intro a b h
    cases a <;> cases b <;> simp [Dbl.gt] at h ⊢
    exact le_of_lt h
  have htrans : ∀ a b c : Dbl α, b ≠ .nan → Dbl.gt a b = false → Dbl.gt b c = false →
      Dbl.gt a c = false := by
    intro a b c hb h1 h2
    cases a <;> cases b <;> cases c <;> simp [Dbl.gt] at hb h1 h2 ⊢
    exact le_trans h1 h2
  have hbelow : ∀ a b c : Dbl α, b ≠ .nan → a ≠ .nan → c ≠ .nan → Dbl.gt a b = false →
      Dbl.gt c b = true → Dbl.gt a c = false := by
    intro a b c hb ha hc h1 h2
    cases a <;> cases b <;> cases c <;> simp [Dbl.gt] at hb ha hc h1 h2 ⊢
    exact le_of_lt (lt_of_le_of_lt h1 h2)
  have hlinear : ∀ (val : String × Dbl α) (l : List (String × Dbl α)),
      (linearInsert val l).Perm (val :: l) := by
    intro val l
    induction l with
    | nil => exact List.Perm.refl _
    | cons next before ih =>
      simp only [linearInsert]
      split_ifs
      · exact (List.Perm.cons next ih).trans (List.Perm.swap _ _ _)
      · exact List.Perm.refl _
  have hstep : ∀ (l : List (String × Dbl α)) (val : String × Dbl α),
      (insertionStep l val).Perm (val :: l) := by
    intro l val
    unfold insertionStep
    split
    · rename_i h
      rw [List.getLast?_eq_none_iff.1 h]
    · split_ifs
      · exact List.perm_append_comm
      · exact hlinear val l
  have hfold : ∀ l acc : List (String × Dbl α),
      (l.foldl insertionStep acc).Perm (l.reverse ++ acc) := by
    intro l
    induction l with
    | nil => simp
    | cons x l ih =>
      intro acc
      simp only [List.foldl_cons, List.reverse_cons, List.append_assoc,
        List.singleton_append]
      exact (ih _).trans (List.Perm.append_left _ (hstep acc x))
  have hlinearSorted : ∀ (val : String × Dbl α) (l : List (String × Dbl α)),
      (∀ p ∈ l, p.2 ≠ Dbl.nan) → l.Pairwise (fun a b => pairDoubleSort a b = false) →
      (linearInsert val l).Pairwise (fun a b => pairDoubleSort a b = false) := by
    intro val l
    induction l with
    | nil => simp [linearInsert]
    | cons next before ih =>
      intro hl hs
      simp only [linearInsert]
      rw [List.pairwise_cons] at hs
      split_ifs with h
      · rw [List.pairwise_cons]
        refine ⟨?_, ih (fun p hp => hl p (List.mem_cons_of_mem _ hp)) hs.2⟩
        intro p hp
        rcases List.mem_cons.1 ((hlinear val before).mem_iff.1 hp) with rfl | hp
        · exact hasymm _ _ h
        · exact hs.1 p hp
      · rw [List.pairwise_cons]
        refine ⟨?_, List.pairwise_cons.2 hs⟩
        intro p hp
        have hn : pairDoubleSort val next = false := by simpa using h
        rcases List.mem_cons.1 hp with rfl | hp
        · exact hn
        · exact htrans _ _ _ (hl next (List.mem_cons_self _ _)) hn (hs.1 p hp)
  have hstepSorted : ∀ (val : String × Dbl α) (l : List (String × Dbl α)),
      val.2 ≠ .nan → (∀ p ∈ l, p.2 ≠ Dbl.nan) →
      l.Pairwise (fun a b => pairDoubleSort a b = false) →
      (insertionStep l val).Pairwise (fun a b => pairDoubleSort a b = false) := by
    intro val l hval hl hs
    unfold insertionStep
    split
    · simp
    · rename_i first hfirst
      split_ifs with h
      · rw [List.pairwise_append]
        refine ⟨hs, by simp, ?_⟩
        intro a ha b hb
        rw [List.mem_singleton] at hb
        subst hb
        obtain ⟨init, rfl⟩ : ∃ init, l = init ++ [first] :=
          List.getLast?_eq_some_iff.1 hfirst
        have hfm : first ∈ init ++ [first] := by simp
        rw [List.pairwise_append] at hs
        rcases List.mem_append.1 ha with ha' | ha'
        · exact hbelow _ _ _ (hl first hfm) (hl a ha) hval
            (hs.2.2 a ha' first (List.mem_singleton_self _)) h
        · rw [List.mem_singleton.1 ha']
          exact hasymm _ _ h
      · exact hlinearSorted val l hl hs
  have hfoldSorted : ∀ l acc : List (String × Dbl α),
      (∀ p ∈ l, p.2 ≠ Dbl.nan) → (∀ p ∈ acc, p.2 ≠ Dbl.nan) →
      acc.Pairwise (fun a b => pairDoubleSort a b = false) →
      (l.foldl insertionStep acc).Pairwise (fun a b => pairDoubleSort a b = false) := by
    intro l
    induction l with
    | nil => exact fun _ _ _ hs => hs
    | cons x l ih =>
      intro acc hl hacc hs
      simp only [List.foldl_cons]
      apply ih _ (fun p hp => hl p (List.mem_cons_of_mem _ hp))
      · intro p hp
        rcases List.mem_cons.1 ((hstep acc x).mem_iff.1 hp) with rfl | hp
        · exact hl _ (List.mem_cons_self _ _)
        · exact hacc p hp
      · exact hstepSorted x acc (hl x (List.mem_cons_self _ _)) hacc hs
  { sort := insertionSortRange
    perm := fun l => by
      unfold insertionSortRange
      have h := hfold l []
      rw [List.append_nil] at h
      exact (List.reverse_perm _).trans (h.trans (List.reverse_perm _))
    sorted := fun l hl => by
      unfold insertionSortRange
      rw [List.pairwise_reverse]
      exact hfoldSorted l [] hl (by simp) List.Pairwise.nil }

end Code


section SpecFunctions

variable {α : Type} [LinearOrderedField α]

/-- The sum of the products of the elements that two vectors hold at the same position. -/
def dotSum (a b : List α) : α :=
  (List.zipWith (fun x y => x * y) a b).sum

/-- The sum of the squares of the elements of a vector. -/
def sumSquares (v : List α) : α :=
  (v.map (fun i => i * i)).sum

end SpecFunctions

/-- The cosine similarity of two vectors as a number: their scalar product over the
product of their norms. It is the value of `similarity` when both vectors have an element
other than zero (`similarity_fin`); the statements use it for such vectors only. -/
def cosineSimilarity {α : Type} [LinearOrderedField α] (sqrt : α → α) (a b : List α) : α :=
  dotSum a b / (norm sqrt a * norm sqrt b)

/-- Whether the table holds a rating other than `NA_VALUE` for the film. -/
def isRated {α : Type} [LinearOrderedField α] (stored : UMap α) (film : String) : Bool :=
  match stored.find? film with
  | some r => decide (r ≠ NA_VALUE)
  | none => false

/-- The rating the table holds for the film, `NA_VALUE` for a film without an entry. -/
def ratingOf {α : Type} [LinearOrderedField α] (stored : UMap α) (film : String) : α :=
  (stored.find? film).getD NA_VALUE

/-- The feature vector of a film, empty for a film outside the feature table. -/
def featuresOf {α : Type} (s : Store α) (film : String) : List α :=
  (s.moviesScores.find? film).getD []

/-- The films of the rank order that the user rated, each paired with the cosine
similarity, as a number, of its feature vector to the feature vector `target`. -/
def neighbours {α : Type} [LinearOrderedField α] (sqrt : α → α) (s : Store α)
    (stored : UMap α) (target : List α) : List (String × α) :=
  (s.rankedFilmOrder.filter (isRated stored)).map
    (fun film => (film, cosineSimilarity sqrt target (featuresOf s film)))

/-- The similarity of two vectors as the program computes it: the quotient of type
`double` of their scalar product and the product of their norms. -/
def similarity {α : Type} [LinearOrderedField α] (sqrt : α → α) (a b : List α) : Dbl α :=
  Dbl.div (.fin (dotSum a b)) (.fin (norm sqrt a * norm sqrt b))

/-- The films of the rank order that the user rated, each paired with the similarity the
program computes between its feature vector and the feature vector `target`. -/
def scoredNeighbours {α : Type} [LinearOrderedField α] (sqrt : α → α) (s : Store α)
    (stored : UMap α) (target : List α) : List (String × Dbl α) :=
  (s.rankedFilmOrder.filter (isRated stored)).map
    (fun film => (film, similarity sqrt target (featuresOf s film)))

/-- The neighbours `predictMovieScoreForUser` uses: the first `k` pairs of the sorted
vector of rated films with their similarities to `target`. -/
def topNeighbours {α : Type} [LinearOrderedField α] (sqrt : α → α) (S : StdSort α)
    (s : Store α) (stored : UMap α) (target : List α) (k : Int) : List (String × Dbl α) :=
  (S.sort (scoredNeighbours sqrt s stored target)).take k.toNat

/-- Whether a vector has an element other than zero. -/
def nonZero {α : Type} [LinearOrderedField α] (v : List α) : Prop :=
  ∃ x ∈ v, x ≠ 0

/-! ## Data-model invariants -/

/-- The laws of the square root the embedding is instantiated with. -/
structure IsSqrt {α : Type} [LinearOrderedField α] (sqrt : α → α) : Prop where
  nonneg : ∀ x, 0 ≤ sqrt x
  mul_self : ∀ x, 0 ≤ x → sqrt x * sqrt x = x

/-- A well-formed store, as the loader builds it from consistent files. The data-model
invariants: all feature vectors have one length, the norm cache holds exactly the norms of
the feature vectors, every user has an entry for every film of the rank order. The films
are the keys of the feature table: every film that the rank order or a rating names has a
feature vector, and there is at least one film (the feature vector of
`_moviesScores.begin()` gives the preference vector its length). -/
structure WellFormed {α : Type} [LinearOrderedField α] (sqrt : α → α) (s : Store α) :
    Prop where
  sameLength : ∀ f g v w, s.moviesScores.find? f = some v →
    s.moviesScores.find? g = some w → v.length = w.length
  normCache : ∀ f, s.normedMoviesVectors.find? f = (s.moviesScores.find? f).map (norm sqrt)
  userTotal : ∀ u stored, s.usersRating.find? u = some stored →
    ∀ f ∈ s.rankedFilmOrder, ∃ r, stored.find? f = some r
  rankedKnown : ∀ f ∈ s.rankedFilmOrder, ∃ v, s.moviesScores.find? f = some v
  ratedKnown : ∀ u stored, s.usersRating.find? u = some stored →
    ∀ f r, stored.find? f = some r → r ≠ NA_VALUE → ∃ v, s.moviesScores.find? f = some v
  nonempty : s.moviesScores.entries ≠ []

/-! ## A worked example -/

section Example

variable {α : Type} [LinearOrderedField α]

/-- The ratings of the user of the worked example: `A` rated 5, `B` rated 1, `C` not
rated. -/
def exampleRatings : UMap α :=
  ⟨[("A", 5), ("B", 1), ("C", NA_VALUE)], by simp⟩

/-- The ratings of a user who rated every film: `A` rated 4, `B` rated 2, `C` rated 5. -/
def exampleRatingsAll : UMap α :=
  ⟨[("A", 4), ("B", 2), ("C", 5)], by simp⟩

/-- The store of the worked example: the films `A = [1, 0]`, `B = [0, 1]`, `C = [1, 1]`
with their norms cached, the rank order `A, B, C` and the users `u` and `v`. -/
def exampleStore (sqrt : α → α) : Store α where
  moviesScores := ⟨[("A", [1, 0]), ("B", [0, 1]), ("C", [1, 1])], by simp⟩
  normedMoviesVectors :=
    ⟨[("A", norm sqrt [1, 0]), ("B", norm sqrt [0, 1]), ("C", norm sqrt [1, 1])], by simp⟩
  rankedFilmOrder := ["A", "B", "C"]
  usersRating := ⟨[("u", exampleRatings), ("v", exampleRatingsAll)], by simp⟩

end Example

/-! ## An example with a feature of negative sign -/

section SignedExample

variable {α : Type} [LinearOrderedField α]

/-- Ratings of the user `u`: `T` not rated, `X` rated 5, `Y` rated 1. -/
def signedRatings : UMap α :=
  ⟨[("T", NA_VALUE), ("X", 5), ("Y", 1)], by simp⟩

/-- Ratings of the user `w`: `T` not rated, `X` rated 1, `Y` rated 5. -/
def signedRatingsLow : UMap α :=
  ⟨[("T", NA_VALUE), ("X", 1), ("Y", 5)], by simp⟩

/-- A store with the films `T = [1, 0]`, `X = [2, 0]`, `Y = [-3, 4]`, their norms cached,
the rank order `T, X, Y` and the users `u` and `w`. -/
def signedStore (sqrt : α → α) : Store α where
  moviesScores := ⟨[("T", [1, 0]), ("X", [2, 0]), ("Y", [-3, 4])], by simp⟩
  normedMoviesVectors :=
    ⟨[("T", norm sqrt [1, 0]), ("X", norm sqrt [2, 0]), ("Y", norm sqrt [-3, 4])], by simp⟩
  rankedFilmOrder := ["T", "X", "Y"]
  usersRating := ⟨[("u", signedRatings), ("w", signedRatingsLow)], by simp⟩

end SignedExample

/-! ## An example with a film without features -/

section BlankExample

variable {α : Type} [LinearOrderedField α]

/-- Ratings of the user `u`: `A` rated 5, `B` rated 1, the other films not rated. -/
def blankRatings : UMap α :=
  ⟨[("A", 5), ("B", 1), ("Z", NA_VALUE), ("P", NA_VALUE), ("Q", NA_VALUE)], by simp⟩

/-- Ratings of the user `v`: `Z` rated 1, `P` rated 5, the other films not rated. -/
def blankRatingsLate : UMap α :=
  ⟨[("A", NA_VALUE), ("B", NA_VALUE), ("Z", 1), ("P", 5), ("Q", NA_VALUE)], by simp⟩

/-- Ratings of the user `w`: `A` rated 5, `Z` rated 1, the other films not rated. -/
def blankRatingsMixed : UMap α :=
  ⟨[("A", 5), ("B", NA_VALUE), ("Z", 1), ("P", NA_VALUE), ("Q", NA_VALUE)], by simp⟩

/-- Ratings of the user `x`: `A` rated 5, `B` rated 1, `Z` rated 3, the other films not
rated. -/
def blankRatingsFull : UMap α :=
  ⟨[("A", 5), ("B", 1), ("Z", 3), ("P", NA_VALUE), ("Q", NA_VALUE)], by simp⟩

/-- A store with the films `A = [3, 0]`, `B = [0, 4]`, `Z = [0, 0]`, `P = [1, 0]` and
`Q = [3, 4]`, their norms cached, the rank order `A, B, Z, P, Q` and the users `u`, `v`,
`w` and `x`. No feature is negative, and the film `Z` has the zero feature vector. -/
def blankStore (sqrt : α → α) : Store α where
  moviesScores :=
    ⟨[("A", [3, 0]), ("B", [0, 4]), ("Z", [0, 0]), ("P", [1, 0]), ("Q", [3, 4])], by simp⟩
  normedMoviesVectors :=
    ⟨[("A", norm sqrt [3, 0]), ("B", norm sqrt [0, 4]), ("Z", norm sqrt [0, 0]),
      ("P", norm sqrt [1, 0]), ("Q", norm sqrt [3, 4])], by simp⟩
  rankedFilmOrder := ["A", "B", "Z", "P", "Q"]
  usersRating :=
    ⟨[("u", blankRatings), ("v", blankRatingsLate), ("w", blankRatingsMixed),
      ("x", blankRatingsFull)], by simp⟩

end BlankExample

/-! ## Loading the tables -/

/-- The entries after `table[key] = value`: the value stored under a present key is
replaced, an absent key is added. -/
def assignEntries {V : Type} (key : String) (value : V) :
    List (String × V) → List (String × V)
  | [] => [(key, value)]
  | entry :: rest =>
    if entry.1 = key then (key, value) :: rest
    else entry :: assignEntries key value rest

/-- The assignment `table[key] = value` of `std::unordered_map::operator[]`. -/
def UMap.assign {V : Type} (m : UMap V) (key : String) (value : V) : UMap V where
  entries := assignEntries key value m.entries
  nodup := by
    have hkeys : ∀ l : List (String × V), (assignEntries key value l).map Prod.fst
        = if key ∈ l.map Prod.fst then l.map Prod.fst else l.map Prod.fst ++ [key] := by
      intro l
      induction l with
      | nil => simp [assignEntries]
      | cons entry rest ih =>
        by_cases h : entry.1 = key
        · simp [assignEntries, h]
        · have hne : ¬ key = entry.1 := fun e => h e.symm
          simp only [assignEntries, h, if_false, List.map_cons, ih, List.mem_cons, hne,
            false_or]
          split_ifs <;> simp
    rw [hkeys]
    split_ifs with hk
    · exact m.nodup
    · exact List.nodup_append_comm.1 (List.nodup_cons.2 ⟨hk, m.nodup⟩)

/-- The bare access `table[key];` of `std::unordered_map::operator[]`: an absent key is
added with the given default value, a present key keeps its value. -/
def UMap.touch {V : Type} (m : UMap V) (key : String) (fallback : V) : UMap V :=
  match m.find? key with
  | some _ => m
  | none => m.assign key fallback

section Loader

variable {α : Type} [LinearOrderedField α]

/-- One iteration of the loop of `_readMoviesAttributesFile`. A line is given by what the
extraction operators read from it: the film name (empty for an empty line) and the numbers
that follow it. -/
def readAttributesLine (sqrt : α → α) (s : Store α) (line : String × List α) : Store α :=
  let filmName := line.1
  let ratesVector := line.2
  { s with
    moviesScores := (s.moviesScores.touch filmName []).assign filmName ratesVector
    normedMoviesVectors := s.normedMoviesVectors.assign filmName (norm sqrt ratesVector) }

/-- The method `_readMoviesAttributesFile`: the returned code and the store after the
call. The file is `none` when it cannot be opened, else the list of its lines. -/
def _readMoviesAttributesFile (sqrt : α → α) (file : Option (List (String × List α)))
    (s : Store α) : Int × Store α :=
  match file with
  | none => (METHOD_FAILURE, s)
  | some lines => (METHOD_SUCCESS, lines.foldl (readAttributesLine sqrt) s)

/-- The header loop of `_readUserRanksFile` over the tokens of the first line: every film
gets a default entry in `internalRate` and is appended to the rank order. -/
def readHeader (tokens : List String) (internalRate : UMap α) (rankedFilmOrder : List String) :
    UMap α × List String :=
  tokens.foldl (fun acc film2 => (acc.1.touch film2 0, acc.2 ++ [film2]))
    (internalRate, rankedFilmOrder)

/-- The inner loop of `_readUserRanksFile` over the tokens of a row after the user name:
`while (iStringStream >> userRate && i != rankedFilmsSize)`. The token `NA` stores
`NA_VALUE`, any other token the number `parseDouble` reads from it. -/
def readRatings (parseDouble : String → α) (rankedFilmOrder : List String) :
    List String → Nat → UMap α → Except Fault (UMap α)
  | [], _, userS => .ok userS
  | userRate :: rest, i, userS =>
    if i ≠ rankedFilmOrder.length then
      match rankedFilmOrder[i]? with
      | none => .error .outOfRange
      | some film =>
        if userRate = NOT_RANKED_FILM then
          readRatings parseDouble rankedFilmOrder rest (i + 1) (userS.assign film NA_VALUE)
        else
          readRatings parseDouble rankedFilmOrder rest (i + 1)
            (userS.assign film (parseDouble userRate))
    else .ok userS

/-- The row loop of `_readUserRanksFile`: a row is the list of its tokens, the first one
the user name (empty for an empty line). -/
def readUserRows (parseDouble : String → α) (internalRate : UMap α) :
    List (List String) → Store α → Except Fault Unit × Store α
  | [], s => (.ok (), s)
  | line2 :: rest, s =>
    let userName := line2.headD ""
    let touched := { s with usersRating := s.usersRating.touch userName UMap.empty }
    match readRatings parseDouble touched.rankedFilmOrder line2.tail 0 internalRate with
    | .error e => (.error e, touched)
    | .ok userS =>
      readUserRows parseDouble internalRate rest
        { touched with usersRating := touched.usersRating.assign userName userS }

/-- The method `_readUserRanksFile`: the outcome of the call and the store after it. The
file is `none` when it cannot be opened, else the list of its lines, each line the list of
its tokens; the first line is the header (no token when the file has no line). -/
def _readUserRanksFile (parseDouble : String → α) (file : Option (List (List String)))
    (s : Store α) : Except Fault Int × Store α :=
  match file with
  | none => (.ok METHOD_FAILURE, s)
  | some lines =>
    let header := readHeader (lines.headD []) UMap.empty s.rankedFilmOrder
    match readUserRows parseDouble header.1 lines.tail
        { s with rankedFilmOrder := header.2 } with
    | (.error e, s') => (.error e, s')
    | (.ok _, s') => (.ok METHOD_SUCCESS, s')

/-- The store of a newly constructed `RecommenderSystem`: four empty members. -/
def emptyStore : Store α where
  moviesScores := UMap.empty
  normedMoviesVectors := UMap.empty
  rankedFilmOrder := []
  usersRating := UMap.empty

/-- The method `loadData`: both files are read in turn, the second one only when the
first one could be opened. -/
def loadData (sqrt : α → α) (parseDouble : String → α)
    (moviesAttributesFile : Option (List (String × List α)))
    (userRanksFile : Option (List (List String))) (s : Store α) :
    Except Fault Int × Store α :=
  match _readMoviesAttributesFile sqrt moviesAttributesFile s with
  | (code, s₁) =>
    if code = METHOD_FAILURE then (.ok METHOD_FAILURE, s₁)
    else
      match _readUserRanksFile parseDouble userRanksFile s₁ with
      | (.error e, s₂) => (.error e, s₂)
      | (.ok code₂, s₂) =>
        if code₂ = METHOD_FAILURE then (.ok METHOD_FAILURE, s₂) else (.ok METHOD_SUCCESS, s₂)

end Loader

/-- The table a row of the rating file leaves for its user: an entry for every film of the
rank order, and the value `NA_VALUE` for every film whose tokens in the row (one for each
position the film has in the rank order) are all `NA` or missing. -/
def RowTable {α : Type} [LinearOrderedField α] (films : List String) (row : List String)
    (t : UMap α) : Prop :=
  (∀ f ∈ films, ∃ r, t.find? f = some r) ∧
  ∀ f ∈ films,
    (∀ j : Nat, films[j]? = some f →
      row.tail[j]? = none ∨ row.tail[j]? = some NOT_RANKED_FILM) →
    t.find? f = some NA_VALUE

/-- A reader of rating tokens for the examples: a token of decimal digits is read as its
number, any other token as 0. -/
def digitsParse {α : Type} [LinearOrderedField α] (token : String) : α :=
  ((token.toNat?.getD 0 : Nat) : α)

/-- A rating file for the examples: the header `A B C`, a row with an `NA` token and a row
with fewer tokens than films. -/
def exampleRanksFile : List (List String) :=
  [["A", "B", "C"], ["u", "5", "1", "NA"], ["v", "4"]]

section PreferenceSpec

variable {α : Type} [LinearOrderedField α]

/-- The entries of a user's table that hold a rating other than `NA_VALUE`. -/
def ratedEntries (stored : UMap α) : List (String × α) :=
  stored.entries.filter (fun e => decide (e.2 ≠ NA_VALUE))

/-- The mean rating of a user: the sum of the ratings other than `NA_VALUE` over their
number. -/
def meanRating (stored : UMap α) : α :=
  ((ratedEntries stored).map Prod.snd).sum / ((ratedEntries stored).length : α)

/-- The component `i` of the sum of `(rating - mean) * featureVector[film]` over the films
the user rated. -/
def preferenceComponent (s : Store α) (stored : UMap α) (i : Nat) : α :=
  ((ratedEntries stored).map
    (fun e => (e.2 - meanRating stored) * (featuresOf s e.1).getD i 0)).sum

end PreferenceSpec

section Rescaling

variable {α : Type} [LinearOrderedField α]

/-- The table of a user with every rating multiplied by `c`; an entry `NA_VALUE = 0`
stays `NA_VALUE`. -/
def scaleRatings (c : α) (stored : UMap α) : UMap α where
  entries := stored.entries.map (fun e => (e.1, c * e.2))
  nodup := by
    have h : (stored.entries.map (fun e => (e.1, c * e.2))).map Prod.fst
        = stored.entries.map Prod.fst := by
      rw [List.map_map]
      rfl
    rw [h]
    exact stored.nodup

/-- The store with the table of one user replaced. -/
def Store.withRatings (s : Store α) (userName : String) (t : UMap α) : Store α :=
  { s with usersRating := s.usersRating.assign userName t }

end Rescaling

/-! # Theorems -/

section Lemmas

variable {α : Type} [LinearOrderedField α] {V : Type}

theorem UMap.atKey_eq_ok {m : UMap V} {key : String} {v : V} :
    m.atKey key = .ok v ↔ m.find? key = some v := by
  unfold UMap.atKey
  cases h : m.find? key <;> simp

theorem UMap.atKey_of_find {m : UMap V} {key : String} {v : V} (h : m.find? key = some v) :
    m.atKey key = .ok v := UMap.atKey_eq_ok.2 h

theorem lookup_of_mem_nodup {l : List (String × V)} (hn : (l.map Prod.fst).Nodup)
    {k : String} {v : V} (h : (k, v) ∈ l) : l.lookup k = some v := by
  induction l with
  | nil => simp at h
  | cons p l ih =>
    obtain ⟨k', v'⟩ := p
    simp only [List.map_cons, List.nodup_cons] at hn
    rcases List.mem_cons.1 h with h1 | h2
    · cases h1
      simp [List.lookup]
    · have hne : k ≠ k' := by
        rintro rfl
        exact hn.1 (List.mem_map_of_mem Prod.fst h2)
      have : (k == k') = false := by simpa using hne
      simp [List.lookup, this, ih hn.2 h2]

theorem mem_of_lookup {l : List (String × V)} {k : String} {v : V}
    (h : l.lookup k = some v) : (k, v) ∈ l := by
  induction l with
  | nil => simp at h
  | cons p l ih =>
    obtain ⟨k', v'⟩ := p
    by_cases hk : k = k'
    · subst hk
      simp [List.lookup] at h
      simp [h]
    · have : (k == k') = false := by simpa using hk
      simp only [List.lookup, this] at h
      exact List.mem_cons_of_mem _ (ih h)

theorem UMap.find_of_mem {m : UMap V} {k : String} {v : V} (h : (k, v) ∈ m.entries) :
    m.find? k = some v := lookup_of_mem_nodup m.nodup h

theorem UMap.mem_of_find {m : UMap V} {k : String} {v : V} (h : m.find? k = some v) :
    (k, v) ∈ m.entries := mem_of_lookup h

end Lemmas

section Content

variable {α : Type} [LinearOrderedField α]

theorem contentScan_name (sqrt : α → α) (s : Store α) (stored : UMap α) (pref : List α)
    (l : List String) (best best' : String × Dbl α)
    (h : contentScan sqrt s stored pref l best = .ok best') :
    best'.1 = best.1 ∨ (best'.1 ∈ l ∧ stored.find? best'.1 = some NA_VALUE) := by
  induction l generalizing best with
  | nil =>
    simp only [contentScan, Except.ok.injEq] at h
    exact Or.inl (by rw [h])
  | cons f rest ih =>
    simp only [contentScan] at h
    split at h
    · cases h
    · rename_i rating hr
      have hf := UMap.atKey_eq_ok.1 hr
      split_ifs at h with hna
      · split at h
        · cases h
        · split_ifs at h
          · rcases ih _ h with h1 | h1
            · right
              simp only at h1
              rw [h1]
              exact ⟨List.mem_cons_self _ _, by rw [hf, hna]⟩
            · exact Or.inr ⟨List.mem_cons_of_mem _ h1.1, h1.2⟩
          · rcases ih _ h with h1 | h1
            · exact Or.inl h1
            · exact Or.inr ⟨List.mem_cons_of_mem _ h1.1, h1.2⟩
      · rcases ih _ h with h1 | h1
        · exact Or.inl h1
        · exact Or.inr ⟨List.mem_cons_of_mem _ h1.1, h1.2⟩

end Content

section ContentScan

variable {α : Type} [LinearOrderedField α]

theorem contentScan_cons_rated (sqrt : α → α) (s : Store α) (stored : UMap α)
    (pref : List α) (f : String) (rest : List String) (best : String × Dbl α) (v : α)
    (hf : stored.find? f = some v) (hv : v ≠ NA_VALUE) :
    contentScan sqrt s stored pref (f :: rest) best
      = contentScan sqrt s stored pref rest best := by
  simp only [contentScan, UMap.atKey_of_find hf, if_neg hv]

theorem contentScan_cons_unrated (sqrt : α → α) (s : Store α) (stored : UMap α)
    (pref : List α) (f : String) (rest : List String) (best : String × Dbl α) (p : Dbl α)
    (hf : stored.find? f = some NA_VALUE) (hp : contentProduct sqrt s pref f = .ok p) :
    contentScan sqrt s stored pref (f :: rest) best
      = if best.2 = .fin (-INT_MAX) ∨ Dbl.gt p best.2 = true then
          contentScan sqrt s stored pref rest (f, p)
        else contentScan sqrt s stored pref rest best := by
  simp only [contentScan, UMap.atKey_of_find hf, hp, if_true]

/-- The scan once a candidate has been taken: either nothing in the list beats the current
best, or the result is the first film of the list that attains the maximum. -/
theorem contentScan_started (sqrt : α → α) (s : Store α) (stored : UMap α) (pref : List α)
    (l : List String) (name : String) (b : α) (hb : -INT_MAX < b)
    (hr : ∀ f ∈ l, ∃ v, stored.find? f = some v)
    (hs : ∀ f ∈ l, stored.find? f = some NA_VALUE →
      ∃ p, contentProduct sqrt s pref f = .ok (.fin p) ∧ -INT_MAX < p) :
    (contentScan sqrt s stored pref l (name, .fin b) = .ok (name, .fin b) ∧
      ∀ f ∈ l, stored.find? f = some NA_VALUE →
        ∀ q, contentProduct sqrt s pref f = .ok (.fin q) → q ≤ b)
    ∨ ∃ pre r post p, l = pre ++ r :: post ∧
        contentScan sqrt s stored pref l (name, .fin b) = .ok (r, .fin p) ∧
        stored.find? r = some NA_VALUE ∧ contentProduct sqrt s pref r = .ok (.fin p) ∧
        b < p ∧
        (∀ f ∈ pre, stored.find? f = some NA_VALUE →
          ∀ q, contentProduct sqrt s pref f = .ok (.fin q) → q < p) ∧
        (∀ f ∈ post, stored.find? f = some NA_VALUE →
          ∀ q, contentProduct sqrt s pref f = .ok (.fin q) → q ≤ p) := by
  induction l generalizing name b with
  | nil =>
    left
    exact ⟨rfl, fun f hf => absurd hf (List.not_mem_nil f)⟩
  | cons f rest ih =>
    have hr' : ∀ g ∈ rest, ∃ v, stored.find? g = some v :=
      fun g hg => hr g (List.mem_cons_of_mem _ hg)
    have hs' : ∀ g ∈ rest, stored.find? g = some NA_VALUE →
        ∃ p, contentProduct sqrt s pref g = .ok (.fin p) ∧ -INT_MAX < p :=
      fun g hg => hs g (List.mem_cons_of_mem _ hg)
    obtain ⟨v, hv⟩ := hr f (List.mem_cons_self _ _)
    by_cases hna : v = NA_VALUE
    · subst hna
      obtain ⟨p, hp, hpm⟩ := hs f (List.mem_cons_self _ _) hv
      rw [contentScan_cons_unrated sqrt s stored pref f rest (name, .fin b) (.fin p) hv hp]
      by_cases hgt : p > b
      · rw [if_pos (Or.inr (by simpa [Dbl.gt] using hgt))]
        rcases ih f p hpm hr' hs' with
          ⟨hres, hall⟩ | ⟨pre, r, post, p', hl, hres, hru, hrp, hlt, hpre, hpost⟩
        · right
          exact ⟨[], f, rest, p, rfl, hres, hv, hp, hgt,
            fun g hg => absurd hg (List.not_mem_nil g), hall⟩
        · right
          refine ⟨f :: pre, r, post, p', by rw [hl]; rfl, hres, hru, hrp,
            lt_trans hgt hlt, ?_, hpost⟩
          intro g hg hgu q hq
          rcases List.mem_cons.1 hg with rfl | hg
          · rw [hp] at hq
            cases hq
            exact hlt
          · exact hpre g hg hgu q hq
      · have hne : ¬ ((name, Dbl.fin b).2 = .fin (-INT_MAX) ∨
            Dbl.gt (.fin p) (name, Dbl.fin b).2 = true) := by
          rintro (h | h)
          · exact absurd (Dbl.fin.inj h) (ne_of_gt hb)
          · exact hgt (by simpa [Dbl.gt] using h)
        rw [if_neg hne]
        have hle : p ≤ b := not_lt.1 hgt
        rcases ih name b hb hr' hs' with
          ⟨hres, hall⟩ | ⟨pre, r, post, p', hl, hres, hru, hrp, hlt, hpre, hpost⟩
        · left
          refine ⟨hres, ?_⟩
          intro g hg hgu q hq
          rcases List.mem_cons.1 hg with rfl | hg
          · rw [hp] at hq
            cases hq
            exact hle
          · exact hall g hg hgu q hq
        · right
          refine ⟨f :: pre, r, post, p', by rw [hl]; rfl, hres, hru, hrp, hlt, ?_, hpost⟩
          intro g hg hgu q hq
          rcases List.mem_cons.1 hg with rfl | hg
          · rw [hp] at hq
            cases hq
            exact lt_of_le_of_lt hle hlt
          · exact hpre g hg hgu q hq
    · rw [contentScan_cons_rated sqrt s stored pref f rest _ v hv hna]
      have hnot : stored.find? f ≠ some NA_VALUE := by
        rw [hv]
        intro h
        exact hna (Option.some.inj h)
      rcases ih name b hb hr' hs' with
        ⟨hres, hall⟩ | ⟨pre, r, post, p', hl, hres, hru, hrp, hlt, hpre, hpost⟩
      · left
        refine ⟨hres, ?_⟩
        intro g hg hgu q hq
        rcases List.mem_cons.1 hg with rfl | hg
        · exact absurd hgu hnot
        · exact hall g hg hgu q hq
      · right
        refine ⟨f :: pre, r, post, p', by rw [hl]; rfl, hres, hru, hrp, hlt, ?_, hpost⟩
        intro g hg hgu q hq
        rcases List.mem_cons.1 hg with rfl | hg
        · exact absurd hgu hnot
        · exact hpre g hg hgu q hq

/-- The scan from the initial marker `-INT_MAX`: with a candidate in the list, the result
is the first film of the list that attains the maximum score among the candidates. -/
theorem contentScan_initial (sqrt : α → α) (s : Store α) (stored : UMap α) (pref : List α)
    (l : List String) (name : String)
    (hr : ∀ f ∈ l, ∃ v, stored.find? f = some v)
    (hs : ∀ f ∈ l, stored.find? f = some NA_VALUE →
      ∃ p, contentProduct sqrt s pref f = .ok (.fin p) ∧ -INT_MAX < p) :
    (contentScan sqrt s stored pref l (name, .fin (-INT_MAX)) = .ok (name, .fin (-INT_MAX)) ∧
      ∀ f ∈ l, stored.find? f ≠ some NA_VALUE)
    ∨ ∃ pre r post p, l = pre ++ r :: post ∧
        contentScan sqrt s stored pref l (name, .fin (-INT_MAX)) = .ok (r, .fin p) ∧
        stored.find? r = some NA_VALUE ∧ contentProduct sqrt s pref r = .ok (.fin p) ∧
        (∀ f ∈ pre, stored.find? f = some NA_VALUE →
          ∀ q, contentProduct sqrt s pref f = .ok (.fin q) → q < p) ∧
        (∀ f ∈ post, stored.find? f = some NA_VALUE →
          ∀ q, contentProduct sqrt s pref f = .ok (.fin q) → q ≤ p) := by
  induction l with
  | nil =>
    left
    exact ⟨rfl, fun f hf => absurd hf (List.not_mem_nil f)⟩
  | cons f rest ih =>
    have hr' : ∀ g ∈ rest, ∃ v, stored.find? g = some v :=
      fun g hg => hr g (List.mem_cons_of_mem _ hg)
    have hs' : ∀ g ∈ rest, stored.find? g = some NA_VALUE →
        ∃ p, contentProduct sqrt s pref g = .ok (.fin p) ∧ -INT_MAX < p :=
      fun g hg => hs g (List.mem_cons_of_mem _ hg)
    obtain ⟨v, hv⟩ := hr f (List.mem_cons_self _ _)
    by_cases hna : v = NA_VALUE
    · subst hna
      obtain ⟨p, hp, hpm⟩ := hs f (List.mem_cons_self _ _) hv
      rw [contentScan_cons_unrated sqrt s stored pref f rest _ (.fin p) hv hp,
        if_pos (Or.inl rfl)]
      right
      rcases contentScan_started sqrt s stored pref rest f p hpm hr' hs' with
        ⟨hres, hall⟩ | ⟨pre, r, post, p', hl, hres, hru, hrp, hlt, hpre, hpost⟩
      · exact ⟨[], f, rest, p, rfl, hres, hv, hp,
          fun g hg => absurd hg (List.not_mem_nil g), hall⟩
      · refine ⟨f :: pre, r, post, p', by rw [hl]; rfl, hres, hru, hrp, ?_, hpost⟩
        intro g hg hgu q hq
        rcases List.mem_cons.1 hg with rfl | hg
        · rw [hp] at hq
          cases hq
          exact hlt
        · exact hpre g hg hgu q hq
    · rw [contentScan_cons_rated sqrt s stored pref f rest _ v hv hna]
      have hnot : stored.find? f ≠ some NA_VALUE := by
        rw [hv]
        intro h
        exact hna (Option.some.inj h)
      rcases ih hr' hs' with ⟨hres, hall⟩ | ⟨pre, r, post, p', hl, hres, hru, hrp, hpre, hpost⟩
      · left
        refine ⟨hres, ?_⟩
        intro g hg
        rcases List.mem_cons.1 hg with rfl | hg
        · exact hnot
        · exact hall g hg
      · right
        refine ⟨f :: pre, r, post, p', by rw [hl]; rfl, hres, hru, hrp, ?_, hpost⟩
        intro g hg hgu q hq
        rcases List.mem_cons.1 hg with rfl | hg
        · exact absurd hgu hnot
        · exact hpre g hg hgu q hq

end ContentScan

section Vectors

variable {α : Type} [LinearOrderedField α]

theorem innerProduct_eq (a b : List α) (init : α) (h : a.length ≤ b.length) :
    innerProduct a b init = .ok (init + dotSum a b) := by
  induction a generalizing b init with
  | nil => simp [innerProduct, dotSum]
  | cons x a ih =>
    cases b with
    | nil => simp at h
    | cons y b =>
      simp only [List.length_cons, Nat.add_le_add_iff_right] at h
      simp only [innerProduct, ih b _ h, dotSum, List.zipWith_cons_cons, List.sum_cons,
        add_assoc]

theorem dotProduct_eq (a b : List α) (h : a.length ≤ b.length) :
    _dotProduct a b = .ok (dotSum a b) := by
  simp [_dotProduct, innerProduct_eq a b 0 h]

theorem foldl_squares (v : List α) (init : α) :
    v.foldl (fun product i => product + i * i) init = init + sumSquares v := by
  induction v generalizing init with
  | nil => simp [sumSquares]
  | cons x v ih => simp [List.foldl_cons, ih, sumSquares, add_assoc]

theorem norm_eq (sqrt : α → α) (v : List α) : norm sqrt v = sqrt (sumSquares v) := by
  simp [norm, foldl_squares]

theorem sumSquares_nonneg (v : List α) : 0 ≤ sumSquares v := by
  induction v with
  | nil => simp [sumSquares]
  | cons x v ih =>
    have : sumSquares (x :: v) = x * x + sumSquares v := by simp [sumSquares]
    rw [this]
    exact add_nonneg (mul_self_nonneg x) ih

/-- The Cauchy-Schwarz inequality for the sums the code accumulates. -/
theorem dotSum_sq_le (a b : List α) : dotSum a b ^ 2 ≤ sumSquares a * sumSquares b := by
  induction a generalizing b with
  | nil =>
    have : dotSum ([] : List α) b = 0 := by simp [dotSum]
    rw [this]
    simp [sumSquares]
  | cons x a ih =>
    cases b with
    | nil =>
      have : dotSum (x :: a) ([] : List α) = 0 := by simp [dotSum]
      rw [this]
      simp [sumSquares]
    | cons y b =>
      have hd : dotSum (x :: a) (y :: b) = x * y + dotSum a b := by simp [dotSum]
      have ha : sumSquares (x :: a) = x * x + sumSquares a := by simp [sumSquares]
      have hb : sumSquares (y :: b) = y * y + sumSquares b := by simp [sumSquares]
      rw [hd, ha, hb]
      have hA := sumSquares_nonneg a
      have hB := sumSquares_nonneg b
      have hD := ih b
      set D := dotSum a b
      set A := sumSquares a
      set B := sumSquares b
      have key : 2 * (x * y * D) ≤ x * x * B + y * y * A := by
        have h0 : 0 ≤ x * x * B + y * y * A :=
          add_nonneg (mul_nonneg (mul_self_nonneg x) hB) (mul_nonneg (mul_self_nonneg y) hA)
        have h1 : (2 * (x * y * D)) ^ 2 ≤ (x * x * B + y * y * A) ^ 2 := by
          have h2 : (x * y) ^ 2 * D ^ 2 ≤ (x * y) ^ 2 * (A * B) :=
            mul_le_mul_of_nonneg_left hD (sq_nonneg _)
          nlinarith [sq_nonneg (x * x * B - y * y * A)]
        exact le_trans (le_abs_self _) (abs_le_of_sq_le_sq h1 h0)
      nlinarith

/-- A quotient of a scalar product by the product of the two norms lies in `[-1, 1]`. -/
theorem cosine_bounds (sqrt : α → α) (hsq : IsSqrt sqrt) (a b : List α) :
    -1 ≤ dotSum a b / (norm sqrt a * norm sqrt b) ∧
      dotSum a b / (norm sqrt a * norm sqrt b) ≤ 1 := by
  rw [norm_eq, norm_eq]
  have hna := hsq.nonneg (sumSquares a)
  have hnb := hsq.nonneg (sumSquares b)
  have hsa := hsq.mul_self _ (sumSquares_nonneg a)
  have hsb := hsq.mul_self _ (sumSquares_nonneg b)
  set na := sqrt (sumSquares a)
  set nb := sqrt (sumSquares b)
  have hden : 0 ≤ na * nb := mul_nonneg hna hnb
  have hsq' : dotSum a b ^ 2 ≤ (na * nb) ^ 2 := by
    have := dotSum_sq_le a b
    calc dotSum a b ^ 2 ≤ sumSquares a * sumSquares b := this
      _ = (na * nb) ^ 2 := by rw [← hsa, ← hsb]; ring
  have habs := abs_le_of_sq_le_sq' hsq' hden
  rcases eq_or_lt_of_le hden with h0 | hpos
  · rw [← h0]
    simp
  · constructor
    · rw [le_div_iff₀ hpos]
      linarith [habs.1]
    · rw [div_le_iff₀ hpos]
      linarith [habs.2]

theorem dotSum_comm (a b : List α) : dotSum a b = dotSum b a := by
  induction a generalizing b with
  | nil => cases b <;> simp [dotSum]
  | cons x a ih =>
    cases b with
    | nil => simp [dotSum]
    | cons y b =>
      have h1 : dotSum (x :: a) (y :: b) = x * y + dotSum a b := by simp [dotSum]
      have h2 : dotSum (y :: b) (x :: a) = y * x + dotSum b a := by simp [dotSum]
      rw [h1, h2, ih b, mul_comm]

theorem dotSum_self (a : List α) : dotSum a a = sumSquares a := by
  induction a with
  | nil => simp [dotSum, sumSquares]
  | cons x a ih =>
    have h1 : dotSum (x :: a) (x :: a) = x * x + dotSum a a := by simp [dotSum]
    have h2 : sumSquares (x :: a) = x * x + sumSquares a := by simp [sumSquares]
    rw [h1, h2, ih]

theorem sumSquares_pos (a : List α) (h : ∃ x ∈ a, x ≠ 0) : 0 < sumSquares a := by
  induction a with
  | nil =>
    obtain ⟨x, hx, _⟩ := h
    exact absurd hx (List.not_mem_nil x)
  | cons y a ih =>
    have h2 : sumSquares (y :: a) = y * y + sumSquares a := by simp [sumSquares]
    rw [h2]
    obtain ⟨x, hx, hne⟩ := h
    rcases List.mem_cons.1 hx with rfl | hx
    · exact add_pos_of_pos_of_nonneg (mul_self_pos.2 hne) (sumSquares_nonneg a)
    · exact add_pos_of_nonneg_of_pos (mul_self_nonneg y) (ih ⟨x, hx, hne⟩)

theorem sumSquares_zero (a : List α) (h : ∀ x ∈ a, x = 0) : sumSquares a = 0 := by
  induction a with
  | nil => simp [sumSquares]
  | cons y a ih =>
    have h2 : sumSquares (y :: a) = y * y + sumSquares a := by simp [sumSquares]
    rw [h2, h y (List.mem_cons_self _ _), ih (fun x hx => h x (List.mem_cons_of_mem _ hx))]
    simp

theorem IsSqrt.zero {sqrt : α → α} (hsq : IsSqrt sqrt) : sqrt 0 = 0 := by
  have h := hsq.mul_self 0 (le_refl 0)
  exact mul_self_eq_zero.1 h

theorem dotSum_nonneg (a b : List α) (ha : ∀ x ∈ a, 0 ≤ x) (hb : ∀ x ∈ b, 0 ≤ x) :
    0 ≤ dotSum a b := by
  induction a generalizing b with
  | nil => simp [dotSum]
  | cons x a ih =>
    cases b with
    | nil => simp [dotSum]
    | cons y b =>
      have h : dotSum (x :: a) (y :: b) = x * y + dotSum a b := by simp [dotSum]
      rw [h]
      exact add_nonneg
        (mul_nonneg (ha x (List.mem_cons_self _ _)) (hb y (List.mem_cons_self _ _)))
        (ih b (fun z hz => ha z (List.mem_cons_of_mem _ hz))
          (fun z hz => hb z (List.mem_cons_of_mem _ hz)))

theorem cosineSimilarity_nonneg (sqrt : α → α) (hsq : IsSqrt sqrt) (a b : List α)
    (ha : ∀ x ∈ a, 0 ≤ x) (hb : ∀ x ∈ b, 0 ≤ x) : 0 ≤ cosineSimilarity sqrt a b := by
  unfold cosineSimilarity
  rw [norm_eq, norm_eq]
  exact div_nonneg (dotSum_nonneg a b ha hb) (mul_nonneg (hsq.nonneg _) (hsq.nonneg _))

theorem neg_INT_MAX_lt_neg_one : (-INT_MAX : α) < -1 := by
  unfold INT_MAX
  norm_num

theorem innerProduct_value (a b : List α) (init d : α)
    (h : innerProduct a b init = .ok d) : d = init + dotSum a b := by
  induction a generalizing b init with
  | nil =>
    simp only [innerProduct, Except.ok.injEq] at h
    simp [dotSum, h]
  | cons x a ih =>
    cases b with
    | nil => simp [innerProduct] at h
    | cons y b =>
      simp only [innerProduct] at h
      rw [ih b _ h]
      simp [dotSum, add_assoc]

theorem dotProduct_value (a b : List α) (d : α) (h : _dotProduct a b = .ok d) :
    d = dotSum a b := by
  have := innerProduct_value a b 0 d h
  simpa using this

end Vectors

section Similarity

variable {α : Type} [LinearOrderedField α]

theorem Dbl.gt_fin (a b : α) : Dbl.gt (Dbl.fin a) (Dbl.fin b) = true ↔ b < a := by
  simp [Dbl.gt]

theorem Dbl.gt_trans (a b c : Dbl α) (h1 : Dbl.gt a b = true) (h2 : Dbl.gt b c = true) :
    Dbl.gt a c = true := by
  cases a <;> cases b <;> cases c <;> simp [Dbl.gt] at h1 h2 ⊢
  exact lt_trans h2 h1

theorem Dbl.gt_nan_right (x : Dbl α) : Dbl.gt x Dbl.nan = false := by
  cases x <;> rfl

theorem Dbl.gt_nan_left (x : Dbl α) : Dbl.gt Dbl.nan x = false := by
  cases x <;> rfl

theorem Dbl.ge_nan_right (x : Dbl α) : Dbl.ge x Dbl.nan = false := by
  cases x <;> rfl

theorem Dbl.ge_nan_left (x : Dbl α) : Dbl.ge Dbl.nan x = false := by
  cases x <;> rfl

theorem Dbl.div_fin (a b : α) (hb : b ≠ 0) :
    Dbl.div (Dbl.fin a) (Dbl.fin b) = Dbl.fin (a / b) := by
  simp [Dbl.div, hb]

theorem Dbl.div_zero_zero : Dbl.div (Dbl.fin (0 : α)) (Dbl.fin 0) = Dbl.nan := by
  simp [Dbl.div]

theorem not_nonZero (v : List α) : ¬ nonZero v ↔ ∀ x ∈ v, x = 0 := by
  unfold nonZero
  push_neg
  rfl

theorem norm_pos (sqrt : α → α) (hsq : IsSqrt sqrt) (v : List α) (h : nonZero v) :
    0 < norm sqrt v := by
  rw [norm_eq]
  have hpos := sumSquares_pos v h
  have hmul := hsq.mul_self _ (le_of_lt hpos)
  rcases eq_or_lt_of_le (hsq.nonneg (sumSquares v)) with h0 | h0
  · rw [← h0] at hmul
    simp only [mul_zero] at hmul
    exact absurd hmul.symm (ne_of_gt hpos)
  · exact h0

theorem norm_zero (sqrt : α → α) (hsq : IsSqrt sqrt) (v : List α) (h : ∀ x ∈ v, x = 0) :
    norm sqrt v = 0 := by
  rw [norm_eq, sumSquares_zero v h, hsq.zero]

theorem dotSum_zero_left (a b : List α) (h : ∀ x ∈ a, x = 0) : dotSum a b = 0 := by
  induction a generalizing b with
  | nil => simp [dotSum]
  | cons x a ih =>
    cases b with
    | nil => simp [dotSum]
    | cons y b =>
      have h1 : dotSum (x :: a) (y :: b) = x * y + dotSum a b := by simp [dotSum]
      rw [h1, h x (List.mem_cons_self _ _), ih b (fun z hz => h z (List.mem_cons_of_mem _ hz))]
      simp

theorem dotSum_zero_right (a b : List α) (h : ∀ x ∈ b, x = 0) : dotSum a b = 0 := by
  rw [dotSum_comm]
  exact dotSum_zero_left b a h

/-- The similarity of two vectors that both have a non-zero element is the number
`cosineSimilarity`. -/
theorem similarity_fin (sqrt : α → α) (hsq : IsSqrt sqrt) (a b : List α) (ha : nonZero a)
    (hb : nonZero b) : similarity sqrt a b = Dbl.fin (cosineSimilarity sqrt a b) := by
  unfold similarity cosineSimilarity
  exact Dbl.div_fin _ _
    (ne_of_gt (mul_pos (norm_pos sqrt hsq a ha) (norm_pos sqrt hsq b hb)))

/-- The similarity to a vector of zeros is NaN. -/
theorem similarity_nan_left (sqrt : α → α) (hsq : IsSqrt sqrt) (a b : List α)
    (ha : ∀ x ∈ a, x = 0) : similarity sqrt a b = Dbl.nan := by
  unfold similarity
  rw [dotSum_zero_left a b ha, norm_zero sqrt hsq a ha, zero_mul]
  exact Dbl.div_zero_zero

theorem similarity_nan_right (sqrt : α → α) (hsq : IsSqrt sqrt) (a b : List α)
    (hb : ∀ x ∈ b, x = 0) : similarity sqrt a b = Dbl.nan := by
  unfold similarity
  rw [dotSum_zero_right a b hb, norm_zero sqrt hsq b hb, mul_zero]
  exact Dbl.div_zero_zero

/-- A similarity is NaN or a number between -1 and 1. -/
theorem similarity_cases (sqrt : α → α) (hsq : IsSqrt sqrt) (a b : List α) :
    similarity sqrt a b = Dbl.nan ∨
      (similarity sqrt a b = Dbl.fin (cosineSimilarity sqrt a b) ∧
        -1 ≤ cosineSimilarity sqrt a b ∧ cosineSimilarity sqrt a b ≤ 1) := by
  by_cases ha : nonZero a
  · by_cases hb : nonZero b
    · exact Or.inr ⟨similarity_fin sqrt hsq a b ha hb, cosine_bounds sqrt hsq a b⟩
    · exact Or.inl (similarity_nan_right sqrt hsq a b ((not_nonZero b).1 hb))
  · exact Or.inl (similarity_nan_left sqrt hsq a b ((not_nonZero a).1 ha))

end Similarity

section ContentTotal

variable {α : Type} [LinearOrderedField α]

theorem addToPreferenceVector_ok (source vector : List α) (scalar : α)
    (h : source.length ≤ vector.length) :
    ∃ out, _addToPreferenceVector source vector scalar = .ok out ∧
      out.length = vector.length := by
  induction source generalizing vector with
  | nil => exact ⟨vector, rfl, rfl⟩
  | cons x source ih =>
    cases vector with
    | nil => simp at h
    | cons v vector =>
      simp only [List.length_cons, Nat.add_le_add_iff_right] at h
      obtain ⟨out, ho, hl⟩ := ih vector h
      exact ⟨(v + x * scalar) :: out, by simp [_addToPreferenceVector, ho], by simp [hl]⟩

theorem centreRatings_ok (moviesScores : UMap (List α)) (avg : α) (n : Nat)
    (l : List (String × α)) (preferVector : List α) (hp : preferVector.length = n)
    (hl : ∀ e ∈ l, e.2 ≠ NA_VALUE →
      ∃ v, moviesScores.find? e.1 = some v ∧ v.length ≤ n) :
    ∃ copy out, centreRatings moviesScores avg l preferVector = .ok (copy, out) ∧
      out.length = n := by
  induction l generalizing preferVector with
  | nil => exact ⟨[], preferVector, rfl, hp⟩
  | cons e rest ih =>
    have hrest : ∀ e' ∈ rest, e'.2 ≠ NA_VALUE →
        ∃ v, moviesScores.find? e'.1 = some v ∧ v.length ≤ n :=
      fun e' he' => hl e' (List.mem_cons_of_mem _ he')
    by_cases hna : e.2 ≠ NA_VALUE
    · obtain ⟨v, hv, hvl⟩ := hl e (List.mem_cons_self _ _) hna
      obtain ⟨pv, hpv, hpl⟩ := addToPreferenceVector_ok v preferVector (e.2 - avg)
        (by rw [hp]; exact hvl)
      obtain ⟨copy, out, hc, hol⟩ := ih pv (by rw [hpl, hp]) hrest
      exact ⟨(e.1, e.2 - avg) :: copy, out,
        by simp only [centreRatings, if_pos hna, UMap.atKey_of_find hv, hpv, hc], hol⟩
    · obtain ⟨copy, out, hc, hol⟩ := ih preferVector hp hrest
      exact ⟨e :: copy, out, by simp only [centreRatings, if_neg hna, hc], hol⟩

/-- On a well-formed store the preference vector of a
known user is built without a fault and has the length of the feature vectors. -/
theorem preferenceVector_ok (sqrt : α → α) (s : Store α) (hwf : WellFormed sqrt s)
    (userName : String) (stored : UMap α)
    (hu : s.usersRating.find? userName = some stored) :
    ∃ pref, preferenceVector s stored = .ok pref ∧
      ∀ f v, s.moviesScores.find? f = some v → pref.length = v.length := by
  cases hent : s.moviesScores.entries with
  | nil => exact absurd hent hwf.nonempty
  | cons first tail =>
    have hfirst : s.moviesScores.find? first.1 = some first.2 :=
      UMap.find_of_mem (by rw [hent]; exact List.mem_cons_self _ _)
    have hl : ∀ e ∈ stored.entries, e.2 ≠ NA_VALUE →
        ∃ v, s.moviesScores.find? e.1 = some v ∧ v.length ≤ first.2.length := by
      intro e he hna
      obtain ⟨v, hv⟩ := hwf.ratedKnown userName stored hu e.1 e.2 (UMap.find_of_mem he) hna
      exact ⟨v, hv, le_of_eq (hwf.sameLength _ _ _ _ hv hfirst)⟩
    obtain ⟨copy, out, hc, hol⟩ := centreRatings_ok s.moviesScores
      ((sumRated stored.entries).1 / (sumRated stored.entries).2) first.2.length
      stored.entries (List.replicate first.2.length 0) (by simp) hl
    refine ⟨out, ?_, ?_⟩
    · simp only [preferenceVector, initialPreferVector, hent, hc]
    · intro f v hv
      rw [hol]
      exact hwf.sameLength _ _ _ _ hfirst hv

/-- On a well-formed store the score of a film with a feature vector of the length of the
preference vector is their similarity. -/
theorem contentProduct_eq (sqrt : α → α) (s : Store α) (hwf : WellFormed sqrt s)
    (pref : List α) (f : String) (v : List α) (hv : s.moviesScores.find? f = some v)
    (hlen : pref.length = v.length) :
    contentProduct sqrt s pref f = .ok (similarity sqrt pref v) := by
  have hc : s.normedMoviesVectors.find? f = some (norm sqrt v) := by
    rw [hwf.normCache f, hv]
    rfl
  simp only [contentProduct, UMap.atKey_of_find hv, dotProduct_eq pref v (le_of_eq hlen),
    UMap.atKey_of_find hc, similarity]

theorem neg_INT_MAX_lt_cosine (sqrt : α → α) (hsq : IsSqrt sqrt) (a b : List α) :
    -INT_MAX < cosineSimilarity sqrt a b := by
  have h := (cosine_bounds sqrt hsq a b).1
  have h1 : (-INT_MAX : α) < -1 := by
    unfold INT_MAX
    norm_num
  exact lt_of_lt_of_le h1 h

end ContentTotal

section ExampleFacts

variable {α : Type} [LinearOrderedField α]

theorem isSqrt_real : IsSqrt Real.sqrt where
  nonneg := Real.sqrt_nonneg
  mul_self := fun _ hx => Real.mul_self_sqrt hx

theorem exampleStore_user (sqrt : α → α) :
    (exampleStore sqrt).usersRating.find? "u" = some exampleRatings := by
  simp [exampleStore, UMap.find?, List.lookup]

theorem exampleStore_userAll (sqrt : α → α) :
    (exampleStore sqrt).usersRating.find? "v" = some exampleRatingsAll := by
  simp [exampleStore, UMap.find?, List.lookup]

theorem exampleStore_wellFormed (sqrt : α → α) : WellFormed sqrt (exampleStore sqrt) where
  sameLength := by
    intro f g v w hf hg
    have h1 := UMap.mem_of_find hf
    have h2 := UMap.mem_of_find hg
    simp only [exampleStore, List.mem_cons, Prod.mk.injEq, List.mem_singleton,
      List.not_mem_nil, or_false] at h1 h2
    rcases h1 with ⟨-, rfl⟩ | ⟨-, rfl⟩ | ⟨-, rfl⟩ <;>
      rcases h2 with ⟨-, rfl⟩ | ⟨-, rfl⟩ | ⟨-, rfl⟩ <;> rfl
  normCache := by
    intro f
    simp only [exampleStore, UMap.find?, List.lookup]
    split <;> [rfl; (split <;> [rfl; (split <;> rfl)])]
  userTotal := by
    intro u stored hu f hf
    have h1 := UMap.mem_of_find hu
    simp only [exampleStore, List.mem_cons, List.mem_singleton, Prod.mk.injEq,
      List.not_mem_nil, or_false] at h1
    simp only [exampleStore, List.mem_cons, List.mem_singleton, List.not_mem_nil,
      or_false] at hf
    rcases h1 with ⟨-, rfl⟩ | ⟨-, rfl⟩ <;> rcases hf with rfl | rfl | rfl <;>
      simp [exampleRatings, exampleRatingsAll, UMap.find?, List.lookup]
  rankedKnown := by
    intro f hf
    simp only [exampleStore, List.mem_cons, List.mem_singleton, List.not_mem_nil,
      or_false] at hf
    rcases hf with rfl | rfl | rfl <;> simp [exampleStore, UMap.find?, List.lookup]
  ratedKnown := by
    intro u stored hu f r hf _
    have h1 := UMap.mem_of_find hu
    simp only [exampleStore, List.mem_cons, List.mem_singleton, Prod.mk.injEq,
      List.not_mem_nil, or_false] at h1
    have h2 := UMap.mem_of_find hf
    rcases h1 with ⟨-, rfl⟩ | ⟨-, rfl⟩ <;>
      simp only [exampleRatings, exampleRatingsAll, List.mem_cons, Prod.mk.injEq,
        List.mem_singleton, List.not_mem_nil, or_false] at h2 <;>
      rcases h2 with ⟨rfl, -⟩ | ⟨rfl, -⟩ | ⟨rfl, -⟩ <;>
      simp [exampleStore, UMap.find?, List.lookup]
  nonempty := by simp [exampleStore]

end ExampleFacts

section ContentClaims

variable {α : Type} [LinearOrderedField α]

theorem contentScan_ok (sqrt : α → α) (s : Store α) (stored : UMap α) (pref : List α)
    (l : List String) (best : String × Dbl α)
    (hr : ∀ f ∈ l, ∃ v, stored.find? f = some v)
    (hs : ∀ f ∈ l, stored.find? f = some NA_VALUE →
      ∃ p, contentProduct sqrt s pref f = .ok p) :
    ∃ best', contentScan sqrt s stored pref l best = .ok best' := by
  induction l generalizing best with
  | nil => exact ⟨best, rfl⟩
  | cons f rest ih =>
    have hr' : ∀ g ∈ rest, ∃ v, stored.find? g = some v :=
      fun g hg => hr g (List.mem_cons_of_mem _ hg)
    have hs' : ∀ g ∈ rest, stored.find? g = some NA_VALUE →
        ∃ p, contentProduct sqrt s pref g = .ok p :=
      fun g hg => hs g (List.mem_cons_of_mem _ hg)
    obtain ⟨v, hv⟩ := hr f (List.mem_cons_self _ _)
    by_cases hna : v = NA_VALUE
    · subst hna
      obtain ⟨p, hp⟩ := hs f (List.mem_cons_self _ _) hv
      rw [contentScan_cons_unrated sqrt s stored pref f rest best p hv hp]
      split_ifs
      · exact ih _ hr' hs'
      · exact ih _ hr' hs'
    · rw [contentScan_cons_rated sqrt s stored pref f rest best v hv hna]
      exact ih _ hr' hs'

/-- Claim C1. For a user of the rating table, whatever `recommendByContent` returns is
the empty string or a film of the rank order whose entry in the user's table is the unrated
value `NA_VALUE`, so never a film the user rated; and on a well-formed store the call does
return. -/
theorem recommendByContent_never_rated (sqrt : α → α) (s : Store α) (userName : String)
    (stored : UMap α) (hu : s.usersRating.find? userName = some stored) :
    (∀ r, (recommendByContent sqrt userName s).1 = .ok r →
        r = "" ∨ (r ∈ s.rankedFilmOrder ∧ stored.find? r = some NA_VALUE)) ∧
    (WellFormed sqrt s → ∃ r, (recommendByContent sqrt userName s).1 = .ok r) := by
  constructor
  · intro r hr
    simp only [recommendByContent, hu] at hr
    split at hr
    · cases hr
    · rename_i pref hpref
      split at hr
      · cases hr
      · rename_i best hbest
        simp only [Except.ok.injEq] at hr
        have := contentScan_name sqrt s stored pref _ _ _ hbest
        rw [hr] at this
        exact this
  · intro hwf
    obtain ⟨pref, hpref, hlen⟩ := preferenceVector_ok sqrt s hwf userName stored hu
    have hr : ∀ f ∈ s.rankedFilmOrder, ∃ v, stored.find? f = some v :=
      hwf.userTotal userName stored hu
    have hs : ∀ f ∈ s.rankedFilmOrder, stored.find? f = some NA_VALUE →
        ∃ p, contentProduct sqrt s pref f = .ok p := by
      intro f hf _
      obtain ⟨v, hv⟩ := hwf.rankedKnown f hf
      exact ⟨_, contentProduct_eq sqrt s hwf pref f v hv (hlen f v hv)⟩
    obtain ⟨best, hbest⟩ := contentScan_ok sqrt s stored pref s.rankedFilmOrder
      ("", .fin (-INT_MAX)) hr hs
    exact ⟨best.1, by simp only [recommendByContent, hu, hpref, hbest]⟩

/-- Witness of claim C1 on the worked example, a well-formed store with three films. -/
theorem recommendByContent_never_rated_witness :
    (exampleStore Real.sqrt).usersRating.find? "u" = some exampleRatings ∧
    WellFormed Real.sqrt (exampleStore Real.sqrt) ∧
    ((∀ r, (recommendByContent Real.sqrt "u" (exampleStore Real.sqrt)).1 = .ok r →
        r = "" ∨ (r ∈ (exampleStore Real.sqrt).rankedFilmOrder ∧
          (exampleRatings : UMap ℝ).find? r = some NA_VALUE)) ∧
      (WellFormed Real.sqrt (exampleStore Real.sqrt) →
        ∃ r, (recommendByContent Real.sqrt "u" (exampleStore Real.sqrt)).1 = .ok r)) :=
  ⟨exampleStore_user Real.sqrt, exampleStore_wellFormed Real.sqrt,
    recommendByContent_never_rated Real.sqrt (exampleStore Real.sqrt) "u" exampleRatings
      (exampleStore_user Real.sqrt)⟩

end ContentClaims

section Collaborative

variable {α : Type} [LinearOrderedField α]

theorem predictMovieScoreForUser_store (S : StdSort α) (movieName userName : String)
    (k : Int) (s : Store α) : (predictMovieScoreForUser S movieName userName k s).2 = s := by
  unfold predictMovieScoreForUser
  split_ifs
  · rfl
  · split
    · rfl
    · split
      · rfl
      · split <;> rfl

theorem cfScan_store (S : StdSort α) (userName : String) (k : Int) (l : List String)
    (best : Dbl α × String) (s : Store α) : (cfScan S userName k l best s).2 = s := by
  induction l generalizing best s with
  | nil => rfl
  | cons itemNA rest ih =>
    have hs := predictMovieScoreForUser_store S itemNA userName k s
    simp only [cfScan]
    split
    · rename_i e s' heq
      rw [heq] at hs
      exact hs
    · rename_i tempRate s' heq
      rw [heq] at hs
      simp only at hs
      subst hs
      split_ifs
      · exact ih _ _
      · exact ih _ _

theorem filmSimilarity_eq (sqrt : α → α) (s : Store α) (hwf : WellFormed sqrt s)
    (movieName singleFile : String) (target v : List α)
    (hm : s.moviesScores.find? movieName = some target)
    (hv : s.moviesScores.find? singleFile = some v) :
    filmSimilarity s movieName singleFile = .ok (similarity sqrt target v) := by
  have hct : s.normedMoviesVectors.find? movieName = some (norm sqrt target) := by
    rw [hwf.normCache movieName, hm]
    rfl
  have hcv : s.normedMoviesVectors.find? singleFile = some (norm sqrt v) := by
    rw [hwf.normCache singleFile, hv]
    rfl
  simp only [filmSimilarity, UMap.atKey_of_find hm, UMap.atKey_of_find hv,
    dotProduct_eq target v (le_of_eq (hwf.sameLength _ _ _ _ hm hv)),
    UMap.atKey_of_find hct, UMap.atKey_of_find hcv, similarity]

theorem isRated_of_find {stored : UMap α} {f : String} {r : α}
    (h : stored.find? f = some r) : isRated stored f = decide (r ≠ NA_VALUE) := by
  simp [isRated, h]

theorem featuresOf_of_find {β : Type} {s : Store β} {f : String} {v : List β}
    (h : s.moviesScores.find? f = some v) : featuresOf s f = v := by
  simp [featuresOf, h]

theorem ratingOf_of_find {stored : UMap α} {f : String} {r : α}
    (h : stored.find? f = some r) : ratingOf stored f = r := by
  simp [ratingOf, h]

/-- The first loop of `predictMovieScoreForUser` collects the rated films of the list with
their similarity to the target film. -/
theorem collectSetN_eq (sqrt : α → α) (s : Store α) (hwf : WellFormed sqrt s)
    (movieName : String) (target : List α)
    (hm : s.moviesScores.find? movieName = some target) (stored : UMap α)
    (l : List String)
    (hl : ∀ f ∈ l, (∃ r, stored.find? f = some r) ∧ ∃ v, s.moviesScores.find? f = some v) :
    collectSetN s movieName stored l
      = .ok ((l.filter (isRated stored)).map
          (fun film => (film, similarity sqrt target (featuresOf s film)))) := by
  induction l with
  | nil => rfl
  | cons f rest ih =>
    obtain ⟨⟨r, hr⟩, ⟨v, hv⟩⟩ := hl f (List.mem_cons_self _ _)
    have ih' := ih (fun g hg => hl g (List.mem_cons_of_mem _ hg))
    by_cases hna : r ≠ NA_VALUE
    · have hrated : isRated stored f = true := by simp [isRated_of_find hr, hna]
      simp only [collectSetN, UMap.atKey_of_find hr, if_pos hna,
        filmSimilarity_eq sqrt s hwf movieName f target v hm hv, ih',
        List.filter_cons, hrated, if_true, List.map_cons, featuresOf_of_find hv]
    · have hrated : isRated stored f = false := by simp [isRated_of_find hr, hna]
      simp only [collectSetN, UMap.atKey_of_find hr, if_neg hna, ih', List.filter_cons,
        hrated]
      rfl

theorem Dbl.sum_append_singleton (l : List (Dbl α)) (x : Dbl α) :
    Dbl.sum (l ++ [x]) = Dbl.add (Dbl.sum l) x := by
  simp [Dbl.sum, List.foldl_append]

theorem Dbl.foldl_add_fin (l : List α) (acc : α) :
    (l.map Dbl.fin).foldl Dbl.add (Dbl.fin acc) = Dbl.fin (acc + l.sum) := by
  induction l generalizing acc with
  | nil => simp
  | cons x l ih =>
    simp only [List.map_cons, List.foldl_cons, Dbl.add, List.sum_cons]
    rw [ih, add_assoc]

/-- The sum of numbers is the number that is their sum. -/
theorem Dbl.sum_fin (l : List α) : Dbl.sum (l.map Dbl.fin) = Dbl.fin l.sum := by
  unfold Dbl.sum
  rw [Dbl.foldl_add_fin, zero_add]

theorem Dbl.add_nan_left (x : Dbl α) : Dbl.add Dbl.nan x = Dbl.nan := by
  cases x <;> rfl

theorem Dbl.add_nan_right (x : Dbl α) : Dbl.add x Dbl.nan = Dbl.nan := by
  cases x <;> rfl

theorem Dbl.foldl_add_nan (l : List (Dbl α)) : l.foldl Dbl.add Dbl.nan = Dbl.nan := by
  induction l with
  | nil => rfl
  | cons x l ih => rw [List.foldl_cons, Dbl.add_nan_left, ih]

theorem Dbl.foldl_add_mem_nan (l : List (Dbl α)) (acc : Dbl α) (h : Dbl.nan ∈ l) :
    l.foldl Dbl.add acc = Dbl.nan := by
  induction l generalizing acc with
  | nil => exact absurd h (List.not_mem_nil _)
  | cons x l ih =>
    rw [List.foldl_cons]
    rcases List.mem_cons.1 h with hx | hx
    · rw [← hx, Dbl.add_nan_right, Dbl.foldl_add_nan]
    · exact ih _ hx

/-- A sum with a NaN among its terms is NaN. -/
theorem Dbl.sum_nan (l : List (Dbl α)) (h : Dbl.nan ∈ l) : Dbl.sum l = Dbl.nan :=
  Dbl.foldl_add_mem_nan l _ h

/-- The second loop of `predictMovieScoreForUser` over the first `n` pairs of a vector of
at least `n` pairs accumulates the weighted ratings and the weights of those pairs. -/
theorem weightedSums_eq (stored : UMap α) (setN : List (String × Dbl α)) (n : Nat)
    (hn : n ≤ setN.length) (hs : ∀ p ∈ setN, ∃ r, stored.find? p.1 = some r) :
    weightedSums stored setN n
      = .ok (Dbl.sum ((setN.take n).map
            (fun p => Dbl.mul p.2 (Dbl.fin (ratingOf stored p.1)))),
          Dbl.sum ((setN.take n).map Prod.snd)) := by
  induction n with
  | zero => simp [weightedSums, Dbl.sum]
  | succ i ih =>
    have hi : i < setN.length := hn
    have hget : setN[i]? = some setN[i] := List.getElem?_eq_getElem hi
    obtain ⟨r, hr⟩ := hs setN[i] (List.getElem_mem _)
    simp only [weightedSums, ih (Nat.le_of_lt hi), hget, UMap.atKey_of_find hr,
      List.take_succ, Option.toList, List.map_append, List.map_cons,
      List.map_nil, Dbl.sum_append_singleton, ratingOf_of_find hr]

/-- Reading the vector past its end: with fewer than `n` pairs the loop is undefined. -/
theorem weightedSums_past_end (stored : UMap α) (setN : List (String × Dbl α)) (n : Nat)
    (hn : setN.length < n) (hs : ∀ p ∈ setN, ∃ r, stored.find? p.1 = some r) :
    weightedSums stored setN n = .error .undefinedBehaviour := by
  induction n with
  | zero => exact absurd hn (Nat.not_lt_zero _)
  | succ i ih =>
    rcases Nat.lt_or_ge setN.length i with h | h
    · simp only [weightedSums, ih h]
    · have hi : i = setN.length := Nat.le_antisymm h (Nat.lt_succ_iff.1 hn)
      subst hi
      simp only [weightedSums, weightedSums_eq stored setN setN.length (le_refl _) hs,
        List.getElem?_eq_none (le_refl _)]

end Collaborative

section Predict

variable {α : Type} [LinearOrderedField α]

theorem mem_scoredNeighbours (sqrt : α → α) (s : Store α) (stored : UMap α)
    (target : List α) (p : String × Dbl α)
    (hp : p ∈ scoredNeighbours sqrt s stored target) :
    p.1 ∈ s.rankedFilmOrder ∧ (∃ r, stored.find? p.1 = some r ∧ r ≠ NA_VALUE) ∧
      p.2 = similarity sqrt target (featuresOf s p.1) := by
  simp only [scoredNeighbours, List.mem_map, List.mem_filter] at hp
  obtain ⟨f, ⟨hf, hrated⟩, rfl⟩ := hp
  refine ⟨hf, ?_, rfl⟩
  simp only [isRated] at hrated
  split at hrated
  · rename_i r hr
    exact ⟨r, hr, by simpa using hrated⟩
  · cases hrated

theorem mem_topNeighbours (sqrt : α → α) (S : StdSort α) (s : Store α) (stored : UMap α)
    (target : List α) (k : Int) (p : String × Dbl α)
    (hp : p ∈ topNeighbours sqrt S s stored target k) :
    p ∈ scoredNeighbours sqrt s stored target :=
  (S.perm _).mem_iff.1 (List.mem_of_mem_take hp)

theorem length_scoredNeighbours (sqrt : α → α) (s : Store α) (stored : UMap α)
    (target : List α) :
    (scoredNeighbours sqrt s stored target).length
      = (s.rankedFilmOrder.filter (isRated stored)).length := by
  simp [scoredNeighbours]

/-- On a well-formed store, for a known film and a known user, the value
`predictMovieScoreForUser` computes from the first `k` pairs of the sorted vector. -/
theorem predictMovieScoreForUser_eq (sqrt : α → α) (S : StdSort α) (s : Store α)
    (hwf : WellFormed sqrt s) (movieName userName : String) (target : List α)
    (stored : UMap α) (hm : s.moviesScores.find? movieName = some target)
    (hu : s.usersRating.find? userName = some stored) (k : Int)
    (hk : k.toNat ≤ (s.rankedFilmOrder.filter (isRated stored)).length) :
    (predictMovieScoreForUser S movieName userName k s).1
      = .ok (Dbl.div
          (Dbl.sum ((topNeighbours sqrt S s stored target k).map
            (fun p => Dbl.mul p.2 (Dbl.fin (ratingOf stored p.1)))))
          (Dbl.sum ((topNeighbours sqrt S s stored target k).map Prod.snd))) := by
  have hcol := collectSetN_eq sqrt s hwf movieName target hm stored s.rankedFilmOrder
    (fun f hf => ⟨hwf.userTotal userName stored hu f hf, hwf.rankedKnown f hf⟩)
  have hsorted : ∀ p ∈ S.sort (scoredNeighbours sqrt s stored target),
      ∃ r, stored.find? p.1 = some r := by
    intro p hp
    obtain ⟨_, ⟨r, hr, _⟩, _⟩ := mem_scoredNeighbours sqrt s stored target p
      ((S.perm _).mem_iff.1 hp)
    exact ⟨r, hr⟩
  have hlen : k.toNat ≤ (S.sort (scoredNeighbours sqrt s stored target)).length := by
    rw [(S.perm _).length_eq, length_scoredNeighbours]
    exact hk
  have hw := weightedSums_eq stored _ k.toNat hlen hsorted
  have hcond : ((s.moviesScores.find? movieName).isNone
      || (s.usersRating.find? userName).isNone) = false := by
    simp [hm, hu]
  unfold predictMovieScoreForUser
  rw [hcond]
  simp only [Bool.false_eq_true, if_false, UMap.atKey_of_find hu]
  have hcol' : collectSetN s movieName stored s.rankedFilmOrder
      = .ok (scoredNeighbours sqrt s stored target) := hcol
  rw [hcol']
  simp only [hw, topNeighbours]

/-- With `k` greater than the number of rated films the second loop of
`predictMovieScoreForUser` indexes the vector of pairs past its end. -/
theorem predictMovieScoreForUser_past_end (sqrt : α → α) (S : StdSort α) (s : Store α)
    (hwf : WellFormed sqrt s) (movieName userName : String) (target : List α)
    (stored : UMap α) (hm : s.moviesScores.find? movieName = some target)
    (hu : s.usersRating.find? userName = some stored) (k : Int)
    (hk : ((s.rankedFilmOrder.filter (isRated stored)).length : Int) < k) :
    (predictMovieScoreForUser S movieName userName k s).1 = .error .undefinedBehaviour := by
  have hcol : collectSetN s movieName stored s.rankedFilmOrder
      = .ok (scoredNeighbours sqrt s stored target) :=
    collectSetN_eq sqrt s hwf movieName target hm stored s.rankedFilmOrder
      (fun f hf => ⟨hwf.userTotal userName stored hu f hf, hwf.rankedKnown f hf⟩)
  have hsorted : ∀ p ∈ S.sort (scoredNeighbours sqrt s stored target),
      ∃ r, stored.find? p.1 = some r := by
    intro p hp
    obtain ⟨_, ⟨r, hr, _⟩, _⟩ := mem_scoredNeighbours sqrt s stored target p
      ((S.perm _).mem_iff.1 hp)
    exact ⟨r, hr⟩
  have hlen : (S.sort (scoredNeighbours sqrt s stored target)).length < k.toNat := by
    rw [(S.perm _).length_eq]
    simp only [scoredNeighbours, List.length_map]
    omega
  have hw := weightedSums_past_end stored _ k.toNat hlen hsorted
  have hcond : ((s.moviesScores.find? movieName).isNone
      || (s.usersRating.find? userName).isNone) = false := by
    simp [hm, hu]
  unfold predictMovieScoreForUser
  rw [hcond]
  simp only [Bool.false_eq_true, if_false, UMap.atKey_of_find hu, hcol, hw]

end Predict

section PredictClaims

variable {α : Type} [LinearOrderedField α]

theorem weighted_sum_bounds (rating : String → α) (lo hi : α) (l : List (String × α))
    (h : ∀ p ∈ l, 0 ≤ p.2 ∧ lo ≤ rating p.1 ∧ rating p.1 ≤ hi) :
    lo * (l.map Prod.snd).sum ≤ (l.map (fun p => p.2 * rating p.1)).sum ∧
      (l.map (fun p => p.2 * rating p.1)).sum ≤ hi * (l.map Prod.snd).sum := by
  induction l with
  | nil => simp
  | cons p l ih =>
    obtain ⟨hw, hlo, hhi⟩ := h p (List.mem_cons_self _ _)
    obtain ⟨ih1, ih2⟩ := ih (fun q hq => h q (List.mem_cons_of_mem _ hq))
    simp only [List.map_cons, List.sum_cons]
    constructor
    · nlinarith [mul_le_mul_of_nonneg_left hlo hw]
    · nlinarith [mul_le_mul_of_nonneg_left hhi hw]

end PredictClaims

section SignedFacts

variable {α : Type} [LinearOrderedField α]

theorem sqrt_sum_real : Real.sqrt (3 * 3 + 4 * 4) = 5 := by
  rw [show (3 * 3 + 4 * 4 : ℝ) = 5 * 5 by norm_num]
  exact Real.sqrt_mul_self (by norm_num)

theorem signedStore_wellFormed (sqrt : α → α) : WellFormed sqrt (signedStore sqrt) where
  sameLength := by
    intro f g v w hf hg
    have h1 := UMap.mem_of_find hf
    have h2 := UMap.mem_of_find hg
    simp only [signedStore, List.mem_cons, Prod.mk.injEq, List.mem_singleton,
      List.not_mem_nil, or_false] at h1 h2
    rcases h1 with ⟨-, rfl⟩ | ⟨-, rfl⟩ | ⟨-, rfl⟩ <;>
      rcases h2 with ⟨-, rfl⟩ | ⟨-, rfl⟩ | ⟨-, rfl⟩ <;> rfl
  normCache := by
    intro f
    simp only [signedStore, UMap.find?, List.lookup]
    split <;> [rfl; (split <;> [rfl; (split <;> rfl)])]
  userTotal := by
    intro u stored hu f hf
    have h1 := UMap.mem_of_find hu
    simp only [signedStore, List.mem_cons, List.mem_singleton, Prod.mk.injEq,
      List.not_mem_nil, or_false] at h1
    simp only [signedStore, List.mem_cons, List.mem_singleton, List.not_mem_nil,
      or_false] at hf
    rcases h1 with ⟨-, rfl⟩ | ⟨-, rfl⟩ <;> rcases hf with rfl | rfl | rfl <;>
      simp [signedRatings, signedRatingsLow, UMap.find?, List.lookup]
  rankedKnown := by
    intro f hf
    simp only [signedStore, List.mem_cons, List.mem_singleton, List.not_mem_nil,
      or_false] at hf
    rcases hf with rfl | rfl | rfl <;> simp [signedStore, UMap.find?, List.lookup]
  ratedKnown := by
    intro u stored hu f r hf _
    have h1 := UMap.mem_of_find hu
    simp only [signedStore, List.mem_cons, List.mem_singleton, Prod.mk.injEq,
      List.not_mem_nil, or_false] at h1
    have h2 := UMap.mem_of_find hf
    rcases h1 with ⟨-, rfl⟩ | ⟨-, rfl⟩ <;>
      simp only [signedRatings, signedRatingsLow, List.mem_cons, Prod.mk.injEq,
        List.mem_singleton, List.not_mem_nil, or_false] at h2 <;>
      rcases h2 with ⟨rfl, -⟩ | ⟨rfl, -⟩ | ⟨rfl, -⟩ <;>
      simp [signedStore, UMap.find?, List.lookup]
  nonempty := by simp [signedStore]

theorem signedStore_film (sqrt : α → α) :
    (signedStore sqrt).moviesScores.find? "T" = some [1, 0] := by
  simp [signedStore, UMap.find?, List.lookup]

theorem signedStore_user (sqrt : α → α) :
    (signedStore sqrt).usersRating.find? "u" = some signedRatings := by
  simp [signedStore, UMap.find?, List.lookup]

theorem signedStore_userLow (sqrt : α → α) :
    (signedStore sqrt).usersRating.find? "w" = some signedRatingsLow := by
  simp [signedStore, UMap.find?, List.lookup]

theorem exampleStore_film (sqrt : α → α) :
    (exampleStore sqrt).moviesScores.find? "C" = some [1, 1] := by
  simp [exampleStore, UMap.find?, List.lookup]

theorem exampleStore_ratedCount (sqrt : α → α) :
    ((exampleStore sqrt).rankedFilmOrder.filter
      (isRated (exampleRatings : UMap α))).length = 2 := by
  simp [exampleStore, exampleRatings, isRated, UMap.find?, List.lookup, NA_VALUE,
    List.filter]

theorem signedStore_ratedCount (sqrt : α → α) :
    ((signedStore sqrt).rankedFilmOrder.filter
      (isRated (signedRatings : UMap α))).length = 2 := by
  simp [signedStore, signedRatings, isRated, UMap.find?, List.lookup, NA_VALUE,
    List.filter]

end SignedFacts

section PredictWitnesses

theorem insertionStdSort_sort {α : Type} [LinearOrderedField α] (l : List (String × Dbl α)) :
    (insertionStdSort : StdSort α).sort l = insertionSortRange l := rfl

/-- The numbers of the worked example of the weighted average: the similarities
`0.9, 0.9, 0.1` with the ratings `4, 2, 5` and `k = 2` give `5.4 / 1.8 = 3`. -/
theorem weightedSums_example :
    weightedSums (⟨[("a", 4), ("b", 2), ("c", 5)], by simp⟩ : UMap ℚ)
        (insertionStdSort.sort
          [("a", .fin (9 / 10)), ("b", .fin (9 / 10)), ("c", .fin (1 / 10))]) 2
      = .ok (.fin (27 / 5), .fin (9 / 5)) ∧
      Dbl.div (.fin (27 / 5 : ℚ)) (.fin (9 / 5)) = .fin 3 := by
  constructor
  · simp [weightedSums, insertionStdSort_sort, insertionSortRange, insertionStep,
      linearInsert, pairDoubleSort, Dbl.gt, Dbl.add, Dbl.mul,
      UMap.atKey, UMap.find?, List.lookup]
    norm_num
    simp
    norm_num
  · simp [Dbl.div]
    norm_num

theorem signedStore_topNeighbours_two :
    topNeighbours Real.sqrt insertionStdSort (signedStore Real.sqrt) signedRatings [1, 0] 2
      = [("X", .fin 1), ("Y", .fin (-3 / 5))] := by
  simp [topNeighbours, scoredNeighbours, similarity, isRated, featuresOf, dotSum, norm,
    signedStore, signedRatings, UMap.find?, List.lookup, NA_VALUE, List.filter,
    insertionStdSort_sort, insertionSortRange, insertionStep, linearInsert, pairDoubleSort,
    Dbl.gt, Dbl.div, sqrt_sum_real]
  norm_num

end PredictWitnesses


section RemainingClaims

variable {α : Type} [LinearOrderedField α]

/-- Claim C5, at the failing input. In the store with the films `T = [1, 0]`,
`X = [2, 0]`, `Y = [-3, 4]` the user `w` rated `X` with 1 and `Y` with 5 and did not rate
`T`, the only unrated film of the rank order. For `k = 2` the predicted score of `T` is
`(1 - 3) / (2/5) = -5`; it is not greater than the initial `maxRate = 0`, and
`recommendByCF` returns the empty string instead of `T`. -/
theorem recommendByCF_drops_nonpositive :
    WellFormed Real.sqrt (signedStore Real.sqrt) ∧
    (signedStore Real.sqrt).usersRating.find? "w" = some signedRatingsLow ∧
    "T" ∈ (signedStore Real.sqrt).rankedFilmOrder ∧
    (∀ f ∈ (signedStore Real.sqrt).rankedFilmOrder,
      (signedRatingsLow : UMap ℝ).find? f = some NA_VALUE ↔ f = "T") ∧
    (((signedStore Real.sqrt).rankedFilmOrder.filter
      (isRated (signedRatingsLow : UMap ℝ))).length : Int) = 2 ∧
    (predictMovieScoreForUser insertionStdSort "T" "w" 2 (signedStore Real.sqrt)).1
      = .ok (.fin (-5)) ∧
    (recommendByCF insertionStdSort "w" 2 (signedStore Real.sqrt)).1 = .ok "" := by
  refine ⟨signedStore_wellFormed Real.sqrt, signedStore_userLow Real.sqrt,
    by simp [signedStore], ?_, ?_, ?_, ?_⟩
  · intro f hf
    simp only [signedStore, List.mem_cons, List.mem_singleton, List.not_mem_nil,
      or_false] at hf
    rcases hf with rfl | rfl | rfl <;>
      simp [signedRatingsLow, UMap.find?, List.lookup, NA_VALUE]
  · simp [signedStore, signedRatingsLow, isRated, UMap.find?, List.lookup, NA_VALUE,
      List.filter]
  · simp [predictMovieScoreForUser, signedStore, signedRatingsLow, UMap.find?,
      UMap.atKey, List.lookup, collectSetN, filmSimilarity, _dotProduct, innerProduct,
      norm, weightedSums, insertionStdSort_sort, insertionSortRange, insertionStep,
      linearInsert, pairDoubleSort, Dbl.gt, Dbl.add, Dbl.mul, Dbl.div,
      NA_VALUE, sqrt_sum_real]
    norm_num
    simp [Dbl.add, Dbl.mul, Dbl.div]
    norm_num
  · simp [recommendByCF, cfScan, collectNotRanked, predictMovieScoreForUser, signedStore,
      signedRatingsLow, UMap.find?, UMap.atKey, List.lookup, collectSetN, filmSimilarity,
      _dotProduct, innerProduct, norm, weightedSums, insertionStdSort_sort,
      insertionSortRange, insertionStep, linearInsert, pairDoubleSort, Dbl.gt, Dbl.add,
      Dbl.mul, Dbl.div, NA_VALUE, sqrt_sum_real]
    norm_num
    simp [Dbl.add, Dbl.mul, Dbl.div, Dbl.gt]
    norm_num

/-- Claim C6. For a user name absent from the rating table `recommendByContent` and, for
every `k`, `recommendByCF` return the message "USER NOT FOUND", whatever the feature
table, the norm cache, the rank order and the other users' tables hold. -/
theorem recommend_unknown_user (sqrt : α → α) (S : StdSort α) (s : Store α)
    (userName : String) (hu : s.usersRating.find? userName = none) :
    (recommendByContent sqrt userName s).1 = .ok "USER NOT FOUND" ∧
    ∀ k : Int, (recommendByCF S userName k s).1 = .ok "USER NOT FOUND" := by
  constructor
  · simp only [recommendByContent, hu, UND_MSG]
  · intro k
    simp only [recommendByCF, hu, UND_MSG]

/-- Witness of claim C6: the user `nobody` in the worked example. -/
theorem recommend_unknown_user_witness :
    (exampleStore Real.sqrt).usersRating.find? "nobody" = none ∧
    ((recommendByContent Real.sqrt "nobody" (exampleStore Real.sqrt)).1
        = .ok "USER NOT FOUND" ∧
      ∀ k : Int, (recommendByCF insertionStdSort "nobody" k (exampleStore Real.sqrt)).1
        = .ok "USER NOT FOUND") :=
  have hu : (exampleStore Real.sqrt).usersRating.find? "nobody" = none := by
    simp [exampleStore, UMap.find?, List.lookup]
  ⟨hu, recommend_unknown_user Real.sqrt insertionStdSort (exampleStore Real.sqrt)
    "nobody" hu⟩

/-- Claim C7. For a film name that is not a key of the feature table or a user name that
is not a key of the rating table, `predictMovieScoreForUser` returns the failure value
`METHOD_FAILURE = -1` for every `k`, without computing a score. -/
theorem predictMovieScoreForUser_unknown (S : StdSort α) (s : Store α)
    (movieName userName : String) (k : Int)
    (h : s.moviesScores.find? movieName = none ∨ s.usersRating.find? userName = none) :
    (predictMovieScoreForUser S movieName userName k s).1 = .ok (.fin METHOD_FAILURE) ∧
    (METHOD_FAILURE : α) = -1 := by
  refine ⟨?_, rfl⟩
  have hcond : ((s.moviesScores.find? movieName).isNone
      || (s.usersRating.find? userName).isNone) = true := by
    rcases h with h | h <;> simp [h]
  unfold predictMovieScoreForUser
  rw [hcond]
  rfl

/-- Witness of claim C7: the film `Z`, absent from the worked example. -/
theorem predictMovieScoreForUser_unknown_witness :
    ((exampleStore Real.sqrt).moviesScores.find? "Z" = none ∨
      (exampleStore Real.sqrt).usersRating.find? "u" = none) ∧
    ((predictMovieScoreForUser insertionStdSort "Z" "u" 2 (exampleStore Real.sqrt)).1
        = .ok (.fin METHOD_FAILURE) ∧ (METHOD_FAILURE : ℝ) = -1) :=
  have h : (exampleStore Real.sqrt).moviesScores.find? "Z" = none ∨
      (exampleStore Real.sqrt).usersRating.find? "u" = none :=
    Or.inl (by simp [exampleStore, UMap.find?, List.lookup])
  ⟨h, predictMovieScoreForUser_unknown insertionStdSort (exampleStore Real.sqrt)
    "Z" "u" 2 h⟩

/-- Claim C8, at the failing input. In the worked example the user `u` rated two films;
the call `predictMovieScoreForUser("C", "u", 3)` raises no error: its second loop reads
`setN[2]`, past the end of the two pairs of `setN`. -/
theorem predictMovieScoreForUser_reads_past_end :
    WellFormed Real.sqrt (exampleStore Real.sqrt) ∧
    (exampleStore Real.sqrt).moviesScores.find? "C" = some [1, 1] ∧
    (exampleStore Real.sqrt).usersRating.find? "u" = some exampleRatings ∧
    ((exampleStore Real.sqrt).rankedFilmOrder.filter
      (isRated (exampleRatings : UMap ℝ))).length = 2 ∧
    (predictMovieScoreForUser insertionStdSort "C" "u" 3 (exampleStore Real.sqrt)).1
      = .error .undefinedBehaviour :=
  ⟨exampleStore_wellFormed Real.sqrt, exampleStore_film Real.sqrt,
    exampleStore_user Real.sqrt, exampleStore_ratedCount Real.sqrt,
    predictMovieScoreForUser_past_end Real.sqrt insertionStdSort (exampleStore Real.sqrt)
      (exampleStore_wellFormed Real.sqrt) "C" "u" [1, 1] exampleRatings
      (exampleStore_film Real.sqrt) (exampleStore_user Real.sqrt) 3
      (by rw [exampleStore_ratedCount]; norm_num)⟩

theorem collectNotRanked_all_rated (stored : UMap α) (l : List String)
    (h : ∀ f ∈ l, ∃ r, stored.find? f = some r ∧ r ≠ NA_VALUE) :
    collectNotRanked stored l = .ok [] := by
  induction l with
  | nil => rfl
  | cons f rest ih =>
    obtain ⟨r, hr, hna⟩ := h f (List.mem_cons_self _ _)
    simp only [collectNotRanked, UMap.atKey_of_find hr,
      ih (fun g hg => h g (List.mem_cons_of_mem _ hg)), if_neg hna]

/-- Claim C9. On a well-formed store, for a known user whose table holds a rating other
than `NA_VALUE` for every film of the rank order, `recommendByContent` returns the empty
string, and so does `recommendByCF` for every `k`. -/
theorem recommend_all_rated (sqrt : α → α) (S : StdSort α) (s : Store α)
    (hwf : WellFormed sqrt s) (userName : String) (stored : UMap α)
    (hu : s.usersRating.find? userName = some stored)
    (hall : ∀ f ∈ s.rankedFilmOrder, ∃ r, stored.find? f = some r ∧ r ≠ NA_VALUE) :
    (recommendByContent sqrt userName s).1 = .ok "" ∧
    ∀ k : Int, (recommendByCF S userName k s).1 = .ok "" := by
  constructor
  · obtain ⟨pref, hpref, _⟩ := preferenceVector_ok sqrt s hwf userName stored hu
    have hr : ∀ f ∈ s.rankedFilmOrder, ∃ v, stored.find? f = some v :=
      hwf.userTotal userName stored hu
    have hnone : ∀ f ∈ s.rankedFilmOrder, stored.find? f ≠ some NA_VALUE := by
      intro f hf hfu
      obtain ⟨r, hr', hna⟩ := hall f hf
      rw [hr'] at hfu
      exact hna (Option.some.inj hfu)
    have hs : ∀ f ∈ s.rankedFilmOrder, stored.find? f = some NA_VALUE →
        ∃ p, contentProduct sqrt s pref f = .ok (.fin p) ∧ -INT_MAX < p :=
      fun f hf hfu => absurd hfu (hnone f hf)
    rcases contentScan_initial sqrt s stored pref s.rankedFilmOrder "" hr hs with
      ⟨hres, _⟩ | ⟨pre, r, post, p, hl, _, hru, _⟩
    · simp only [recommendByContent, hu, hpref, hres]
    · exact absurd hru (hnone r (by rw [hl]; simp))
  · intro k
    simp only [recommendByCF, hu, collectNotRanked_all_rated stored _ hall, cfScan]

/-- Witness of claim C9: the user `v` of the worked example, who rated all three films. -/
theorem recommend_all_rated_witness :
    WellFormed Real.sqrt (exampleStore Real.sqrt) ∧
    (exampleStore Real.sqrt).usersRating.find? "v" = some exampleRatingsAll ∧
    (∀ f ∈ (exampleStore Real.sqrt).rankedFilmOrder,
      ∃ r, (exampleRatingsAll : UMap ℝ).find? f = some r ∧ r ≠ NA_VALUE) ∧
    ((recommendByContent Real.sqrt "v" (exampleStore Real.sqrt)).1 = .ok "" ∧
      ∀ k : Int, (recommendByCF insertionStdSort "v" k (exampleStore Real.sqrt)).1
        = .ok "") :=
  have hall : ∀ f ∈ (exampleStore Real.sqrt).rankedFilmOrder,
      ∃ r, (exampleRatingsAll : UMap ℝ).find? f = some r ∧ r ≠ NA_VALUE := by
    intro f hf
    simp only [exampleStore, List.mem_cons, List.mem_singleton, List.not_mem_nil,
      or_false] at hf
    rcases hf with rfl | rfl | rfl <;>
      simp [exampleRatingsAll, UMap.find?, List.lookup, NA_VALUE]
  ⟨exampleStore_wellFormed Real.sqrt, exampleStore_userAll Real.sqrt, hall,
    recommend_all_rated Real.sqrt insertionStdSort (exampleStore Real.sqrt)
      (exampleStore_wellFormed Real.sqrt) "v" exampleRatingsAll
      (exampleStore_userAll Real.sqrt) hall⟩

end RemainingClaims

section Frame

variable {α : Type} [LinearOrderedField α]

theorem recommendByContent_store (sqrt : α → α) (userName : String) (s : Store α) :
    (recommendByContent sqrt userName s).2 = s := by
  unfold recommendByContent
  split
  · rfl
  · split
    · rfl
    · split <;> rfl

theorem recommendByCF_store (S : StdSort α) (userName : String) (k : Int) (s : Store α) :
    (recommendByCF S userName k s).2 = s := by
  unfold recommendByCF
  split
  · rfl
  · split
    · rfl
    · rename_i stored _ notRankedVectors _
      have h := cfScan_store S userName k notRankedVectors (.fin 0, "") s
      split
      · rename_i e s' heq
        rw [heq] at h
        exact h
      · rename_i best s' heq
        rw [heq] at h
        exact h

/-- Claim C10. A call of `recommendByContent`, `predictMovieScoreForUser` or
`recommendByCF` that returns or throws (any execution whose behaviour is defined) leaves
the store as it was: the feature table, the norm cache, the rank order and the rating
table after the call are those before it. In particular the table of the user stored
under `userName` is still the one stored before `recommendByContent` lowered the ratings
of its private copy by the mean. -/
theorem calls_leave_store_unchanged (sqrt : α → α) (S : StdSort α) (s : Store α)
    (movieName userName : String) (k : Int) :
    ((recommendByContent sqrt userName s).1 ≠ .error .undefinedBehaviour →
      (recommendByContent sqrt userName s).2 = s ∧
      (recommendByContent sqrt userName s).2.usersRating.find? userName
        = s.usersRating.find? userName) ∧
    ((predictMovieScoreForUser S movieName userName k s).1 ≠ .error .undefinedBehaviour →
      (predictMovieScoreForUser S movieName userName k s).2 = s) ∧
    ((recommendByCF S userName k s).1 ≠ .error .undefinedBehaviour →
      (recommendByCF S userName k s).2 = s) := by
  refine ⟨fun _ => ⟨recommendByContent_store sqrt userName s, ?_⟩,
    fun _ => predictMovieScoreForUser_store S movieName userName k s,
    fun _ => recommendByCF_store S userName k s⟩
  rw [recommendByContent_store]

/-- Witness of claim C10: the three calls for the film `T` and the user `u` in the store
with a feature of negative sign return a value, and the private copy of the ratings of `u`
after the mean-centring differs from the stored table. -/
theorem calls_leave_store_unchanged_witness :
    (recommendByContent Real.sqrt "u" (signedStore Real.sqrt)).1 = .ok "T" ∧
    (predictMovieScoreForUser insertionStdSort "T" "u" 2 (signedStore Real.sqrt)).1
      = .ok (.fin 11) ∧
    (recommendByCF insertionStdSort "u" 2 (signedStore Real.sqrt)).1 = .ok "T" ∧
    centreRatings (signedStore Real.sqrt).moviesScores 3
        (signedRatings : UMap ℝ).entries [0, 0]
      = .ok ([("T", 0), ("X", 2), ("Y", -2)], [10, -8]) ∧
    (recommendByContent Real.sqrt "u" (signedStore Real.sqrt)).2 = signedStore Real.sqrt ∧
    (predictMovieScoreForUser insertionStdSort "T" "u" 2 (signedStore Real.sqrt)).2
      = signedStore Real.sqrt ∧
    (recommendByCF insertionStdSort "u" 2 (signedStore Real.sqrt)).2
      = signedStore Real.sqrt := by
  have h1 : (recommendByContent Real.sqrt "u" (signedStore Real.sqrt)).1 = .ok "T" := by
    simp [recommendByContent, preferenceVector, initialPreferVector, sumRated,
      centreRatings, _addToPreferenceVector, contentScan, contentProduct, signedStore,
      signedRatings, UMap.find?, UMap.atKey, List.lookup, _dotProduct, innerProduct,
      NA_VALUE]
  have h2 : (predictMovieScoreForUser insertionStdSort "T" "u" 2
      (signedStore Real.sqrt)).1 = .ok (.fin 11) := by
    simp [predictMovieScoreForUser, signedStore, signedRatings, UMap.find?, UMap.atKey,
      List.lookup, collectSetN, filmSimilarity, _dotProduct, innerProduct, norm,
      weightedSums, insertionStdSort_sort, insertionSortRange, insertionStep,
      linearInsert, pairDoubleSort, Dbl.gt, Dbl.add, Dbl.mul, Dbl.div, NA_VALUE,
      sqrt_sum_real]
    norm_num
    simp [Dbl.add, Dbl.mul, Dbl.div]
    norm_num
  have h3 : (recommendByCF insertionStdSort "u" 2 (signedStore Real.sqrt)).1
      = .ok "T" := by
    simp [recommendByCF, cfScan, collectNotRanked, predictMovieScoreForUser, signedStore,
      signedRatings, UMap.find?, UMap.atKey, List.lookup, collectSetN, filmSimilarity,
      _dotProduct, innerProduct, norm, weightedSums, insertionStdSort_sort,
      insertionSortRange, insertionStep, linearInsert, pairDoubleSort, Dbl.gt, Dbl.add,
      Dbl.mul, Dbl.div, NA_VALUE, sqrt_sum_real]
    norm_num
    simp [Dbl.add, Dbl.mul, Dbl.div, Dbl.gt]
    norm_num
  have h4 : centreRatings (signedStore Real.sqrt).moviesScores 3
      (signedRatings : UMap ℝ).entries [0, 0]
      = .ok ([("T", 0), ("X", 2), ("Y", -2)], [10, -8]) := by
    simp [centreRatings, _addToPreferenceVector, signedStore, signedRatings, UMap.find?,
      UMap.atKey, List.lookup, NA_VALUE]
    norm_num
  have h := calls_leave_store_unchanged Real.sqrt insertionStdSort (signedStore Real.sqrt)
    "T" "u" 2
  exact ⟨h1, h2, h3, h4, (h.1 (by rw [h1]; simp)).1, h.2.1 (by rw [h2]; simp),
    h.2.2 (by rw [h3]; simp)⟩

end Frame

section VectorClaims

variable {α : Type} [LinearOrderedField α]

/-- Claim C13. For a vector `a` that is not the zero vector, the scalar product of `a`
with itself over the product of the norm of `a` with itself is 1. -/
theorem cosine_self_eq_one (sqrt : α → α) (hsq : IsSqrt sqrt) (a : List α)
    (hne : ∃ x ∈ a, x ≠ 0) :
    ∃ d, _dotProduct a a = .ok d ∧ d / (norm sqrt a * norm sqrt a) = 1 := by
  refine ⟨dotSum a a, dotProduct_eq a a (le_refl _), ?_⟩
  have hpos := sumSquares_pos a hne
  rw [norm_eq, hsq.mul_self _ (le_of_lt hpos), dotSum_self]
  exact div_self (ne_of_gt hpos)

/-- Witness of claim C13: the vector `[3, 4]` over the reals. -/
theorem cosine_self_eq_one_witness :
    IsSqrt Real.sqrt ∧ (∃ x ∈ ([3, 4] : List ℝ), x ≠ 0) ∧
    ∃ d, _dotProduct ([3, 4] : List ℝ) [3, 4] = .ok d ∧
      d / (norm Real.sqrt [3, 4] * norm Real.sqrt [3, 4]) = 1 :=
  have hne : ∃ x ∈ ([3, 4] : List ℝ), x ≠ 0 := ⟨3, by simp, by norm_num⟩
  ⟨isSqrt_real, hne, cosine_self_eq_one Real.sqrt isSqrt_real [3, 4] hne⟩

/-- Claim C14. For two vectors of equal length `_dotProduct(a, b)` and `_dotProduct(b, a)`
return the same value. -/
theorem dotProduct_comm (a b : List α) (h : a.length = b.length) :
    ∃ d, _dotProduct a b = .ok d ∧ _dotProduct b a = .ok d := by
  refine ⟨dotSum a b, dotProduct_eq a b (le_of_eq h), ?_⟩
  rw [dotProduct_eq b a (le_of_eq h.symm), dotSum_comm]

/-- Witness of claim C14: the vectors `[1, 2]` and `[3, 4]` over the rationals. -/
theorem dotProduct_comm_witness :
    ([1, 2] : List ℚ).length = ([3, 4] : List ℚ).length ∧
    ∃ d, _dotProduct ([1, 2] : List ℚ) [3, 4] = .ok d ∧
      _dotProduct ([3, 4] : List ℚ) [1, 2] = .ok d :=
  ⟨rfl, dotProduct_comm [1, 2] [3, 4] rfl⟩

/-- Claim C15. The norm of every vector is at least 0, and the norm of the empty vector
and of a vector whose elements are all 0 is 0. -/
theorem norm_nonneg_and_zero (sqrt : α → α) (hsq : IsSqrt sqrt) (v : List α) :
    0 ≤ norm sqrt v ∧ norm sqrt [] = 0 ∧ ((∀ x ∈ v, x = 0) → norm sqrt v = 0) := by
  refine ⟨?_, ?_, ?_⟩
  · rw [norm_eq]
    exact hsq.nonneg _
  · rw [norm_eq]
    simpa [sumSquares] using hsq.zero
  · intro h
    rw [norm_eq, sumSquares_zero v h]
    exact hsq.zero

/-- Witness of claim C15: the zero vector of length 2 over the reals. -/
theorem norm_nonneg_and_zero_witness :
    IsSqrt Real.sqrt ∧
    (0 ≤ norm Real.sqrt [0, 0] ∧ norm Real.sqrt [] = 0 ∧
      ((∀ x ∈ ([0, 0] : List ℝ), x = 0) → norm Real.sqrt [0, 0] = 0)) :=
  ⟨isSqrt_real, norm_nonneg_and_zero Real.sqrt isSqrt_real [0, 0]⟩

end VectorClaims

section Bounds

variable {α : Type} [LinearOrderedField α]

end Bounds

section Tables

variable {V : Type}

theorem lookup_assignEntries (key : String) (value : V) (l : List (String × V))
    (k : String) :
    (assignEntries key value l).lookup k = if k = key then some value else l.lookup k := by
  induction l with
  | nil =>
    by_cases h : k = key
    · simp [assignEntries, List.lookup, h]
    · have hb : (k == key) = false := by simpa using h
      simp [assignEntries, List.lookup, h, hb]
  | cons entry rest ih =>
    obtain ⟨k', v'⟩ := entry
    by_cases hk' : k' = key
    · subst hk'
      by_cases h : k = k'
      · subst h
        simp [assignEntries, List.lookup]
      · have hb : (k == k') = false := by simpa using h
        simp [assignEntries, List.lookup, h, hb]
    · by_cases h : k = k'
      · subst h
        simp [assignEntries, List.lookup, hk']
      · have hb : (k == k') = false := by simpa using h
        simp only [assignEntries, hk', if_false, List.lookup, hb, ih]

theorem UMap.find_assign (m : UMap V) (key : String) (value : V) (k : String) :
    (m.assign key value).find? k = if k = key then some value else m.find? k :=
  lookup_assignEntries key value m.entries k

theorem UMap.find_touch_assign (m : UMap V) (key : String) (fallback value : V)
    (k : String) :
    ((m.touch key fallback).assign key value).find? k
      = if k = key then some value else m.find? k := by
  rw [UMap.find_assign]
  split_ifs with h
  · rfl
  · unfold UMap.touch
    split
    · rfl
    · rw [UMap.find_assign, if_neg h]

theorem UMap.find_touch (m : UMap V) (key : String) (fallback : V) (k : String) :
    (m.touch key fallback).find? k
      = if k = key then some ((m.find? key).getD fallback) else m.find? k := by
  unfold UMap.touch
  split
  · rename_i v hv
    split_ifs with h
    · subst h
      simp [hv]
    · rfl
  · rename_i hv
    rw [UMap.find_assign]
    split_ifs with h
    · simp [hv]
    · rfl

theorem UMap.find_empty (k : String) : (UMap.empty : UMap V).find? k = none := rfl

end Tables

section AttributesFile

variable {α : Type} [LinearOrderedField α]

theorem readAttributesLine_cache (sqrt : α → α) (s : Store α) (line : String × List α)
    (h : ∀ f, s.normedMoviesVectors.find? f = (s.moviesScores.find? f).map (norm sqrt))
    (f : String) :
    (readAttributesLine sqrt s line).normedMoviesVectors.find? f
      = ((readAttributesLine sqrt s line).moviesScores.find? f).map (norm sqrt) := by
  show (s.normedMoviesVectors.assign line.1 (norm sqrt line.2)).find? f
    = (((s.moviesScores.touch line.1 []).assign line.1 line.2).find? f).map (norm sqrt)
  rw [UMap.find_assign, UMap.find_touch_assign]
  split_ifs
  · rfl
  · exact h f

theorem foldl_readAttributesLine_cache (sqrt : α → α) (lines : List (String × List α))
    (s : Store α)
    (h : ∀ f, s.normedMoviesVectors.find? f = (s.moviesScores.find? f).map (norm sqrt))
    (f : String) :
    (lines.foldl (readAttributesLine sqrt) s).normedMoviesVectors.find? f
      = ((lines.foldl (readAttributesLine sqrt) s).moviesScores.find? f).map (norm sqrt) := by
  induction lines generalizing s with
  | nil => exact h f
  | cons line rest ih =>
    exact ih (readAttributesLine sqrt s line) (readAttributesLine_cache sqrt s line h)

/-- Claim C12. When `_readMoviesAttributesFile` has processed the lines of a file, lines
that repeat a film name included, on a store whose norm cache agreed with its feature
table (such as the store of a new object), the norm cache and the feature table have the
same keys and the cached value of every film is the norm of its feature vector. -/
theorem readMoviesAttributesFile_cache (sqrt : α → α) (lines : List (String × List α))
    (s : Store α)
    (h : ∀ f, s.normedMoviesVectors.find? f = (s.moviesScores.find? f).map (norm sqrt)) :
    (_readMoviesAttributesFile sqrt (some lines) s).1 = METHOD_SUCCESS ∧
    (∀ f, ((_readMoviesAttributesFile sqrt (some lines) s).2.normedMoviesVectors.find? f).isSome
      ↔ ((_readMoviesAttributesFile sqrt (some lines) s).2.moviesScores.find? f).isSome) ∧
    (∀ f v, (_readMoviesAttributesFile sqrt (some lines) s).2.moviesScores.find? f = some v →
      (_readMoviesAttributesFile sqrt (some lines) s).2.normedMoviesVectors.find? f
        = some (norm sqrt v)) := by
  have key := foldl_readAttributesLine_cache sqrt lines s h
  refine ⟨rfl, ?_, ?_⟩
  · intro f
    simp only [_readMoviesAttributesFile, key f, Option.isSome_map']
  · intro f v hv
    simp only [_readMoviesAttributesFile] at hv ⊢
    rw [key f, hv]
    rfl

/-- Witness of claim C12: a file with the film `A` on two lines, read into the store of a
new object. -/
theorem readMoviesAttributesFile_cache_witness :
    (∀ f, (emptyStore : Store ℝ).normedMoviesVectors.find? f
      = ((emptyStore : Store ℝ).moviesScores.find? f).map (norm Real.sqrt)) ∧
    ((_readMoviesAttributesFile Real.sqrt
        (some [("A", [1, 0]), ("B", [0, 1]), ("A", [3, 4])]) emptyStore).1
        = METHOD_SUCCESS ∧
      (∀ f, ((_readMoviesAttributesFile Real.sqrt
          (some [("A", [1, 0]), ("B", [0, 1]), ("A", [3, 4])])
          emptyStore).2.normedMoviesVectors.find? f).isSome
        ↔ ((_readMoviesAttributesFile Real.sqrt
          (some [("A", [1, 0]), ("B", [0, 1]), ("A", [3, 4])])
          emptyStore).2.moviesScores.find? f).isSome) ∧
      (∀ f v, (_readMoviesAttributesFile Real.sqrt
          (some [("A", [1, 0]), ("B", [0, 1]), ("A", [3, 4])])
          emptyStore).2.moviesScores.find? f = some v →
        (_readMoviesAttributesFile Real.sqrt
          (some [("A", [1, 0]), ("B", [0, 1]), ("A", [3, 4])])
          emptyStore).2.normedMoviesVectors.find? f = some (norm Real.sqrt v))) :=
  have h : ∀ f, (emptyStore : Store ℝ).normedMoviesVectors.find? f
      = ((emptyStore : Store ℝ).moviesScores.find? f).map (norm Real.sqrt) :=
    fun _ => rfl
  ⟨h, readMoviesAttributesFile_cache Real.sqrt
    [("A", [1, 0]), ("B", [0, 1]), ("A", [3, 4])] emptyStore h⟩

end AttributesFile

section RatingsFile

variable {α : Type} [LinearOrderedField α]

theorem readHeader_spec (tokens : List String) (internalRate : UMap α)
    (rankedFilmOrder : List String)
    (hzero : ∀ f v, internalRate.find? f = some v → v = 0) :
    (readHeader tokens internalRate rankedFilmOrder).2 = rankedFilmOrder ++ tokens ∧
    ∀ f, (f ∈ tokens ∨ (internalRate.find? f).isSome) →
      (readHeader tokens internalRate rankedFilmOrder).1.find? f = some 0 := by
  induction tokens generalizing internalRate rankedFilmOrder with
  | nil =>
    refine ⟨by simp [readHeader], ?_⟩
    intro f hf
    rcases hf with hf | hf
    · exact absurd hf (List.not_mem_nil f)
    · obtain ⟨v, hv⟩ := Option.isSome_iff_exists.1 hf
      simp only [readHeader, List.foldl_nil]
      rw [hv, hzero f v hv]
  | cons film2 rest ih =>
    have hzero' : ∀ f v, (internalRate.touch film2 0).find? f = some v → v = 0 := by
      intro f v hv
      rw [UMap.find_touch] at hv
      split_ifs at hv with h
      · cases hfind : internalRate.find? film2 with
        | none =>
          rw [hfind] at hv
          simp only [Option.getD_none, Option.some.injEq] at hv
          exact hv.symm
        | some w =>
          rw [hfind] at hv
          simp only [Option.getD_some, Option.some.injEq] at hv
          rw [← hv]
          exact hzero film2 w hfind
      · exact hzero f v hv
    obtain ⟨h1, h2⟩ := ih (internalRate.touch film2 0) (rankedFilmOrder ++ [film2]) hzero'
    have hstep : readHeader (film2 :: rest) internalRate rankedFilmOrder
        = readHeader rest (internalRate.touch film2 0) (rankedFilmOrder ++ [film2]) := rfl
    rw [hstep]
    refine ⟨by rw [h1]; simp, ?_⟩
    intro f hf
    apply h2
    rcases hf with hf | hf
    · rcases List.mem_cons.1 hf with rfl | hf
      · right
        rw [UMap.find_touch, if_pos rfl]
        rfl
      · exact Or.inl hf
    · right
      rw [UMap.find_touch]
      split_ifs
      · rfl
      · exact hf

theorem readRatings_spec (parseDouble : String → α) (films : List String)
    (tokens : List String) (i : Nat) (userS : UMap α) (hi : i ≤ films.length) :
    ∃ t, readRatings parseDouble films tokens i userS = .ok t ∧
      (∀ f, (userS.find? f).isSome → (t.find? f).isSome) ∧
      (∀ f, userS.find? f = some NA_VALUE →
        (∀ j : Nat, films[i + j]? = some f →
          tokens[j]? = none ∨ tokens[j]? = some NOT_RANKED_FILM) →
        t.find? f = some NA_VALUE) := by
  induction tokens generalizing i userS with
  | nil => exact ⟨userS, rfl, fun _ h => h, fun _ h _ => h⟩
  | cons userRate rest ih =>
    by_cases hlen : i = films.length
    · refine ⟨userS, by simp [readRatings, hlen], fun _ h => h, fun _ h _ => h⟩
    · have hlt : i < films.length := lt_of_le_of_ne hi hlen
      have hget : films[i]? = some films[i] := List.getElem?_eq_getElem hlt
      have key : ∀ v : α, ∃ t,
          readRatings parseDouble films rest (i + 1) (userS.assign films[i] v) = .ok t ∧
          (∀ f, (userS.find? f).isSome → (t.find? f).isSome) ∧
          (∀ f, userS.find? f = some NA_VALUE → (f = films[i] → v = NA_VALUE) →
            (∀ j : Nat, films[i + (j + 1)]? = some f →
              rest[j]? = none ∨ rest[j]? = some NOT_RANKED_FILM) →
            t.find? f = some NA_VALUE) := by
        intro v
        obtain ⟨t, ht, hkeys, hval⟩ := ih (i + 1) (userS.assign films[i] v) hlt
        refine ⟨t, ht, ?_, ?_⟩
        · intro f hf
          apply hkeys
          rw [UMap.find_assign]
          split_ifs
          · rfl
          · exact hf
        · intro f hf hv hj
          apply hval f
          · rw [UMap.find_assign]
            split_ifs with h
            · rw [hv h]
            · exact hf
          · intro j hjf
            apply hj j
            rw [← hjf]
            congr 1
            omega
      by_cases hna : userRate = NOT_RANKED_FILM
      · obtain ⟨t, ht, hkeys, hval⟩ := key NA_VALUE
        refine ⟨t, by simp only [readRatings, hlen, ne_eq, not_false_eq_true, if_true,
          hget, hna, ht], hkeys, ?_⟩
        intro f hf hj
        apply hval f hf (fun _ => rfl)
        intro j hjf
        have := hj (j + 1) hjf
        simpa using this
      · obtain ⟨t, ht, hkeys, hval⟩ := key (parseDouble userRate)
        refine ⟨t, by simp only [readRatings, hlen, ne_eq, not_false_eq_true, if_true,
          hget, hna, if_false, ht], hkeys, ?_⟩
        intro f hf hj
        apply hval f hf
        · intro hfi
          have h0 := hj 0 (by rw [Nat.add_zero, hget, hfi])
          simp only [List.getElem?_cons_zero, Option.some.injEq] at h0
          rcases h0 with h0 | h0
          · cases h0
          · exact absurd h0 hna
        · intro j hjf
          have := hj (j + 1) hjf
          simpa using this

end RatingsFile

section RatingsFileClaim

variable {α : Type} [LinearOrderedField α]

theorem readUserRows_spec (parseDouble : String → α) (internalRate : UMap α)
    (films : List String) (allRows : List (List String))
    (hir : ∀ f ∈ films, internalRate.find? f = some NA_VALUE)
    (rows : List (List String)) (hsub : ∀ row ∈ rows, row ∈ allRows) (s : Store α)
    (hs : s.rankedFilmOrder = films)
    (hu : ∀ u t, s.usersRating.find? u = some t →
      ∃ row ∈ allRows, row.headD "" = u ∧ RowTable films row t) :
    (readUserRows parseDouble internalRate rows s).1 = .ok () ∧
    (readUserRows parseDouble internalRate rows s).2.rankedFilmOrder = films ∧
    ∀ u t, (readUserRows parseDouble internalRate rows s).2.usersRating.find? u = some t →
      ∃ row ∈ allRows, row.headD "" = u ∧ RowTable films row t := by
  induction rows generalizing s with
  | nil => exact ⟨rfl, hs, hu⟩
  | cons line2 rest ih =>
    obtain ⟨t, ht, hkeys, hval⟩ := readRatings_spec parseDouble films line2.tail 0
      internalRate (Nat.zero_le _)
    have hrow : RowTable films line2 t := by
      constructor
      · intro f hf
        have := hkeys f (by rw [hir f hf]; rfl)
        exact Option.isSome_iff_exists.1 this
      · intro f hf hj
        apply hval f (hir f hf)
        intro j hjf
        rw [Nat.zero_add] at hjf
        exact hj j hjf
    have hstep : readUserRows parseDouble internalRate (line2 :: rest) s
        = readUserRows parseDouble internalRate rest
            { s with usersRating :=
                ((s.usersRating.touch (line2.headD "") UMap.empty).assign
                  (line2.headD "") t) } := by
      simp only [readUserRows, hs, ht]
    rw [hstep]
    apply ih (fun row hrow' => hsub row (List.mem_cons_of_mem _ hrow'))
    · exact hs
    · intro u t' hfind
      simp only [UMap.find_touch_assign] at hfind
      split_ifs at hfind with h
      · cases hfind
        exact ⟨line2, hsub line2 (List.mem_cons_self _ _), h.symm, hrow⟩
      · exact hu u t' hfind

/-- Claim C11. When `_readUserRanksFile` has processed a header line and any sequence of
user rows on the store of a new object (empty rank order, no user), the rank order is the
header and every user of the rating table has the table one of the rows with that user
name left: an entry for every film of the rank order, rows with fewer tokens than films
included, and the value `NA_VALUE` for a film whose token is `NA` or missing from the
row. -/
theorem readUserRanksFile_total (parseDouble : String → α) (lines : List (List String))
    (s : Store α) (horder : s.rankedFilmOrder = [])
    (husers : ∀ u, s.usersRating.find? u = none) :
    (_readUserRanksFile parseDouble (some lines) s).1 = .ok METHOD_SUCCESS ∧
    (_readUserRanksFile parseDouble (some lines) s).2.rankedFilmOrder = lines.headD [] ∧
    ∀ u t, (_readUserRanksFile parseDouble (some lines) s).2.usersRating.find? u = some t →
      (∀ f ∈ (_readUserRanksFile parseDouble (some lines) s).2.rankedFilmOrder,
        ∃ r, t.find? f = some r) ∧
      ∃ row ∈ lines.tail, row.headD "" = u ∧
        ∀ f ∈ lines.headD [],
          (∀ j : Nat, (lines.headD [])[j]? = some f →
            row.tail[j]? = none ∨ row.tail[j]? = some "NA") →
          t.find? f = some 0 := by
  obtain ⟨hord, hzero⟩ := readHeader_spec (lines.headD []) (UMap.empty : UMap α)
    s.rankedFilmOrder (fun f v hv => by cases hv)
  have hord' : (readHeader (lines.headD []) (UMap.empty : UMap α) s.rankedFilmOrder).2
      = lines.headD [] := by
    rw [hord, horder, List.nil_append]
  have hir : ∀ f ∈ lines.headD [],
      (readHeader (lines.headD []) (UMap.empty : UMap α) s.rankedFilmOrder).1.find? f
        = some NA_VALUE :=
    fun f hf => hzero f (Or.inl hf)
  obtain ⟨h1, h2, h3⟩ := readUserRows_spec parseDouble _ (lines.headD []) lines.tail hir
    lines.tail (fun _ h => h)
    { s with rankedFilmOrder :=
        (readHeader (lines.headD []) (UMap.empty : UMap α) s.rankedFilmOrder).2 }
    hord' (fun u t hfind => by rw [husers u] at hfind; cases hfind)
  have hout : _readUserRanksFile parseDouble (some lines) s
      = (.ok METHOD_SUCCESS,
          (readUserRows parseDouble
            (readHeader (lines.headD []) (UMap.empty : UMap α) s.rankedFilmOrder).1
            lines.tail
            { s with rankedFilmOrder :=
                (readHeader (lines.headD []) (UMap.empty : UMap α)
                  s.rankedFilmOrder).2 }).2) := by
    simp only [_readUserRanksFile]
    split
    · rename_i e s' heq
      rw [heq] at h1
      cases h1
    · rename_i u s' heq
      rw [heq]
  rw [hout]
  refine ⟨rfl, h2, ?_⟩
  intro u t hfind
  obtain ⟨row, hrow, hname, htable⟩ := h3 u t hfind
  refine ⟨?_, row, hrow, hname, htable.2⟩
  simp only
  rw [h2]
  exact htable.1

/-- Witness of claim C11: a rating file with an `NA` token and a short row, read into the
store of a new object. -/
theorem readUserRanksFile_total_witness :
    (emptyStore : Store ℚ).rankedFilmOrder = [] ∧
    (∀ u, (emptyStore : Store ℚ).usersRating.find? u = none) ∧
    ((_readUserRanksFile digitsParse (some exampleRanksFile) (emptyStore : Store ℚ)).1
        = .ok METHOD_SUCCESS ∧
      (_readUserRanksFile digitsParse (some exampleRanksFile)
          (emptyStore : Store ℚ)).2.rankedFilmOrder = exampleRanksFile.headD [] ∧
      ∀ u t, (_readUserRanksFile digitsParse (some exampleRanksFile)
          (emptyStore : Store ℚ)).2.usersRating.find? u = some t →
        (∀ f ∈ (_readUserRanksFile digitsParse (some exampleRanksFile)
            (emptyStore : Store ℚ)).2.rankedFilmOrder, ∃ r, t.find? f = some r) ∧
        ∃ row ∈ exampleRanksFile.tail, row.headD "" = u ∧
          ∀ f ∈ exampleRanksFile.headD [],
            (∀ j : Nat, (exampleRanksFile.headD [])[j]? = some f →
              row.tail[j]? = none ∨ row.tail[j]? = some "NA") →
            t.find? f = some 0) :=
  ⟨rfl, fun _ => rfl,
    readUserRanksFile_total digitsParse exampleRanksFile emptyStore rfl (fun _ => rfl)⟩

end RatingsFileClaim

section Preference

variable {α : Type} [LinearOrderedField α]

theorem foldl_sumRated (entries : List (String × α)) (acc : α × α) :
    entries.foldl
        (fun acc film => if film.2 ≠ NA_VALUE then (acc.1 + film.2, acc.2 + 1) else acc) acc
      = (acc.1 + ((entries.filter (fun e => decide (e.2 ≠ NA_VALUE))).map Prod.snd).sum,
          acc.2 + ((entries.filter (fun e => decide (e.2 ≠ NA_VALUE))).length : α)) := by
  induction entries generalizing acc with
  | nil => simp
  | cons e rest ih =>
    by_cases h : e.2 ≠ NA_VALUE
    · simp only [List.foldl_cons, if_pos h, ih, List.filter_cons, decide_eq_true h, if_true,
        List.map_cons, List.sum_cons, List.length_cons, Nat.cast_add, Nat.cast_one]
      refine Prod.ext ?_ ?_
      · simp only
        ring
      · simp only
        ring
    · simp only [List.foldl_cons, if_neg h, ih, List.filter_cons, decide_eq_false h]
      rfl

theorem sumRated_eq (stored : UMap α) :
    (sumRated stored.entries).1 / (sumRated stored.entries).2 = meanRating stored := by
  unfold sumRated
  rw [foldl_sumRated]
  simp only [zero_add, meanRating, ratedEntries]

theorem addToPreferenceVector_getD (source vector out : List α) (scalar : α)
    (h : _addToPreferenceVector source vector scalar = .ok out) (i : Nat) :
    out.getD i 0 = vector.getD i 0 + source.getD i 0 * scalar := by
  induction source generalizing vector out i with
  | nil =>
    simp only [_addToPreferenceVector, Except.ok.injEq] at h
    subst h
    simp
  | cons x source ih =>
    cases vector with
    | nil => simp [_addToPreferenceVector] at h
    | cons v vector =>
      simp only [_addToPreferenceVector] at h
      split at h
      · rename_i rest hrest
        simp only [Except.ok.injEq] at h
        subst h
        cases i with
        | zero => simp
        | succ j =>
          have := ih vector rest hrest j
          simpa using this
      · cases h

theorem centreRatings_getD (s : Store α) (avg : α) (l copy : List (String × α))
    (preferVector out : List α)
    (h : centreRatings s.moviesScores avg l preferVector = .ok (copy, out)) (i : Nat) :
    out.getD i 0 = preferVector.getD i 0 +
      ((l.filter (fun e => decide (e.2 ≠ NA_VALUE))).map
        (fun e => (e.2 - avg) * (featuresOf s e.1).getD i 0)).sum := by
  induction l generalizing preferVector copy out with
  | nil =>
    simp only [centreRatings, Except.ok.injEq, Prod.mk.injEq] at h
    rw [← h.2]
    simp
  | cons e rest ih =>
    simp only [centreRatings] at h
    split_ifs at h with hna
    · split at h
      · cases h
      · rename_i source hsource
        split at h
        · cases h
        · rename_i pv hpv
          split at h
          · cases h
          · rename_i rest' out' hrec
            simp only [Except.ok.injEq, Prod.mk.injEq] at h
            rw [← h.2, ih _ _ _ hrec, addToPreferenceVector_getD _ _ _ _ hpv i]
            have hf : featuresOf s e.1 = source :=
              featuresOf_of_find (UMap.atKey_eq_ok.1 hsource)
            simp only [List.filter_cons, decide_eq_true hna, if_true, List.map_cons,
              List.sum_cons, hf]
            ring
    · split at h
      · cases h
      · rename_i rest' out' hrec
        simp only [Except.ok.injEq, Prod.mk.injEq] at h
        rw [← h.2, ih _ _ _ hrec]
        simp only [List.filter_cons, decide_eq_false hna]
        rfl

end Preference

section PreferenceClaim

variable {α : Type} [LinearOrderedField α]

theorem preferenceVector_getD (s : Store α) (stored : UMap α) (pref : List α)
    (h : preferenceVector s stored = .ok pref) (i : Nat) :
    pref.getD i 0 = preferenceComponent s stored i := by
  simp only [preferenceVector] at h
  split at h
  · cases h
  · rename_i zeros hzeros
    split at h
    · cases h
    · rename_i copy out hc
      simp only [Except.ok.injEq] at h
      subst h
      rw [sumRated_eq] at hc
      rw [centreRatings_getD s _ _ _ _ _ hc i]
      have hz : zeros.getD i 0 = 0 := by
        simp only [initialPreferVector] at hzeros
        split at hzeros
        · cases hzeros
        · simp only [Except.ok.injEq] at hzeros
          rw [← hzeros]
          simp only [List.getD_eq_getElem?_getD, List.getElem?_replicate]
          split_ifs <;> rfl
      rw [hz, zero_add]
      rfl

/-- Claim C16. On a well-formed store, for a known user who rated at least one film, the
preference vector `recommendByContent` builds has the length of the feature vectors and
its component `i` is the sum, over the entries of the user's table that differ from
`NA_VALUE`, of `(rating - mean) * featureVector[film][i]`, where the mean is the sum of
those ratings over their (non-zero) number; entries equal to `NA_VALUE` enter neither the
mean nor the vector. -/
theorem preferenceVector_spec (sqrt : α → α) (s : Store α) (hwf : WellFormed sqrt s)
    (userName : String) (stored : UMap α)
    (hu : s.usersRating.find? userName = some stored)
    (hrated : ∃ e ∈ stored.entries, e.2 ≠ NA_VALUE) :
    ∃ pref, preferenceVector s stored = .ok pref ∧
      (∀ f v, s.moviesScores.find? f = some v → pref.length = v.length) ∧
      ((ratedEntries stored).length : α) ≠ 0 ∧
      ∀ i, pref.getD i 0 = preferenceComponent s stored i := by
  obtain ⟨pref, hpref, hlen⟩ := preferenceVector_ok sqrt s hwf userName stored hu
  refine ⟨pref, hpref, hlen, ?_, preferenceVector_getD s stored pref hpref⟩
  obtain ⟨e, he, hne⟩ := hrated
  have hmem : e ∈ ratedEntries stored := by
    simp only [ratedEntries, List.mem_filter, decide_eq_true_eq]
    exact ⟨he, hne⟩
  have hpos : 0 < (ratedEntries stored).length := List.length_pos_of_mem hmem
  exact Nat.cast_ne_zero.2 (Nat.pos_iff_ne_zero.1 hpos)

/-- Witness of claim C16: the user `u` of the worked example, with `A = [1, 0]` rated 5 and
`B = [0, 1]` rated 1; the mean is 3 and the preference vector `[2, -2]`. -/
theorem preferenceVector_spec_witness :
    WellFormed Real.sqrt (exampleStore Real.sqrt) ∧
    (exampleStore Real.sqrt).usersRating.find? "u" = some exampleRatings ∧
    (∃ e ∈ (exampleRatings : UMap ℝ).entries, e.2 ≠ NA_VALUE) ∧
    meanRating (exampleRatings : UMap ℝ) = 3 ∧
    preferenceVector (exampleStore Real.sqrt) exampleRatings = .ok [2, -2] ∧
    ∃ pref, preferenceVector (exampleStore Real.sqrt) exampleRatings = .ok pref ∧
      (∀ f v, (exampleStore Real.sqrt).moviesScores.find? f = some v →
        pref.length = v.length) ∧
      (((ratedEntries (exampleRatings : UMap ℝ)).length : ℝ)) ≠ 0 ∧
      ∀ i, pref.getD i 0 = preferenceComponent (exampleStore Real.sqrt) exampleRatings i := by
  have hrated : ∃ e ∈ (exampleRatings : UMap ℝ).entries, e.2 ≠ NA_VALUE :=
    ⟨("A", 5), by simp [exampleRatings], by simp [NA_VALUE]⟩
  refine ⟨exampleStore_wellFormed Real.sqrt, exampleStore_user Real.sqrt, hrated, ?_, ?_,
    preferenceVector_spec Real.sqrt (exampleStore Real.sqrt)
      (exampleStore_wellFormed Real.sqrt) "u" exampleRatings (exampleStore_user Real.sqrt)
      hrated⟩
  · simp [meanRating, ratedEntries, exampleRatings, NA_VALUE, List.filter]
    norm_num
  · simp [preferenceVector, initialPreferVector, sumRated, centreRatings,
      _addToPreferenceVector, exampleStore, exampleRatings, UMap.find?, UMap.atKey,
      List.lookup, NA_VALUE]
    norm_num

end PreferenceClaim

section CollaborativeScan

variable {α : Type} [LinearOrderedField α]

theorem predictMovieScoreForUser_pair (S : StdSort α) (movieName userName : String)
    (k : Int) (s : Store α) :
    predictMovieScoreForUser S movieName userName k s
      = ((predictMovieScoreForUser S movieName userName k s).1, s) :=
  Prod.ext rfl (predictMovieScoreForUser_store S movieName userName k s)

theorem cfScan_cons_ok (S : StdSort α) (userName : String) (k : Int) (itemNA : String)
    (rest : List String) (best : Dbl α × String) (s : Store α) (tempRate : Dbl α)
    (h : (predictMovieScoreForUser S itemNA userName k s).1 = .ok tempRate) :
    cfScan S userName k (itemNA :: rest) best s
      = if Dbl.gt tempRate best.1 = true then cfScan S userName k rest (tempRate, itemNA) s
        else cfScan S userName k rest best s := by
  have hp := predictMovieScoreForUser_pair S itemNA userName k s
  rw [h] at hp
  simp only [cfScan, hp]

theorem cfScan_cons_error (S : StdSort α) (userName : String) (k : Int) (itemNA : String)
    (rest : List String) (best : Dbl α × String) (s : Store α) (e : Fault)
    (h : (predictMovieScoreForUser S itemNA userName k s).1 = .error e) :
    cfScan S userName k (itemNA :: rest) best s = (.error e, s) := by
  have hp := predictMovieScoreForUser_pair S itemNA userName k s
  rw [h] at hp
  simp only [cfScan, hp]

/-- The result of the scan of `recommendByCF` is the pair it started from or a film of the
list with its predicted score, which is greater than the score it started from. -/
theorem cfScan_result (S : StdSort α) (userName : String) (k : Int) (l : List String)
    (best best' : Dbl α × String) (s : Store α)
    (h : (cfScan S userName k l best s).1 = .ok best') :
    best' = best ∨
      (best'.2 ∈ l ∧ (predictMovieScoreForUser S best'.2 userName k s).1 = .ok best'.1 ∧
        Dbl.gt best'.1 best.1 = true) := by
  induction l generalizing best with
  | nil =>
    simp only [cfScan, Except.ok.injEq] at h
    exact Or.inl h.symm
  | cons itemNA rest ih =>
    cases hp : (predictMovieScoreForUser S itemNA userName k s).1 with
    | error e =>
      rw [cfScan_cons_error S userName k itemNA rest best s e hp] at h
      cases h
    | ok tempRate =>
      rw [cfScan_cons_ok S userName k itemNA rest best s tempRate hp] at h
      split_ifs at h with hgt
      · rcases ih _ h with h1 | ⟨h1, h2, h3⟩
        · right
          subst h1
          exact ⟨List.mem_cons_self _ _, hp, hgt⟩
        · exact Or.inr ⟨List.mem_cons_of_mem _ h1, h2, Dbl.gt_trans _ _ _ h3 hgt⟩
      · rcases ih _ h with h1 | ⟨h1, h2, h3⟩
        · exact Or.inl h1
        · exact Or.inr ⟨List.mem_cons_of_mem _ h1, h2, h3⟩

theorem cfScan_ok (S : StdSort α) (userName : String) (k : Int) (l : List String)
    (best : Dbl α × String) (s : Store α)
    (h : ∀ f ∈ l, ∃ v, (predictMovieScoreForUser S f userName k s).1 = .ok v) :
    ∃ best', (cfScan S userName k l best s).1 = .ok best' := by
  induction l generalizing best with
  | nil => exact ⟨best, rfl⟩
  | cons itemNA rest ih =>
    obtain ⟨v, hv⟩ := h itemNA (List.mem_cons_self _ _)
    rw [cfScan_cons_ok S userName k itemNA rest best s v hv]
    split_ifs
    · exact ih _ (fun f hf => h f (List.mem_cons_of_mem _ hf))
    · exact ih _ (fun f hf => h f (List.mem_cons_of_mem _ hf))

theorem collectNotRanked_mem (stored : UMap α) (l notRanked : List String)
    (h : collectNotRanked stored l = .ok notRanked) (f : String) :
    f ∈ notRanked ↔ f ∈ l ∧ stored.find? f = some NA_VALUE := by
  induction l generalizing notRanked with
  | nil =>
    simp only [collectNotRanked, Except.ok.injEq] at h
    subst h
    simp
  | cons temp rest ih =>
    simp only [collectNotRanked] at h
    split at h
    · cases h
    · rename_i rating hr
      have hfind := UMap.atKey_eq_ok.1 hr
      split at h
      · cases h
      · rename_i nr hnr
        have ih' := ih nr hnr
        split_ifs at h with hna
        · simp only [Except.ok.injEq] at h
          subst h
          subst hna
          simp only [List.mem_cons, ih']
          constructor
          · rintro (rfl | ⟨h1, h2⟩)
            · exact ⟨Or.inl rfl, hfind⟩
            · exact ⟨Or.inr h1, h2⟩
          · rintro ⟨rfl | h1, h2⟩
            · exact Or.inl rfl
            · exact Or.inr ⟨h1, h2⟩
        · simp only [Except.ok.injEq] at h
          subst h
          simp only [List.mem_cons, ih']
          constructor
          · rintro ⟨h1, h2⟩
            exact ⟨Or.inr h1, h2⟩
          · rintro ⟨rfl | h1, h2⟩
            · rw [hfind] at h2
              exact absurd (Option.some.inj h2) hna
            · exact ⟨h1, h2⟩

theorem collectNotRanked_ok (stored : UMap α) (l : List String)
    (h : ∀ f ∈ l, ∃ r, stored.find? f = some r) :
    ∃ notRanked, collectNotRanked stored l = .ok notRanked := by
  induction l with
  | nil => exact ⟨[], rfl⟩
  | cons temp rest ih =>
    obtain ⟨r, hr⟩ := h temp (List.mem_cons_self _ _)
    obtain ⟨nr, hnr⟩ := ih (fun f hf => h f (List.mem_cons_of_mem _ hf))
    by_cases hna : r = NA_VALUE
    · exact ⟨temp :: nr, by simp only [collectNotRanked, UMap.atKey_of_find hr, hnr,
        if_pos hna]⟩
    · exact ⟨nr, by simp only [collectNotRanked, UMap.atKey_of_find hr, hnr, if_neg hna]⟩

end CollaborativeScan

section CollaborativeClaim

variable {α : Type} [LinearOrderedField α]

theorem recommendByCF_result (S : StdSort α) (userName : String) (k : Int) (s : Store α)
    (stored : UMap α) (hu : s.usersRating.find? userName = some stored) (r : String)
    (h : (recommendByCF S userName k s).1 = .ok r) :
    ∃ notRanked best, collectNotRanked stored s.rankedFilmOrder = .ok notRanked ∧
      (cfScan S userName k notRanked (.fin 0, "") s).1 = .ok best ∧ best.2 = r := by
  simp only [recommendByCF, hu] at h
  split at h
  · cases h
  · rename_i notRanked hnr
    split at h
    · cases h
    · rename_i best s' heq
      simp only [Except.ok.injEq] at h
      exact ⟨notRanked, best, hnr, by rw [heq], h⟩

/-- Claim C17. On a well-formed store, for a known user and every `k`, a result of
`recommendByCF` other than the empty string is a film of the rank order that the user has
not rated and whose value of `predictMovieScoreForUser` is greater than 0; when no unrated
film of the rank order has a predicted score greater than 0 the result is the empty
string; and for `k` up to the number of rated films the call returns. -/
theorem recommendByCF_positive (sqrt : α → α) (S : StdSort α) (s : Store α)
    (hwf : WellFormed sqrt s) (userName : String) (stored : UMap α)
    (hu : s.usersRating.find? userName = some stored) (k : Int) :
    (∀ r, (recommendByCF S userName k s).1 = .ok r → r ≠ "" →
      r ∈ s.rankedFilmOrder ∧ stored.find? r = some NA_VALUE ∧
      ∃ v, (predictMovieScoreForUser S r userName k s).1 = .ok v ∧
        Dbl.gt v (.fin 0) = true) ∧
    (∀ r, (recommendByCF S userName k s).1 = .ok r →
      (∀ f ∈ s.rankedFilmOrder, stored.find? f = some NA_VALUE →
        ∀ v, (predictMovieScoreForUser S f userName k s).1 = .ok v →
          Dbl.gt v (.fin 0) = false) →
      r = "") ∧
    (k ≤ ((s.rankedFilmOrder.filter (isRated stored)).length : Int) →
      ∃ r, (recommendByCF S userName k s).1 = .ok r) := by
  have hsafe : ∀ r, (recommendByCF S userName k s).1 = .ok r → r ≠ "" →
      r ∈ s.rankedFilmOrder ∧ stored.find? r = some NA_VALUE ∧
      ∃ v, (predictMovieScoreForUser S r userName k s).1 = .ok v ∧
        Dbl.gt v (.fin 0) = true := by
    intro r hr hne
    obtain ⟨notRanked, best, hnr, hscan, hbest⟩ :=
      recommendByCF_result S userName k s stored hu r hr
    rcases cfScan_result S userName k notRanked (.fin 0, "") best s hscan with
      h1 | ⟨h1, h2, h3⟩
    · rw [h1] at hbest
      exact absurd hbest.symm hne
    · rw [hbest] at h1 h2
      have hmem := (collectNotRanked_mem stored _ _ hnr r).1 h1
      exact ⟨hmem.1, hmem.2, best.1, h2, h3⟩
  refine ⟨hsafe, ?_, ?_⟩
  · intro r hr hall
    by_contra hne
    obtain ⟨hmem, hun, v, hv, hpos⟩ := hsafe r hr hne
    rw [hall r hmem hun v hv] at hpos
    cases hpos
  · intro hk
    obtain ⟨notRanked, hnr⟩ := collectNotRanked_ok stored s.rankedFilmOrder
      (hwf.userTotal userName stored hu)
    have hpred : ∀ f ∈ notRanked,
        ∃ v, (predictMovieScoreForUser S f userName k s).1 = .ok v := by
      intro f hf
      have hmem := (collectNotRanked_mem stored _ _ hnr f).1 hf
      obtain ⟨target, htarget⟩ := hwf.rankedKnown f hmem.1
      exact ⟨_, predictMovieScoreForUser_eq sqrt S s hwf f userName target stored htarget
        hu k (by omega)⟩
    obtain ⟨best, hbest⟩ := cfScan_ok S userName k notRanked (.fin 0, "") s hpred
    have hpair : cfScan S userName k notRanked (.fin 0, "") s = (.ok best, s) :=
      Prod.ext hbest (cfScan_store S userName k notRanked (.fin 0, "") s)
    exact ⟨best.2, by simp only [recommendByCF, hu, hnr, hpair]⟩

/-- Witness of claim C17: the user `w` and `k = 2` in the store with a feature of negative
sign, where the only unrated film has the predicted score -5. -/
theorem recommendByCF_positive_witness :
    WellFormed Real.sqrt (signedStore Real.sqrt) ∧
    (signedStore Real.sqrt).usersRating.find? "w" = some signedRatingsLow ∧
    ((∀ r, (recommendByCF insertionStdSort "w" 2 (signedStore Real.sqrt)).1 = .ok r →
        r ≠ "" →
        r ∈ (signedStore Real.sqrt).rankedFilmOrder ∧
        (signedRatingsLow : UMap ℝ).find? r = some NA_VALUE ∧
        ∃ v, (predictMovieScoreForUser insertionStdSort r "w" 2
          (signedStore Real.sqrt)).1 = .ok v ∧ Dbl.gt v (.fin 0) = true) ∧
      (∀ r, (recommendByCF insertionStdSort "w" 2 (signedStore Real.sqrt)).1 = .ok r →
        (∀ f ∈ (signedStore Real.sqrt).rankedFilmOrder,
          (signedRatingsLow : UMap ℝ).find? f = some NA_VALUE →
          ∀ v, (predictMovieScoreForUser insertionStdSort f "w" 2
            (signedStore Real.sqrt)).1 = .ok v → Dbl.gt v (.fin 0) = false) →
        r = "") ∧
      ((2 : Int) ≤ (((signedStore Real.sqrt).rankedFilmOrder.filter
          (isRated (signedRatingsLow : UMap ℝ))).length : Int) →
        ∃ r, (recommendByCF insertionStdSort "w" 2 (signedStore Real.sqrt)).1 = .ok r)) :=
  ⟨signedStore_wellFormed Real.sqrt, signedStore_userLow Real.sqrt,
    recommendByCF_positive Real.sqrt insertionStdSort (signedStore Real.sqrt)
      (signedStore_wellFormed Real.sqrt) "w" signedRatingsLow
      (signedStore_userLow Real.sqrt) 2⟩

end CollaborativeClaim

section NeighbourBounds

variable {α : Type} [LinearOrderedField α]

theorem exists_least_rating {β : Type} (rating : β → α) (l : List β) (hl : l ≠ []) :
    ∃ m ∈ l, ∀ p ∈ l, rating m ≤ rating p := by
  induction l with
  | nil => exact absurd rfl hl
  | cons x rest ih =>
    cases rest with
    | nil =>
      refine ⟨x, List.mem_cons_self _ _, ?_⟩
      intro p hp
      rw [List.mem_singleton.1 hp]
    | cons y rest' =>
      obtain ⟨m, hm, hmin⟩ := ih (List.cons_ne_nil y rest')
      rcases le_total (rating x) (rating m) with h | h
      · refine ⟨x, List.mem_cons_self _ _, ?_⟩
        intro p hp
        rcases List.mem_cons.1 hp with rfl | hp
        · exact le_refl _
        · exact le_trans h (hmin p hp)
      · refine ⟨m, List.mem_cons_of_mem _ hm, ?_⟩
        intro p hp
        rcases List.mem_cons.1 hp with rfl | hp
        · exact h
        · exact hmin p hp

theorem exists_greatest_rating {β : Type} (rating : β → α) (l : List β) (hl : l ≠ []) :
    ∃ m ∈ l, ∀ p ∈ l, rating p ≤ rating m := by
  obtain ⟨m, hm, hmin⟩ := exists_least_rating (fun p => -rating p) l hl
  exact ⟨m, hm, fun p hp => neg_le_neg_iff.1 (hmin p hp)⟩

end NeighbourBounds

section RescalingLemmas

variable {α : Type} [LinearOrderedField α]

theorem IsSqrt.sqrt_scale {sqrt : α → α} (hsq : IsSqrt sqrt) (c x : α) (hc : 0 ≤ c)
    (hx : 0 ≤ x) : sqrt (c * c * x) = c * sqrt x := by
  have h1 : sqrt (c * c * x) * sqrt (c * c * x) = c * c * x :=
    hsq.mul_self _ (mul_nonneg (mul_self_nonneg c) hx)
  have h2 : (c * sqrt x) * (c * sqrt x) = c * c * x := by
    have := hsq.mul_self x hx
    calc (c * sqrt x) * (c * sqrt x) = c * c * (sqrt x * sqrt x) := by ring
      _ = c * c * x := by rw [this]
  exact (mul_self_inj (hsq.nonneg _) (mul_nonneg hc (hsq.nonneg _))).1 (h1.trans h2.symm)

theorem sumSquares_scale (c : α) (v : List α) :
    sumSquares (v.map (fun x => c * x)) = c * c * sumSquares v := by
  induction v with
  | nil => simp [sumSquares]
  | cons x v ih =>
    have h1 : sumSquares ((x :: v).map (fun x => c * x))
        = (c * x) * (c * x) + sumSquares (v.map (fun x => c * x)) := by simp [sumSquares]
    have h2 : sumSquares (x :: v) = x * x + sumSquares v := by simp [sumSquares]
    rw [h1, h2, ih]
    ring

theorem norm_scale (sqrt : α → α) (hsq : IsSqrt sqrt) (c : α) (hc : 0 ≤ c) (v : List α) :
    norm sqrt (v.map (fun x => c * x)) = c * norm sqrt v := by
  rw [norm_eq, norm_eq, sumSquares_scale, hsq.sqrt_scale c _ hc (sumSquares_nonneg v)]

theorem innerProduct_scale (c : α) (a b : List α) (init : α) :
    innerProduct (a.map (fun x => c * x)) b (c * init)
      = (innerProduct a b init).map (fun d => c * d) := by
  induction a generalizing b init with
  | nil => rfl
  | cons x a ih =>
    cases b with
    | nil => rfl
    | cons y b =>
      simp only [List.map_cons, innerProduct]
      rw [← ih b (init + x * y)]
      congr 1
      ring

theorem dotProduct_scale (c : α) (a b : List α) :
    _dotProduct (a.map (fun x => c * x)) b = (_dotProduct a b).map (fun d => c * d) := by
  unfold _dotProduct
  rw [← innerProduct_scale, mul_zero]

theorem addToPreferenceVector_scale (c : α) (source vector : List α) (scalar : α) :
    _addToPreferenceVector source (vector.map (fun x => c * x)) (c * scalar)
      = (_addToPreferenceVector source vector scalar).map (List.map (fun x => c * x)) := by
  induction source generalizing vector with
  | nil => rfl
  | cons x source ih =>
    cases vector with
    | nil => rfl
    | cons v vector =>
      simp only [List.map_cons, _addToPreferenceVector, ih vector]
      cases _addToPreferenceVector source vector scalar with
      | error e => rfl
      | ok rest =>
        simp only [Except.map, List.map_cons]
        congr 2
        ring

end RescalingLemmas

section RescalingContent

variable {α : Type} [LinearOrderedField α]

theorem lookup_scale (c : α) (l : List (String × α)) (f : String) :
    (l.map (fun e => (e.1, c * e.2))).lookup f = (l.lookup f).map (fun r => c * r) := by
  induction l with
  | nil => rfl
  | cons e rest ih =>
    obtain ⟨k, v⟩ := e
    by_cases h : f = k
    · subst h
      simp [List.lookup]
    · have hb : (f == k) = false := by simpa using h
      simp only [List.map_cons, List.lookup, hb, ih]

theorem find_scaleRatings (c : α) (stored : UMap α) (f : String) :
    (scaleRatings c stored).find? f = (stored.find? f).map (fun r => c * r) :=
  lookup_scale c stored.entries f

theorem atKey_scaleRatings (c : α) (stored : UMap α) (f : String) :
    (scaleRatings c stored).atKey f = (stored.atKey f).map (fun r => c * r) := by
  unfold UMap.atKey
  rw [find_scaleRatings]
  cases stored.find? f <;> rfl

theorem scale_eq_NA_iff (c : α) (hc : 0 < c) (r : α) : c * r = NA_VALUE ↔ r = NA_VALUE := by
  unfold NA_VALUE
  constructor
  · intro h
    rcases mul_eq_zero.1 h with h | h
    · exact absurd h (ne_of_gt hc)
    · exact h
  · intro h
    rw [h, mul_zero]

theorem sumRated_scale (c : α) (hc : 0 < c) (l : List (String × α)) (acc : α × α) :
    (l.map (fun e => (e.1, c * e.2))).foldl
        (fun acc film => if film.2 ≠ NA_VALUE then (acc.1 + film.2, acc.2 + 1) else acc)
        (c * acc.1, acc.2)
      = (c * (l.foldl
          (fun acc film => if film.2 ≠ NA_VALUE then (acc.1 + film.2, acc.2 + 1) else acc)
          acc).1,
        (l.foldl
          (fun acc film => if film.2 ≠ NA_VALUE then (acc.1 + film.2, acc.2 + 1) else acc)
          acc).2) := by
  induction l generalizing acc with
  | nil => rfl
  | cons e rest ih =>
    simp only [List.map_cons, List.foldl_cons]
    by_cases h : e.2 ≠ NA_VALUE
    · have h' : c * e.2 ≠ NA_VALUE := fun hh => h ((scale_eq_NA_iff c hc e.2).1 hh)
      rw [if_pos h', if_pos h]
      have := ih (acc.1 + e.2, acc.2 + 1)
      simp only at this
      rw [← this, mul_add]
    · have h' : ¬ c * e.2 ≠ NA_VALUE :=
        fun hh => h (fun he => hh ((scale_eq_NA_iff c hc e.2).2 he))
      rw [if_neg h', if_neg h]
      exact ih acc

theorem mean_scale (c : α) (hc : 0 < c) (stored : UMap α) :
    (sumRated (scaleRatings c stored).entries).1 / (sumRated (scaleRatings c stored).entries).2
      = c * ((sumRated stored.entries).1 / (sumRated stored.entries).2) := by
  have h := sumRated_scale c hc stored.entries (0, 0)
  simp only [mul_zero] at h
  have h' : sumRated (scaleRatings c stored).entries
      = (c * (sumRated stored.entries).1, (sumRated stored.entries).2) := h
  rw [h']
  simp only
  rw [mul_div_assoc]

theorem centreRatings_scale (c : α) (hc : 0 < c) (moviesScores : UMap (List α)) (avg : α)
    (l : List (String × α)) (preferVector : List α) :
    centreRatings moviesScores (c * avg) (l.map (fun e => (e.1, c * e.2)))
        (preferVector.map (fun x => c * x))
      = (centreRatings moviesScores avg l preferVector).map
          (fun r => (r.1.map (fun e => (e.1, c * e.2)), r.2.map (fun x => c * x))) := by
  induction l generalizing preferVector with
  | nil => rfl
  | cons e rest ih =>
    simp only [List.map_cons, centreRatings]
    by_cases h : e.2 ≠ NA_VALUE
    · have h' : c * e.2 ≠ NA_VALUE := fun hh => h ((scale_eq_NA_iff c hc e.2).1 hh)
      rw [if_pos h', if_pos h]
      cases moviesScores.atKey e.1 with
      | error err => rfl
      | ok source =>
        simp only
        rw [← mul_sub, addToPreferenceVector_scale]
        cases _addToPreferenceVector source preferVector (e.2 - avg) with
        | error err => rfl
        | ok pv =>
          simp only [Except.map]
          rw [ih pv]
          cases centreRatings moviesScores avg rest pv with
          | error err => rfl
          | ok r => rfl
    · have h' : ¬ c * e.2 ≠ NA_VALUE :=
        fun hh => h (fun he => hh ((scale_eq_NA_iff c hc e.2).2 he))
      rw [if_neg h', if_neg h, ih preferVector]
      cases centreRatings moviesScores avg rest preferVector with
      | error err => rfl
      | ok r => rfl

end RescalingContent

section RescalingClaim

variable {α : Type} [LinearOrderedField α]

theorem preferenceVector_scale (c : α) (hc : 0 < c) (s s' : Store α)
    (hms : s'.moviesScores = s.moviesScores) (stored : UMap α) :
    preferenceVector s' (scaleRatings c stored)
      = (preferenceVector s stored).map (List.map (fun x => c * x)) := by
  simp only [preferenceVector, hms, mean_scale c hc stored]
  cases hz : initialPreferVector s.moviesScores with
  | error e => rfl
  | ok zeros =>
    simp only
    have hzeros : zeros = zeros.map (fun x => c * x) := by
      simp only [initialPreferVector] at hz
      split at hz
      · cases hz
      · simp only [Except.ok.injEq] at hz
        rw [← hz]
        simp
    have hent : (scaleRatings c stored).entries
        = stored.entries.map (fun e => (e.1, c * e.2)) := rfl
    rw [hent]
    conv_lhs => rw [hzeros]
    rw [centreRatings_scale c hc]
    cases centreRatings s.moviesScores
        ((sumRated stored.entries).1 / (sumRated stored.entries).2) stored.entries zeros with
    | error e => rfl
    | ok r => rfl

/-- A quotient keeps its value, special values included, when the number divided and the
divisor are multiplied by the same positive factor. -/
theorem Dbl.div_scale (c a b : α) (hc : 0 < c) :
    Dbl.div (Dbl.fin (c * a)) (Dbl.fin (c * b)) = Dbl.div (Dbl.fin a) (Dbl.fin b) := by
  have hc0 : c ≠ 0 := ne_of_gt hc
  by_cases hb : b = 0
  · subst hb
    by_cases ha : a = 0
    · subst ha
      simp [Dbl.div]
    · have hca : c * a ≠ 0 := mul_ne_zero hc0 ha
      by_cases hpos : 0 < a
      · simp [Dbl.div, ha, hc0, hpos, mul_pos hc hpos]
      · have hneg : ¬ 0 < c * a := fun h => hpos (pos_of_mul_pos_right h (le_of_lt hc))
        simp [Dbl.div, ha, hc0, hpos, hneg]
  · have hcb : c * b ≠ 0 := mul_ne_zero hc0 hb
    rw [Dbl.div_fin _ _ hcb, Dbl.div_fin _ _ hb, mul_div_mul_left _ _ hc0]

theorem contentProduct_scale (sqrt : α → α) (hsq : IsSqrt sqrt) (c : α) (hc : 0 < c)
    (s s' : Store α) (hms : s'.moviesScores = s.moviesScores)
    (hn : s'.normedMoviesVectors = s.normedMoviesVectors) (pref : List α) (f : String) :
    contentProduct sqrt s' (pref.map (fun x => c * x)) f = contentProduct sqrt s pref f := by
  simp only [contentProduct, hms, hn]
  cases s.moviesScores.atKey f with
  | error e => rfl
  | ok features =>
    simp only
    rw [dotProduct_scale]
    cases _dotProduct pref features with
    | error e => rfl
    | ok dot =>
      simp only [Except.map]
      cases s.normedMoviesVectors.atKey f with
      | error e => rfl
      | ok cached =>
        simp only
        rw [norm_scale sqrt hsq c (le_of_lt hc), mul_assoc, Dbl.div_scale _ _ _ hc]

theorem contentScan_scale (sqrt : α → α) (hsq : IsSqrt sqrt) (c : α) (hc : 0 < c)
    (s s' : Store α) (hms : s'.moviesScores = s.moviesScores)
    (hn : s'.normedMoviesVectors = s.normedMoviesVectors) (stored : UMap α)
    (pref : List α) (l : List String) (best : String × Dbl α) :
    contentScan sqrt s' (scaleRatings c stored) (pref.map (fun x => c * x)) l best
      = contentScan sqrt s stored pref l best := by
  induction l generalizing best with
  | nil => rfl
  | cons f rest ih =>
    simp only [contentScan, atKey_scaleRatings,
      contentProduct_scale sqrt hsq c hc s s' hms hn pref f]
    cases stored.atKey f with
    | error e => rfl
    | ok rating =>
      simp only [Except.map]
      by_cases h : rating = NA_VALUE
      · have h' : c * rating = NA_VALUE := (scale_eq_NA_iff c hc rating).2 h
        rw [if_pos h', if_pos h]
        cases contentProduct sqrt s pref f with
        | error e => rfl
        | ok product =>
          simp only
          split_ifs
          · exact ih _
          · exact ih _
      · have h' : ¬ c * rating = NA_VALUE := fun hh => h ((scale_eq_NA_iff c hc rating).1 hh)
        rw [if_neg h', if_neg h]
        exact ih _

/-- Claim C20. On a well-formed store, for a known user and a factor `c > 0`, the call of
`recommendByContent` on the store in which every rating of the user is multiplied by `c`
(entries `NA_VALUE` stay `NA_VALUE`) returns, and returns the film it returns on the
store itself: the preference vector is multiplied by `c`, and so is its norm, which leaves
every score as it was. -/
theorem recommendByContent_scale_invariant (sqrt : α → α) (hsq : IsSqrt sqrt)
    (s : Store α) (hwf : WellFormed sqrt s) (userName : String) (stored : UMap α)
    (hu : s.usersRating.find? userName = some stored) (c : α) (hc : 0 < c) :
    ∃ r, (recommendByContent sqrt userName s).1 = .ok r ∧
      (recommendByContent sqrt userName
        (s.withRatings userName (scaleRatings c stored))).1 = .ok r := by
  obtain ⟨pref, hpref, hlen⟩ := preferenceVector_ok sqrt s hwf userName stored hu
  have hr : ∀ f ∈ s.rankedFilmOrder, ∃ v, stored.find? f = some v :=
    hwf.userTotal userName stored hu
  have hs : ∀ f ∈ s.rankedFilmOrder, stored.find? f = some NA_VALUE →
      ∃ p, contentProduct sqrt s pref f = .ok p := by
    intro f hf _
    obtain ⟨v, hv⟩ := hwf.rankedKnown f hf
    exact ⟨_, contentProduct_eq sqrt s hwf pref f v hv (hlen f v hv)⟩
  obtain ⟨best, hbest⟩ := contentScan_ok sqrt s stored pref s.rankedFilmOrder
    ("", .fin (-INT_MAX)) hr hs
  refine ⟨best.1, by simp only [recommendByContent, hu, hpref, hbest], ?_⟩
  have hu' : (s.withRatings userName (scaleRatings c stored)).usersRating.find? userName
      = some (scaleRatings c stored) := by
    simp only [Store.withRatings, UMap.find_assign, if_true]
  have hpref' := preferenceVector_scale c hc s
    (s.withRatings userName (scaleRatings c stored)) rfl stored
  rw [hpref] at hpref'
  have hscan := contentScan_scale sqrt hsq c hc s
    (s.withRatings userName (scaleRatings c stored)) rfl rfl stored pref
    s.rankedFilmOrder ("", .fin (-INT_MAX))
  rw [hbest] at hscan
  have hord : (s.withRatings userName (scaleRatings c stored)).rankedFilmOrder
      = s.rankedFilmOrder := rfl
  simp only [recommendByContent, hu', hpref', Except.map, hord, hscan]

/-- Witness of claim C20: the ratings of the user `u` of the worked example doubled. -/
theorem recommendByContent_scale_invariant_witness :
    IsSqrt Real.sqrt ∧ WellFormed Real.sqrt (exampleStore Real.sqrt) ∧
    (exampleStore Real.sqrt).usersRating.find? "u" = some exampleRatings ∧
    (0 : ℝ) < 2 ∧
    ∃ r, (recommendByContent Real.sqrt "u" (exampleStore Real.sqrt)).1 = .ok r ∧
      (recommendByContent Real.sqrt "u"
        ((exampleStore Real.sqrt).withRatings "u" (scaleRatings 2 exampleRatings))).1
        = .ok r :=
  ⟨isSqrt_real, exampleStore_wellFormed Real.sqrt, exampleStore_user Real.sqrt,
    by norm_num,
    recommendByContent_scale_invariant Real.sqrt isSqrt_real (exampleStore Real.sqrt)
      (exampleStore_wellFormed Real.sqrt) "u" exampleRatings (exampleStore_user Real.sqrt)
      2 (by norm_num)⟩

end RescalingClaim

section BlankFacts

variable {α : Type} [LinearOrderedField α]

theorem blankStore_wellFormed (sqrt : α → α) : WellFormed sqrt (blankStore sqrt) where
  sameLength := by
    intro f g v w hf hg
    have h1 := UMap.mem_of_find hf
    have h2 := UMap.mem_of_find hg
    simp only [blankStore, List.mem_cons, Prod.mk.injEq, List.mem_singleton,
      List.not_mem_nil, or_false] at h1 h2
    rcases h1 with ⟨-, rfl⟩ | ⟨-, rfl⟩ | ⟨-, rfl⟩ | ⟨-, rfl⟩ | ⟨-, rfl⟩ <;>
      rcases h2 with ⟨-, rfl⟩ | ⟨-, rfl⟩ | ⟨-, rfl⟩ | ⟨-, rfl⟩ | ⟨-, rfl⟩ <;> rfl
  normCache := by
    intro f
    simp only [blankStore, UMap.find?, List.lookup]
    split <;> [rfl; (split <;> [rfl; (split <;> [rfl; (split <;> [rfl; (split <;> rfl)])])])]
  userTotal := by
    intro u stored hu f hf
    have h1 := UMap.mem_of_find hu
    simp only [blankStore, List.mem_cons, List.mem_singleton, Prod.mk.injEq,
      List.not_mem_nil, or_false] at h1
    simp only [blankStore, List.mem_cons, List.mem_singleton, List.not_mem_nil,
      or_false] at hf
    rcases h1 with ⟨-, rfl⟩ | ⟨-, rfl⟩ | ⟨-, rfl⟩ | ⟨-, rfl⟩ <;>
      rcases hf with rfl | rfl | rfl | rfl | rfl <;>
      simp [blankRatings, blankRatingsLate, blankRatingsMixed, blankRatingsFull,
        UMap.find?, List.lookup]
  rankedKnown := by
    intro f hf
    simp only [blankStore, List.mem_cons, List.mem_singleton, List.not_mem_nil,
      or_false] at hf
    rcases hf with rfl | rfl | rfl | rfl | rfl <;>
      simp [blankStore, UMap.find?, List.lookup]
  ratedKnown := by
    intro u stored hu f r hf _
    have h1 := UMap.mem_of_find hu
    simp only [blankStore, List.mem_cons, List.mem_singleton, Prod.mk.injEq,
      List.not_mem_nil, or_false] at h1
    have h2 := UMap.mem_of_find hf
    rcases h1 with ⟨-, rfl⟩ | ⟨-, rfl⟩ | ⟨-, rfl⟩ | ⟨-, rfl⟩ <;>
      simp only [blankRatings, blankRatingsLate, blankRatingsMixed, blankRatingsFull,
        List.mem_cons, Prod.mk.injEq, List.mem_singleton, List.not_mem_nil,
        or_false] at h2 <;>
      rcases h2 with ⟨rfl, -⟩ | ⟨rfl, -⟩ | ⟨rfl, -⟩ | ⟨rfl, -⟩ | ⟨rfl, -⟩ <;>
      simp [blankStore, UMap.find?, List.lookup]
  nonempty := by simp [blankStore]

theorem blankStore_user (sqrt : α → α) :
    (blankStore sqrt).usersRating.find? "u" = some blankRatings := by
  simp [blankStore, UMap.find?, List.lookup]

theorem blankStore_userLate (sqrt : α → α) :
    (blankStore sqrt).usersRating.find? "v" = some blankRatingsLate := by
  simp [blankStore, UMap.find?, List.lookup]

theorem blankStore_userMixed (sqrt : α → α) :
    (blankStore sqrt).usersRating.find? "w" = some blankRatingsMixed := by
  simp [blankStore, UMap.find?, List.lookup]

theorem blankStore_userFull (sqrt : α → α) :
    (blankStore sqrt).usersRating.find? "x" = some blankRatingsFull := by
  simp [blankStore, UMap.find?, List.lookup]

theorem blankStore_filmA (sqrt : α → α) :
    (blankStore sqrt).moviesScores.find? "A" = some [3, 0] := by
  simp [blankStore, UMap.find?, List.lookup]

theorem blankStore_filmQ (sqrt : α → α) :
    (blankStore sqrt).moviesScores.find? "Q" = some [3, 4] := by
  simp [blankStore, UMap.find?, List.lookup]

theorem blankStore_ratedCount (sqrt : α → α) :
    ((blankStore sqrt).rankedFilmOrder.filter
      (isRated (blankRatings : UMap α))).length = 2 := by
  simp [blankStore, blankRatings, isRated, UMap.find?, List.lookup, NA_VALUE,
    List.filter]

theorem blankStore_ratedCountLate (sqrt : α → α) :
    ((blankStore sqrt).rankedFilmOrder.filter
      (isRated (blankRatingsLate : UMap α))).length = 2 := by
  simp [blankStore, blankRatingsLate, isRated, UMap.find?, List.lookup, NA_VALUE,
    List.filter]

theorem blankStore_ratedCountMixed (sqrt : α → α) :
    ((blankStore sqrt).rankedFilmOrder.filter
      (isRated (blankRatingsMixed : UMap α))).length = 2 := by
  simp [blankStore, blankRatingsMixed, isRated, UMap.find?, List.lookup, NA_VALUE,
    List.filter]

theorem sqrt_nine : Real.sqrt (3 * 3) = 3 := Real.sqrt_mul_self (by norm_num)

theorem sqrt_sixteen : Real.sqrt (4 * 4) = 4 := Real.sqrt_mul_self (by norm_num)

theorem sqrt_hundred : Real.sqrt (6 * 6 + 8 * 8) = 10 := by
  rw [show (6 * 6 + 8 * 8 : ℝ) = 10 * 10 by norm_num]
  exact Real.sqrt_mul_self (by norm_num)

theorem blankStore_scored :
    scoredNeighbours Real.sqrt (blankStore Real.sqrt) blankRatings [3, 4]
      = [("A", .fin (3 / 5)), ("B", .fin (4 / 5))] := by
  simp [scoredNeighbours, similarity, isRated, featuresOf, dotSum, norm,
    blankStore, blankRatings, UMap.find?, List.lookup, NA_VALUE, List.filter,
    Dbl.div, sqrt_sum_real, sqrt_nine, sqrt_sixteen]
  norm_num

end BlankFacts

section FiniteNeighbours

variable {α : Type} [LinearOrderedField α]

/-- The sums of the second loop of `predictMovieScoreForUser` over pairs whose similarities
are all numbers. -/
theorem Dbl.sum_of_numbers (rating : String → α) (l : List (String × Dbl α))
    (h : ∀ p ∈ l, ∃ x, p.2 = Dbl.fin x) :
    Dbl.sum (l.map (fun p => Dbl.mul p.2 (Dbl.fin (rating p.1))))
        = Dbl.fin ((l.map (fun p => p.2.toNumber * rating p.1)).sum) ∧
      Dbl.sum (l.map Prod.snd) = Dbl.fin ((l.map (fun p => p.2.toNumber)).sum) := by
  have h1 : l.map (fun p => Dbl.mul p.2 (Dbl.fin (rating p.1)))
      = (l.map (fun p => p.2.toNumber * rating p.1)).map Dbl.fin := by
    rw [List.map_map]
    apply List.map_congr_left
    intro p hp
    obtain ⟨x, hx⟩ := h p hp
    simp [hx, Dbl.mul, Dbl.toNumber]
  have h2 : l.map Prod.snd = (l.map (fun p => p.2.toNumber)).map Dbl.fin := by
    rw [List.map_map]
    apply List.map_congr_left
    intro p hp
    obtain ⟨x, hx⟩ := h p hp
    simp [hx, Dbl.toNumber]
  rw [h1, h2, Dbl.sum_fin, Dbl.sum_fin]
  exact ⟨rfl, rfl⟩

/-- A neighbour whose similarity is at least 0 has a number as similarity. -/
theorem topNeighbours_number (sqrt : α → α) (hsq : IsSqrt sqrt) (S : StdSort α)
    (s : Store α) (stored : UMap α) (target : List α) (k : Int) (p : String × Dbl α)
    (hp : p ∈ topNeighbours sqrt S s stored target k)
    (hge : Dbl.ge p.2 (Dbl.fin 0) = true) :
    ∃ x, p.2 = Dbl.fin x ∧ 0 ≤ x := by
  obtain ⟨_, _, hsim⟩ := mem_scoredNeighbours sqrt s stored target p
    (mem_topNeighbours sqrt S s stored target k p hp)
  rcases similarity_cases sqrt hsq target (featuresOf s p.1) with hnan | ⟨hfin, _, _⟩
  · rw [hsim, hnan, Dbl.ge_nan_left] at hge
    cases hge
  · rw [hsim, hfin] at hge
    exact ⟨_, by rw [hsim, hfin], by simpa [Dbl.ge] using hge⟩

/-- With a NaN among the similarities of the neighbours used, the value
`predictMovieScoreForUser` returns is NaN. -/
theorem predictMovieScoreForUser_nan (sqrt : α → α) (S : StdSort α) (s : Store α)
    (hwf : WellFormed sqrt s) (movieName userName : String) (target : List α)
    (stored : UMap α) (hm : s.moviesScores.find? movieName = some target)
    (hu : s.usersRating.find? userName = some stored) (k : Int)
    (hk : k.toNat ≤ (s.rankedFilmOrder.filter (isRated stored)).length)
    (hnan : ∃ p ∈ topNeighbours sqrt S s stored target k, p.2 = Dbl.nan) :
    (predictMovieScoreForUser S movieName userName k s).1 = .ok Dbl.nan := by
  rw [predictMovieScoreForUser_eq sqrt S s hwf movieName userName target stored hm hu k hk]
  obtain ⟨p, hp, hpn⟩ := hnan
  have h2 : Dbl.sum ((topNeighbours sqrt S s stored target k).map Prod.snd) = Dbl.nan := by
    apply Dbl.sum_nan
    rw [← hpn]
    exact List.mem_map_of_mem _ hp
  rw [h2]
  cases Dbl.sum ((topNeighbours sqrt S s stored target k).map
    (fun p => Dbl.mul p.2 (Dbl.fin (ratingOf stored p.1)))) <;> rfl

theorem scoredNeighbours_numbers (sqrt : α → α) (hsq : IsSqrt sqrt) (s : Store α)
    (stored : UMap α) (target : List α) (ht : nonZero target)
    (hf : ∀ f ∈ s.rankedFilmOrder, isRated stored f = true → nonZero (featuresOf s f)) :
    scoredNeighbours sqrt s stored target
      = (neighbours sqrt s stored target).map (fun p => (p.1, Dbl.fin p.2)) := by
  unfold scoredNeighbours neighbours
  rw [List.map_map]
  apply List.map_congr_left
  intro f hmem
  obtain ⟨hfr, hrated⟩ := List.mem_filter.1 hmem
  simp only [Function.comp, similarity_fin sqrt hsq target _ ht (hf f hfr hrated)]

end FiniteNeighbours

section WeightedAverage

variable {α : Type} [LinearOrderedField α]

/-- Claim C3, amended. On a well-formed store, for a known film, a known user and `k`
between 1 and the number of rated films of the rank order, when neither the target film nor
a film the user rated has the zero feature vector: `predictMovieScoreForUser` returns the
quotient of type `double` of `Σ sᵢ * rᵢ` and `Σ sᵢ` over `k` of the rated films, where `sᵢ`
is the cosine similarity of the rated film's feature vector to the target film's and `rᵢ`
the user's rating of the film, and the `k` films used are the most similar ones: every film
used has a similarity at least that of every rated film left out. -/
theorem predictMovieScoreForUser_weighted_average (sqrt : α → α) (hsq : IsSqrt sqrt)
    (S : StdSort α) (s : Store α) (hwf : WellFormed sqrt s) (movieName userName : String)
    (target : List α) (stored : UMap α)
    (hm : s.moviesScores.find? movieName = some target)
    (hu : s.usersRating.find? userName = some stored) (k : Int) (hk1 : 1 ≤ k)
    (hk2 : k ≤ ((s.rankedFilmOrder.filter (isRated stored)).length : Int))
    (ht : nonZero target)
    (hf : ∀ f ∈ s.rankedFilmOrder, isRated stored f = true → nonZero (featuresOf s f)) :
    ∃ used unused : List (String × α),
      (used ++ unused).Perm (neighbours sqrt s stored target) ∧
      (used.length : Int) = k ∧
      (∀ a ∈ used, ∀ b ∈ unused, b.2 ≤ a.2) ∧
      (predictMovieScoreForUser S movieName userName k s).1
        = .ok (Dbl.div (Dbl.fin (used.map (fun p => p.2 * ratingOf stored p.1)).sum)
            (Dbl.fin (used.map Prod.snd).sum)) := by
  have hsn := scoredNeighbours_numbers sqrt hsq s stored target ht hf
  have hnum : ∀ p ∈ S.sort (scoredNeighbours sqrt s stored target), ∃ x, p.2 = Dbl.fin x := by
    intro p hp
    have hp' := (S.perm _).mem_iff.1 hp
    rw [hsn] at hp'
    obtain ⟨q, _, rfl⟩ := List.mem_map.1 hp'
    exact ⟨q.2, rfl⟩
  have hk : k.toNat ≤ (s.rankedFilmOrder.filter (isRated stored)).length := by omega
  have hlen : k.toNat ≤ (S.sort (scoredNeighbours sqrt s stored target)).length := by
    rw [(S.perm _).length_eq, length_scoredNeighbours]
    exact hk
  refine ⟨((S.sort (scoredNeighbours sqrt s stored target)).take k.toNat).map
      (fun p => (p.1, p.2.toNumber)),
    ((S.sort (scoredNeighbours sqrt s stored target)).drop k.toNat).map
      (fun p => (p.1, p.2.toNumber)), ?_, ?_, ?_, ?_⟩
  · rw [← List.map_append, List.take_append_drop]
    have h1 := (S.perm (scoredNeighbours sqrt s stored target)).map
      (fun p : String × Dbl α => (p.1, p.2.toNumber))
    have h2 : (scoredNeighbours sqrt s stored target).map
        (fun p : String × Dbl α => (p.1, p.2.toNumber))
        = neighbours sqrt s stored target := by
      rw [hsn, List.map_map]
      conv_rhs => rw [← List.map_id (neighbours sqrt s stored target)]
      apply List.map_congr_left
      intro p _
      rfl
    rw [h2] at h1
    exact h1
  · rw [List.length_map, List.length_take, Nat.min_eq_left hlen]
    omega
  · intro a ha b hb
    obtain ⟨a', ha', rfl⟩ := List.mem_map.1 ha
    obtain ⟨b', hb', rfl⟩ := List.mem_map.1 hb
    have hnonan : ∀ p ∈ scoredNeighbours sqrt s stored target, p.2 ≠ Dbl.nan := by
      intro p hp
      rw [hsn] at hp
      obtain ⟨q, _, rfl⟩ := List.mem_map.1 hp
      exact fun h => Dbl.noConfusion h
    have hp := S.sorted (scoredNeighbours sqrt s stored target) hnonan
    rw [← List.take_append_drop k.toNat (S.sort (scoredNeighbours sqrt s stored target))]
      at hp
    have h := (List.pairwise_append.1 hp).2.2 a' ha' b' hb'
    obtain ⟨x, hx⟩ := hnum a' (List.mem_of_mem_take ha')
    obtain ⟨y, hy⟩ := hnum b' (List.mem_of_mem_drop hb')
    simp only [pairDoubleSort, hx, hy, Dbl.gt, decide_eq_false_iff_not, not_lt] at h
    simpa [hx, hy, Dbl.toNumber] using h
  · rw [predictMovieScoreForUser_eq sqrt S s hwf movieName userName target stored hm hu k hk]
    obtain ⟨h1, h2⟩ := Dbl.sum_of_numbers (ratingOf stored)
      (topNeighbours sqrt S s stored target k)
      (fun p hp => hnum p (List.mem_of_mem_take hp))
    rw [h1, h2]
    simp only [topNeighbours, List.map_map]
    rfl

end WeightedAverage

section WeightedAverageWitness

theorem blankStore_ratedNonZero :
    ∀ f ∈ (blankStore Real.sqrt).rankedFilmOrder, isRated (blankRatings : UMap ℝ) f = true →
      nonZero (featuresOf (blankStore Real.sqrt) f) := by
  intro f hf hr
  simp only [blankStore, List.mem_cons, List.mem_singleton, List.not_mem_nil,
    or_false] at hf
  rcases hf with rfl | rfl | rfl | rfl | rfl
  · exact ⟨3, by simp [featuresOf, blankStore, UMap.find?, List.lookup], by norm_num⟩
  · exact ⟨4, by simp [featuresOf, blankStore, UMap.find?, List.lookup], by norm_num⟩
  · simp [isRated, blankRatings, UMap.find?, List.lookup, NA_VALUE] at hr
  · simp [isRated, blankRatings, UMap.find?, List.lookup, NA_VALUE] at hr
  · simp [isRated, blankRatings, UMap.find?, List.lookup, NA_VALUE] at hr

theorem blankStore_topNeighbours :
    topNeighbours Real.sqrt insertionStdSort (blankStore Real.sqrt) blankRatings [3, 4] 1
      = [("B", .fin (4 / 5))] := by
  rw [topNeighbours, blankStore_scored]
  simp [insertionStdSort_sort, insertionSortRange, insertionStep, linearInsert,
    pairDoubleSort, Dbl.gt]
  norm_num

theorem blankStore_topNeighbours_two :
    topNeighbours Real.sqrt insertionStdSort (blankStore Real.sqrt) blankRatings [3, 4] 2
      = [("B", .fin (4 / 5)), ("A", .fin (3 / 5))] := by
  rw [topNeighbours, blankStore_scored]
  simp [insertionStdSort_sort, insertionSortRange, insertionStep, linearInsert,
    pairDoubleSort, Dbl.gt]
  norm_num

/-- Witness of claim C3: the film `Q = [3, 4]`, the user `u` and `k = 1` in the store with
five films. The user rated `A` (similarity 3/5, rating 5) and `B` (similarity 4/5,
rating 1); the neighbour used is `B` and the value returned is 1. -/
theorem predictMovieScoreForUser_weighted_average_witness :
    IsSqrt Real.sqrt ∧
    WellFormed Real.sqrt (blankStore Real.sqrt) ∧
    (blankStore Real.sqrt).moviesScores.find? "Q" = some [3, 4] ∧
    (blankStore Real.sqrt).usersRating.find? "u" = some blankRatings ∧
    (1 : Int) ≤ 1 ∧
    (1 : Int) ≤ (((blankStore Real.sqrt).rankedFilmOrder.filter
      (isRated (blankRatings : UMap ℝ))).length : Int) ∧
    nonZero ([3, 4] : List ℝ) ∧
    (∀ f ∈ (blankStore Real.sqrt).rankedFilmOrder,
      isRated (blankRatings : UMap ℝ) f = true →
      nonZero (featuresOf (blankStore Real.sqrt) f)) ∧
    ((blankStore Real.sqrt).rankedFilmOrder.filter
      (isRated (blankRatings : UMap ℝ))).length = 2 ∧
    neighbours Real.sqrt (blankStore Real.sqrt) blankRatings [3, 4]
      = [("A", 3 / 5), ("B", 4 / 5)] ∧
    (predictMovieScoreForUser insertionStdSort "Q" "u" 1 (blankStore Real.sqrt)).1
      = .ok (.fin 1) ∧
    ∃ used unused : List (String × ℝ),
      (used ++ unused).Perm
        (neighbours Real.sqrt (blankStore Real.sqrt) blankRatings [3, 4]) ∧
      (used.length : Int) = 1 ∧
      (∀ a ∈ used, ∀ b ∈ unused, b.2 ≤ a.2) ∧
      (predictMovieScoreForUser insertionStdSort "Q" "u" 1 (blankStore Real.sqrt)).1
        = .ok (Dbl.div (Dbl.fin (used.map (fun p => p.2 * ratingOf blankRatings p.1)).sum)
            (Dbl.fin (used.map Prod.snd).sum)) :=
  have hk2 : (1 : Int) ≤ (((blankStore Real.sqrt).rankedFilmOrder.filter
      (isRated (blankRatings : UMap ℝ))).length : Int) := by
    rw [blankStore_ratedCount]
    norm_num
  have hnz : nonZero ([3, 4] : List ℝ) := ⟨3, by simp, by norm_num⟩
  have hnb : neighbours Real.sqrt (blankStore Real.sqrt) blankRatings [3, 4]
      = [("A", 3 / 5), ("B", 4 / 5)] := by
    simp [neighbours, cosineSimilarity, isRated, featuresOf, dotSum, norm,
      blankStore, blankRatings, UMap.find?, List.lookup, NA_VALUE, List.filter,
      sqrt_sum_real, sqrt_nine, sqrt_sixteen]
    norm_num
  have hval : (predictMovieScoreForUser insertionStdSort "Q" "u" 1
      (blankStore Real.sqrt)).1 = .ok (.fin 1) := by
    rw [predictMovieScoreForUser_eq Real.sqrt insertionStdSort (blankStore Real.sqrt)
      (blankStore_wellFormed Real.sqrt) "Q" "u" [3, 4] blankRatings
      (blankStore_filmQ Real.sqrt) (blankStore_user Real.sqrt) 1
      (by rw [blankStore_ratedCount]; decide), blankStore_topNeighbours]
    simp [Dbl.sum, Dbl.add, Dbl.mul, Dbl.div, ratingOf, blankRatings, UMap.find?,
      List.lookup]
  ⟨isSqrt_real, blankStore_wellFormed Real.sqrt, blankStore_filmQ Real.sqrt,
    blankStore_user Real.sqrt, le_refl _, hk2, hnz, blankStore_ratedNonZero,
    blankStore_ratedCount Real.sqrt, hnb, hval,
    predictMovieScoreForUser_weighted_average Real.sqrt isSqrt_real insertionStdSort
      (blankStore Real.sqrt) (blankStore_wellFormed Real.sqrt) "Q" "u" [3, 4]
      blankRatings (blankStore_filmQ Real.sqrt) (blankStore_user Real.sqrt) 1
      (le_refl _) hk2 hnz blankStore_ratedNonZero⟩

theorem blankStore_scoredLate :
    scoredNeighbours Real.sqrt (blankStore Real.sqrt) blankRatingsLate [3, 0]
      = [("Z", .nan), ("P", .fin 1)] := by
  simp [scoredNeighbours, similarity, isRated, featuresOf, dotSum, norm,
    blankStore, blankRatingsLate, UMap.find?, List.lookup, NA_VALUE, List.filter,
    Dbl.div, sqrt_nine]

/-- Counterexample to claim C3. In the store with five films the user `v` rated the films
`Z = [0, 0]` with 1 and `P = [1, 0]` with 5. For the target film `A = [3, 0]` the
similarity of `Z` is `0 / 0`, NaN, and that of `P` is 1. With `k = 1` the sorted vector
still starts with `Z`, the neighbour used is `Z` and the value returned is NaN; and
whichever one of the two rated films is used, the comparison `>=` between its similarity
and that of the film left out is false. -/
theorem predictMovieScoreForUser_unordered :
    WellFormed Real.sqrt (blankStore Real.sqrt) ∧
    (blankStore Real.sqrt).moviesScores.find? "A" = some [3, 0] ∧
    (blankStore Real.sqrt).usersRating.find? "v" = some blankRatingsLate ∧
    ((blankStore Real.sqrt).rankedFilmOrder.filter
      (isRated (blankRatingsLate : UMap ℝ))).length = 2 ∧
    scoredNeighbours Real.sqrt (blankStore Real.sqrt) blankRatingsLate [3, 0]
      = [("Z", .nan), ("P", .fin 1)] ∧
    topNeighbours Real.sqrt insertionStdSort (blankStore Real.sqrt) blankRatingsLate
      [3, 0] 1 = [("Z", .nan)] ∧
    (predictMovieScoreForUser insertionStdSort "A" "v" 1 (blankStore Real.sqrt)).1
      = .ok .nan ∧
    (∀ used unused : List (String × Dbl ℝ),
      (used ++ unused).Perm
        (scoredNeighbours Real.sqrt (blankStore Real.sqrt) blankRatingsLate [3, 0]) →
      used.length = 1 →
      ∃ a ∈ used, ∃ b ∈ unused, Dbl.ge a.2 b.2 = false) := by
  have htop : topNeighbours Real.sqrt insertionStdSort (blankStore Real.sqrt)
      blankRatingsLate [3, 0] 1 = [("Z", .nan)] := by
    rw [topNeighbours, blankStore_scoredLate]
    simp [insertionStdSort_sort, insertionSortRange, insertionStep, linearInsert,
      pairDoubleSort, Dbl.gt]
  refine ⟨blankStore_wellFormed Real.sqrt, blankStore_filmA Real.sqrt,
    blankStore_userLate Real.sqrt, blankStore_ratedCountLate Real.sqrt,
    blankStore_scoredLate, htop, ?_, ?_⟩
  · apply predictMovieScoreForUser_nan Real.sqrt insertionStdSort (blankStore Real.sqrt)
      (blankStore_wellFormed Real.sqrt) "A" "v" [3, 0] blankRatingsLate
      (blankStore_filmA Real.sqrt) (blankStore_userLate Real.sqrt) 1
      (by rw [blankStore_ratedCountLate]; decide)
    rw [htop]
    exact ⟨("Z", .nan), by simp, rfl⟩
  · intro used unused hperm hlen
    rw [blankStore_scoredLate] at hperm
    have hl := hperm.length_eq
    simp only [List.length_append, hlen, List.length_cons, List.length_nil] at hl
    have hz : (("Z", Dbl.nan) : String × Dbl ℝ) ∈ used ++ unused :=
      hperm.mem_iff.2 (by simp)
    obtain ⟨a, ha⟩ : ∃ a, a ∈ used := List.exists_mem_of_length_pos (by omega)
    obtain ⟨b, hb⟩ : ∃ b, b ∈ unused := List.exists_mem_of_length_pos (by omega)
    rcases List.mem_append.1 hz with h | h
    · exact ⟨_, h, b, hb, Dbl.ge_nan_left _⟩
    · exact ⟨a, ha, _, h, Dbl.ge_nan_right _⟩

end WeightedAverageWitness

section WithinRatings

variable {α : Type} [LinearOrderedField α]

/-- Claim C4, amended. On a well-formed store, for a known film, a known user and `k`
between 1 and the number of rated films, if the similarity of each of the `k` neighbours
used is at least 0 (so none is NaN) and their sum is greater than 0, the value
`predictMovieScoreForUser` returns is a number that lies between any lower and any upper
bound of the user's ratings of those neighbours, so between the smallest and the largest of
them. -/
theorem predictMovieScoreForUser_within_ratings (sqrt : α → α) (hsq : IsSqrt sqrt)
    (S : StdSort α) (s : Store α) (hwf : WellFormed sqrt s) (movieName userName : String)
    (target : List α) (stored : UMap α)
    (hm : s.moviesScores.find? movieName = some target)
    (hu : s.usersRating.find? userName = some stored) (k : Int) (hk1 : 1 ≤ k)
    (hk2 : k ≤ ((s.rankedFilmOrder.filter (isRated stored)).length : Int))
    (hnn : ∀ p ∈ topNeighbours sqrt S s stored target k, Dbl.ge p.2 (Dbl.fin 0) = true)
    (hpos : Dbl.gt (Dbl.sum ((topNeighbours sqrt S s stored target k).map Prod.snd))
      (Dbl.fin 0) = true)
    (lo hi : α)
    (hb : ∀ p ∈ topNeighbours sqrt S s stored target k,
      lo ≤ ratingOf stored p.1 ∧ ratingOf stored p.1 ≤ hi) :
    ∃ v, (predictMovieScoreForUser S movieName userName k s).1 = .ok (Dbl.fin v) ∧
      lo ≤ v ∧ v ≤ hi := by
  have hk : k.toNat ≤ (s.rankedFilmOrder.filter (isRated stored)).length := by omega
  have hval := predictMovieScoreForUser_eq sqrt S s hwf movieName userName target stored
    hm hu k hk
  have hnum : ∀ p ∈ topNeighbours sqrt S s stored target k, ∃ x, p.2 = Dbl.fin x ∧ 0 ≤ x :=
    fun p hp => topNeighbours_number sqrt hsq S s stored target k p hp (hnn p hp)
  obtain ⟨h1, h2⟩ := Dbl.sum_of_numbers (ratingOf stored)
    (topNeighbours sqrt S s stored target k)
    (fun p hp => (hnum p hp).imp (fun _ h => h.1))
  rw [h2] at hpos
  have hpos' : 0 < ((topNeighbours sqrt S s stored target k).map
      (fun p => p.2.toNumber)).sum := (Dbl.gt_fin _ _).1 hpos
  rw [h1, h2, Dbl.div_fin _ _ (ne_of_gt hpos')] at hval
  obtain ⟨hb1, hb2⟩ := weighted_sum_bounds (ratingOf stored) lo hi
    ((topNeighbours sqrt S s stored target k).map (fun p => (p.1, p.2.toNumber)))
    (by
      intro q hq
      obtain ⟨p, hp, rfl⟩ := List.mem_map.1 hq
      obtain ⟨x, hx, hx0⟩ := hnum p hp
      refine ⟨?_, hb p hp⟩
      simp only [hx, Dbl.toNumber]
      exact hx0)
  simp only [List.map_map] at hb1 hb2
  refine ⟨_, hval, ?_, ?_⟩
  · rw [le_div_iff₀ hpos']
    exact hb1
  · rw [div_le_iff₀ hpos']
    exact hb2

end WithinRatings

section WithinRatingsWitness

/-- Counterexample to claim C4. In the store with the films `T = [1, 0]`, `X = [2, 0]`,
`Y = [-3, 4]` the user `u` rated `X` with 5 and `Y` with 1; the similarities to `T` are
`1` and `-3/5`, and for `k = 2` the predicted score of `T` is `(5 - 3/5) / (2/5) = 11`,
above the rating of every neighbour used, so outside the interval from the smallest to the
largest of them. -/
theorem predictMovieScoreForUser_outside_ratings :
    WellFormed Real.sqrt (signedStore Real.sqrt) ∧
    (signedStore Real.sqrt).moviesScores.find? "T" = some [1, 0] ∧
    (signedStore Real.sqrt).usersRating.find? "u" = some signedRatings ∧
    (((signedStore Real.sqrt).rankedFilmOrder.filter
      (isRated (signedRatings : UMap ℝ))).length : Int) = 2 ∧
    topNeighbours Real.sqrt insertionStdSort (signedStore Real.sqrt) signedRatings [1, 0] 2
      = [("X", .fin 1), ("Y", .fin (-3 / 5))] ∧
    (predictMovieScoreForUser insertionStdSort "T" "u" 2 (signedStore Real.sqrt)).1
      = .ok (.fin 11) ∧
    (∀ p ∈ topNeighbours Real.sqrt insertionStdSort (signedStore Real.sqrt) signedRatings
      [1, 0] 2, ratingOf signedRatings p.1 < (11 : ℝ)) := by
  refine ⟨signedStore_wellFormed Real.sqrt, signedStore_film Real.sqrt,
    signedStore_user Real.sqrt, by rw [signedStore_ratedCount]; norm_num,
    signedStore_topNeighbours_two, ?_, ?_⟩
  · rw [predictMovieScoreForUser_eq Real.sqrt insertionStdSort (signedStore Real.sqrt)
      (signedStore_wellFormed Real.sqrt) "T" "u" [1, 0] signedRatings
      (signedStore_film Real.sqrt) (signedStore_user Real.sqrt) 2
      (by rw [signedStore_ratedCount]; decide), signedStore_topNeighbours_two]
    simp [Dbl.sum, Dbl.add, Dbl.mul, Dbl.div, ratingOf, signedRatings, UMap.find?,
      List.lookup]
    norm_num
  · rw [signedStore_topNeighbours_two]
    intro p hp
    simp only [List.mem_cons, List.mem_singleton, List.not_mem_nil, or_false] at hp
    have hX : ratingOf (signedRatings : UMap ℝ) "X" = 5 := by
      simp [ratingOf, signedRatings, UMap.find?, List.lookup]
    have hY : ratingOf (signedRatings : UMap ℝ) "Y" = 1 := by
      simp [ratingOf, signedRatings, UMap.find?, List.lookup]
    rcases hp with rfl | rfl
    · rw [hX]
      norm_num
    · rw [hY]
      norm_num

/-- Witness of claim C4: the film `Q = [3, 4]`, the user `u` and `k = 2` in the store with
five films. The neighbours used are `B` (similarity 4/5, rating 1) and `A` (similarity 3/5,
rating 5); the value returned is `(4/5 + 3) / (7/5) = 19/7`, between 1 and 5. -/
theorem predictMovieScoreForUser_within_ratings_witness :
    IsSqrt Real.sqrt ∧
    WellFormed Real.sqrt (blankStore Real.sqrt) ∧
    (blankStore Real.sqrt).moviesScores.find? "Q" = some [3, 4] ∧
    (blankStore Real.sqrt).usersRating.find? "u" = some blankRatings ∧
    (1 : Int) ≤ 2 ∧
    (2 : Int) ≤ (((blankStore Real.sqrt).rankedFilmOrder.filter
      (isRated (blankRatings : UMap ℝ))).length : Int) ∧
    topNeighbours Real.sqrt insertionStdSort (blankStore Real.sqrt) blankRatings [3, 4] 2
      = [("B", .fin (4 / 5)), ("A", .fin (3 / 5))] ∧
    (∀ p ∈ topNeighbours Real.sqrt insertionStdSort (blankStore Real.sqrt)
      (blankRatings : UMap ℝ) [3, 4] 2, Dbl.ge p.2 (Dbl.fin 0) = true) ∧
    Dbl.gt (Dbl.sum ((topNeighbours Real.sqrt insertionStdSort (blankStore Real.sqrt)
      (blankRatings : UMap ℝ) [3, 4] 2).map Prod.snd)) (Dbl.fin 0) = true ∧
    (∀ p ∈ topNeighbours Real.sqrt insertionStdSort (blankStore Real.sqrt)
      (blankRatings : UMap ℝ) [3, 4] 2,
      (1 : ℝ) ≤ ratingOf (blankRatings : UMap ℝ) p.1 ∧
        ratingOf (blankRatings : UMap ℝ) p.1 ≤ (5 : ℝ)) ∧
    (predictMovieScoreForUser insertionStdSort "Q" "u" 2 (blankStore Real.sqrt)).1
      = .ok (.fin (19 / 7)) ∧
    ∃ v, (predictMovieScoreForUser insertionStdSort "Q" "u" 2 (blankStore Real.sqrt)).1
        = .ok (Dbl.fin v) ∧ 1 ≤ v ∧ v ≤ 5 :=
  have hk2 : (2 : Int) ≤ (((blankStore Real.sqrt).rankedFilmOrder.filter
      (isRated (blankRatings : UMap ℝ))).length : Int) := by
    rw [blankStore_ratedCount]
    norm_num
  have hnn : ∀ p ∈ topNeighbours Real.sqrt insertionStdSort (blankStore Real.sqrt)
      (blankRatings : UMap ℝ) [3, 4] 2, Dbl.ge p.2 (Dbl.fin 0) = true := by
    rw [blankStore_topNeighbours_two]
    intro p hp
    simp only [List.mem_cons, List.mem_singleton, List.not_mem_nil, or_false] at hp
    rcases hp with rfl | rfl <;> simp [Dbl.ge] <;> norm_num
  have hpos : Dbl.gt (Dbl.sum ((topNeighbours Real.sqrt insertionStdSort
      (blankStore Real.sqrt) (blankRatings : UMap ℝ) [3, 4] 2).map Prod.snd))
      (Dbl.fin 0) = true := by
    rw [blankStore_topNeighbours_two]
    simp [Dbl.sum, Dbl.add, Dbl.gt]
    norm_num
  have hb : ∀ p ∈ topNeighbours Real.sqrt insertionStdSort (blankStore Real.sqrt)
      (blankRatings : UMap ℝ) [3, 4] 2,
      (1 : ℝ) ≤ ratingOf (blankRatings : UMap ℝ) p.1 ∧
        ratingOf (blankRatings : UMap ℝ) p.1 ≤ (5 : ℝ) := by
    rw [blankStore_topNeighbours_two]
    intro p hp
    simp only [List.mem_cons, List.mem_singleton, List.not_mem_nil, or_false] at hp
    have hA : ratingOf (blankRatings : UMap ℝ) "A" = 5 := by
      simp [ratingOf, blankRatings, UMap.find?, List.lookup]
    have hB : ratingOf (blankRatings : UMap ℝ) "B" = 1 := by
      simp [ratingOf, blankRatings, UMap.find?, List.lookup]
    rcases hp with rfl | rfl
    · rw [hB]
      norm_num
    · rw [hA]
      norm_num
  have hval : (predictMovieScoreForUser insertionStdSort "Q" "u" 2
      (blankStore Real.sqrt)).1 = .ok (.fin (19 / 7)) := by
    rw [predictMovieScoreForUser_eq Real.sqrt insertionStdSort (blankStore Real.sqrt)
      (blankStore_wellFormed Real.sqrt) "Q" "u" [3, 4] blankRatings
      (blankStore_filmQ Real.sqrt) (blankStore_user Real.sqrt) 2
      (by rw [blankStore_ratedCount]; decide), blankStore_topNeighbours_two]
    simp [Dbl.sum, Dbl.add, Dbl.mul, Dbl.div, ratingOf, blankRatings, UMap.find?,
      List.lookup]
    norm_num
  ⟨isSqrt_real, blankStore_wellFormed Real.sqrt, blankStore_filmQ Real.sqrt,
    blankStore_user Real.sqrt, by norm_num, hk2, blankStore_topNeighbours_two, hnn, hpos,
    hb, hval,
    predictMovieScoreForUser_within_ratings Real.sqrt isSqrt_real insertionStdSort
      (blankStore Real.sqrt) (blankStore_wellFormed Real.sqrt) "Q" "u" [3, 4]
      blankRatings (blankStore_filmQ Real.sqrt) (blankStore_user Real.sqrt) 2
      (by norm_num) hk2 hnn hpos 1 5 hb⟩

end WithinRatingsWitness

section Between

variable {α : Type} [LinearOrderedField α]

theorem cosineSimilarity_pos (sqrt : α → α) (hsq : IsSqrt sqrt) (a b : List α)
    (ha : ∀ x ∈ a, 0 ≤ x) (hb : ∀ x ∈ b, 0 ≤ x) (hza : nonZero a) (hzb : nonZero b)
    (hdot : dotSum a b ≠ 0) : 0 < cosineSimilarity sqrt a b := by
  unfold cosineSimilarity
  exact div_pos (lt_of_le_of_ne (dotSum_nonneg a b ha hb) (Ne.symm hdot))
    (mul_pos (norm_pos sqrt hsq a hza) (norm_pos sqrt hsq b hzb))

/-- Claim C18, amended. On a well-formed store, for a known film, a known user and `k`
between 1 and the number of rated films: if the similarity of each of the `k` neighbours
used is at least 0 and their sum is greater than 0, the value `predictMovieScoreForUser`
returns is a number between the smallest and the largest of the user's ratings of those
neighbours; and the condition holds when no feature component is negative, no neighbour
used has the zero feature vector and some neighbour used is not orthogonal to the target
film. -/
theorem predictMovieScoreForUser_between (sqrt : α → α) (hsq : IsSqrt sqrt)
    (S : StdSort α) (s : Store α) (hwf : WellFormed sqrt s) (movieName userName : String)
    (target : List α) (stored : UMap α)
    (hm : s.moviesScores.find? movieName = some target)
    (hu : s.usersRating.find? userName = some stored) (k : Int) (hk1 : 1 ≤ k)
    (hk2 : k ≤ ((s.rankedFilmOrder.filter (isRated stored)).length : Int)) :
    ((∀ p ∈ topNeighbours sqrt S s stored target k, Dbl.ge p.2 (Dbl.fin 0) = true) →
      Dbl.gt (Dbl.sum ((topNeighbours sqrt S s stored target k).map Prod.snd))
        (Dbl.fin 0) = true →
      ∃ v least greatest,
        (predictMovieScoreForUser S movieName userName k s).1 = .ok (Dbl.fin v) ∧
        least ∈ topNeighbours sqrt S s stored target k ∧
        greatest ∈ topNeighbours sqrt S s stored target k ∧
        (∀ p ∈ topNeighbours sqrt S s stored target k,
          ratingOf stored least.1 ≤ ratingOf stored p.1 ∧
          ratingOf stored p.1 ≤ ratingOf stored greatest.1) ∧
        ratingOf stored least.1 ≤ v ∧ v ≤ ratingOf stored greatest.1) ∧
    ((∀ f v, s.moviesScores.find? f = some v → ∀ x ∈ v, 0 ≤ x) →
      (∀ p ∈ topNeighbours sqrt S s stored target k, nonZero (featuresOf s p.1)) →
      (∃ p ∈ topNeighbours sqrt S s stored target k,
        dotSum target (featuresOf s p.1) ≠ 0) →
      (∀ p ∈ topNeighbours sqrt S s stored target k, Dbl.ge p.2 (Dbl.fin 0) = true) ∧
      Dbl.gt (Dbl.sum ((topNeighbours sqrt S s stored target k).map Prod.snd))
        (Dbl.fin 0) = true) := by
  have hk : k.toNat ≤ (s.rankedFilmOrder.filter (isRated stored)).length := by omega
  constructor
  · intro hnn hpos
    have hne : topNeighbours sqrt S s stored target k ≠ [] := by
      intro h
      rw [h] at hpos
      simp [Dbl.sum, Dbl.gt] at hpos
    obtain ⟨least, hleast, hmin⟩ :=
      exists_least_rating (fun p : String × Dbl α => ratingOf stored p.1) _ hne
    obtain ⟨greatest, hgreatest, hmax⟩ :=
      exists_greatest_rating (fun p : String × Dbl α => ratingOf stored p.1) _ hne
    have hval := predictMovieScoreForUser_eq sqrt S s hwf movieName userName target stored
      hm hu k hk
    have hnum : ∀ p ∈ topNeighbours sqrt S s stored target k,
        ∃ x, p.2 = Dbl.fin x ∧ 0 ≤ x :=
      fun p hp => topNeighbours_number sqrt hsq S s stored target k p hp (hnn p hp)
    obtain ⟨h1, h2⟩ := Dbl.sum_of_numbers (ratingOf stored)
      (topNeighbours sqrt S s stored target k)
      (fun p hp => (hnum p hp).imp (fun _ h => h.1))
    rw [h2] at hpos
    have hpos' : 0 < ((topNeighbours sqrt S s stored target k).map
        (fun p => p.2.toNumber)).sum := (Dbl.gt_fin _ _).1 hpos
    rw [h1, h2, Dbl.div_fin _ _ (ne_of_gt hpos')] at hval
    obtain ⟨hb1, hb2⟩ := weighted_sum_bounds (ratingOf stored)
      (ratingOf stored least.1) (ratingOf stored greatest.1)
      ((topNeighbours sqrt S s stored target k).map (fun p => (p.1, p.2.toNumber)))
      (by
        intro q hq
        obtain ⟨p, hp, rfl⟩ := List.mem_map.1 hq
        obtain ⟨x, hx, hx0⟩ := hnum p hp
        refine ⟨?_, hmin p hp, hmax p hp⟩
        simp only [hx, Dbl.toNumber]
        exact hx0)
    simp only [List.map_map] at hb1 hb2
    refine ⟨_, least, greatest, hval, hleast, hgreatest,
      fun p hp => ⟨hmin p hp, hmax p hp⟩, ?_, ?_⟩
    · exact (le_div_iff₀ hpos').2 hb1
    · exact (div_le_iff₀ hpos').2 hb2
  · intro hfeat hnz hex
    obtain ⟨q, hq, hqdot⟩ := hex
    have htz : nonZero target := by
      by_contra h
      exact hqdot (dotSum_zero_left _ _ ((not_nonZero target).1 h))
    have hfn : ∀ p ∈ topNeighbours sqrt S s stored target k,
        ∀ x ∈ featuresOf s p.1, 0 ≤ x := by
      intro p _ x hx
      unfold featuresOf at hx
      cases hf : s.moviesScores.find? p.1 with
      | none =>
        rw [hf] at hx
        simp at hx
      | some v =>
        rw [hf] at hx
        exact hfeat p.1 v hf x hx
    have hkey : ∀ p ∈ topNeighbours sqrt S s stored target k,
        p.2 = Dbl.fin (cosineSimilarity sqrt target (featuresOf s p.1)) := by
      intro p hp
      obtain ⟨_, _, hsim⟩ := mem_scoredNeighbours sqrt s stored target p
        (mem_topNeighbours sqrt S s stored target k p hp)
      rw [hsim]
      exact similarity_fin sqrt hsq target _ htz (hnz p hp)
    have hcos : ∀ p ∈ topNeighbours sqrt S s stored target k,
        0 ≤ cosineSimilarity sqrt target (featuresOf s p.1) :=
      fun p hp => cosineSimilarity_nonneg sqrt hsq _ _ (hfeat movieName target hm)
        (hfn p hp)
    have hnn : ∀ p ∈ topNeighbours sqrt S s stored target k,
        Dbl.ge p.2 (Dbl.fin 0) = true := by
      intro p hp
      rw [hkey p hp]
      simpa [Dbl.ge] using hcos p hp
    refine ⟨hnn, ?_⟩
    obtain ⟨_, h2⟩ := Dbl.sum_of_numbers (ratingOf stored)
      (topNeighbours sqrt S s stored target k) (fun p hp => ⟨_, hkey p hp⟩)
    rw [h2, Dbl.gt_fin]
    have hqpos : 0 < q.2.toNumber := by
      rw [hkey q hq]
      exact cosineSimilarity_pos sqrt hsq _ _ (hfeat movieName target hm) (hfn q hq) htz
        (hnz q hq) hqdot
    have hle : q.2.toNumber ≤ ((topNeighbours sqrt S s stored target k).map
        (fun p => p.2.toNumber)).sum := by
      apply List.single_le_sum
      · intro x hx
        obtain ⟨p, hp, rfl⟩ := List.mem_map.1 hx
        simp only [hkey p hp, Dbl.toNumber]
        exact hcos p hp
      · exact List.mem_map_of_mem (fun p : String × Dbl α => p.2.toNumber) hq
    exact lt_of_lt_of_le hqpos hle

end Between

section BetweenWitness

theorem blankStore_nonneg :
    ∀ f v, (blankStore Real.sqrt).moviesScores.find? f = some v → ∀ x ∈ v, (0 : ℝ) ≤ x := by
  intro f v hf x hx
  have h1 := UMap.mem_of_find hf
  simp only [blankStore, List.mem_cons, Prod.mk.injEq, List.mem_singleton,
    List.not_mem_nil, or_false] at h1
  rcases h1 with ⟨-, rfl⟩ | ⟨-, rfl⟩ | ⟨-, rfl⟩ | ⟨-, rfl⟩ | ⟨-, rfl⟩ <;>
    simp only [List.mem_cons, List.mem_singleton, List.not_mem_nil, or_false] at hx <;>
    rcases hx with rfl | rfl <;> norm_num

theorem blankStore_scoredMixed :
    scoredNeighbours Real.sqrt (blankStore Real.sqrt) blankRatingsMixed [3, 4]
      = [("A", .fin (3 / 5)), ("Z", .nan)] := by
  simp [scoredNeighbours, similarity, isRated, featuresOf, dotSum, norm,
    blankStore, blankRatingsMixed, UMap.find?, List.lookup, NA_VALUE, List.filter,
    Dbl.div, sqrt_sum_real, sqrt_nine]
  norm_num

theorem blankStore_topNeighboursMixed :
    topNeighbours Real.sqrt insertionStdSort (blankStore Real.sqrt) blankRatingsMixed
      [3, 4] 2 = [("A", .fin (3 / 5)), ("Z", .nan)] := by
  rw [topNeighbours, blankStore_scoredMixed]
  simp [insertionStdSort_sort, insertionSortRange, insertionStep, linearInsert,
    pairDoubleSort, Dbl.gt]

/-- Witness of claim C18: the film `Q = [3, 4]`, the user `u` and `k = 2` in the store
with five films, none of which has a negative feature. The neighbours used are `B`
(similarity 4/5, rating 1) and `A` (similarity 3/5, rating 5), neither with the zero
feature vector and neither orthogonal to `Q`; the value returned is 19/7. -/
theorem predictMovieScoreForUser_between_witness :
    IsSqrt Real.sqrt ∧
    WellFormed Real.sqrt (blankStore Real.sqrt) ∧
    (blankStore Real.sqrt).moviesScores.find? "Q" = some [3, 4] ∧
    (blankStore Real.sqrt).usersRating.find? "u" = some blankRatings ∧
    (1 : Int) ≤ 2 ∧
    (2 : Int) ≤ (((blankStore Real.sqrt).rankedFilmOrder.filter
      (isRated (blankRatings : UMap ℝ))).length : Int) ∧
    topNeighbours Real.sqrt insertionStdSort (blankStore Real.sqrt) blankRatings [3, 4] 2
      = [("B", .fin (4 / 5)), ("A", .fin (3 / 5))] ∧
    (∀ f v, (blankStore Real.sqrt).moviesScores.find? f = some v →
      ∀ x ∈ v, (0 : ℝ) ≤ x) ∧
    (∀ p ∈ topNeighbours Real.sqrt insertionStdSort (blankStore Real.sqrt)
      (blankRatings : UMap ℝ) [3, 4] 2, nonZero (featuresOf (blankStore Real.sqrt) p.1)) ∧
    (∃ p ∈ topNeighbours Real.sqrt insertionStdSort (blankStore Real.sqrt)
      (blankRatings : UMap ℝ) [3, 4] 2,
      dotSum [3, 4] (featuresOf (blankStore Real.sqrt) p.1) ≠ 0) ∧
    (predictMovieScoreForUser insertionStdSort "Q" "u" 2 (blankStore Real.sqrt)).1
      = .ok (.fin (19 / 7)) ∧
    (((∀ p ∈ topNeighbours Real.sqrt insertionStdSort (blankStore Real.sqrt)
          (blankRatings : UMap ℝ) [3, 4] 2, Dbl.ge p.2 (Dbl.fin 0) = true) →
      Dbl.gt (Dbl.sum ((topNeighbours Real.sqrt insertionStdSort (blankStore Real.sqrt)
          (blankRatings : UMap ℝ) [3, 4] 2).map Prod.snd)) (Dbl.fin 0) = true →
      ∃ v least greatest,
        (predictMovieScoreForUser insertionStdSort "Q" "u" 2 (blankStore Real.sqrt)).1
          = .ok (Dbl.fin v) ∧
        least ∈ topNeighbours Real.sqrt insertionStdSort (blankStore Real.sqrt)
          (blankRatings : UMap ℝ) [3, 4] 2 ∧
        greatest ∈ topNeighbours Real.sqrt insertionStdSort (blankStore Real.sqrt)
          (blankRatings : UMap ℝ) [3, 4] 2 ∧
        (∀ p ∈ topNeighbours Real.sqrt insertionStdSort (blankStore Real.sqrt)
          (blankRatings : UMap ℝ) [3, 4] 2,
          ratingOf (blankRatings : UMap ℝ) least.1
            ≤ ratingOf (blankRatings : UMap ℝ) p.1 ∧
          ratingOf (blankRatings : UMap ℝ) p.1
            ≤ ratingOf (blankRatings : UMap ℝ) greatest.1) ∧
        ratingOf (blankRatings : UMap ℝ) least.1 ≤ v ∧
        v ≤ ratingOf (blankRatings : UMap ℝ) greatest.1) ∧
    ((∀ f v, (blankStore Real.sqrt).moviesScores.find? f = some v →
        ∀ x ∈ v, (0 : ℝ) ≤ x) →
      (∀ p ∈ topNeighbours Real.sqrt insertionStdSort (blankStore Real.sqrt)
        (blankRatings : UMap ℝ) [3, 4] 2,
        nonZero (featuresOf (blankStore Real.sqrt) p.1)) →
      (∃ p ∈ topNeighbours Real.sqrt insertionStdSort (blankStore Real.sqrt)
        (blankRatings : UMap ℝ) [3, 4] 2,
        dotSum [3, 4] (featuresOf (blankStore Real.sqrt) p.1) ≠ 0) →
      (∀ p ∈ topNeighbours Real.sqrt insertionStdSort (blankStore Real.sqrt)
          (blankRatings : UMap ℝ) [3, 4] 2, Dbl.ge p.2 (Dbl.fin 0) = true) ∧
      Dbl.gt (Dbl.sum ((topNeighbours Real.sqrt insertionStdSort (blankStore Real.sqrt)
          (blankRatings : UMap ℝ) [3, 4] 2).map Prod.snd)) (Dbl.fin 0) = true)) :=
  have hk2 : (2 : Int) ≤ (((blankStore Real.sqrt).rankedFilmOrder.filter
      (isRated (blankRatings : UMap ℝ))).length : Int) := by
    rw [blankStore_ratedCount]
    norm_num
  have hnz : ∀ p ∈ topNeighbours Real.sqrt insertionStdSort (blankStore Real.sqrt)
      (blankRatings : UMap ℝ) [3, 4] 2,
      nonZero (featuresOf (blankStore Real.sqrt) p.1) := by
    rw [blankStore_topNeighbours_two]
    intro p hp
    simp only [List.mem_cons, List.mem_singleton, List.not_mem_nil, or_false] at hp
    rcases hp with rfl | rfl
    · exact ⟨4, by simp [featuresOf, blankStore, UMap.find?, List.lookup], by norm_num⟩
    · exact ⟨3, by simp [featuresOf, blankStore, UMap.find?, List.lookup], by norm_num⟩
  have hdot : ∃ p ∈ topNeighbours Real.sqrt insertionStdSort (blankStore Real.sqrt)
      (blankRatings : UMap ℝ) [3, 4] 2,
      dotSum [3, 4] (featuresOf (blankStore Real.sqrt) p.1) ≠ 0 := by
    rw [blankStore_topNeighbours_two]
    refine ⟨("B", .fin (4 / 5)), by simp, ?_⟩
    simp [featuresOf, blankStore, UMap.find?, List.lookup, dotSum]
  have hval : (predictMovieScoreForUser insertionStdSort "Q" "u" 2
      (blankStore Real.sqrt)).1 = .ok (.fin (19 / 7)) := by
    rw [predictMovieScoreForUser_eq Real.sqrt insertionStdSort (blankStore Real.sqrt)
      (blankStore_wellFormed Real.sqrt) "Q" "u" [3, 4] blankRatings
      (blankStore_filmQ Real.sqrt) (blankStore_user Real.sqrt) 2
      (by rw [blankStore_ratedCount]; decide), blankStore_topNeighbours_two]
    simp [Dbl.sum, Dbl.add, Dbl.mul, Dbl.div, ratingOf, blankRatings, UMap.find?,
      List.lookup]
    norm_num
  ⟨isSqrt_real, blankStore_wellFormed Real.sqrt, blankStore_filmQ Real.sqrt,
    blankStore_user Real.sqrt, by norm_num, hk2, blankStore_topNeighbours_two,
    blankStore_nonneg, hnz, hdot, hval,
    predictMovieScoreForUser_between Real.sqrt isSqrt_real insertionStdSort
      (blankStore Real.sqrt) (blankStore_wellFormed Real.sqrt) "Q" "u" [3, 4]
      blankRatings (blankStore_filmQ Real.sqrt) (blankStore_user Real.sqrt) 2
      (by norm_num) hk2⟩

/-- Counterexample to claim C18. In the store with five films no feature is negative. The
user `w` rated `A = [3, 0]` with 5 and `Z = [0, 0]` with 1. For the target film
`Q = [3, 4]` and `k = 2` the neighbours used are `A`, of similarity 3/5 and not orthogonal
to `Q`, and `Z`, whose similarity `0 / 0` is NaN: not every similarity used is at least 0,
and the value returned is NaN, for every implementation of `std::sort`. -/
theorem predictMovieScoreForUser_zero_neighbour :
    WellFormed Real.sqrt (blankStore Real.sqrt) ∧
    (blankStore Real.sqrt).moviesScores.find? "Q" = some [3, 4] ∧
    (blankStore Real.sqrt).usersRating.find? "w" = some blankRatingsMixed ∧
    ((blankStore Real.sqrt).rankedFilmOrder.filter
      (isRated (blankRatingsMixed : UMap ℝ))).length = 2 ∧
    (∀ f v, (blankStore Real.sqrt).moviesScores.find? f = some v →
      ∀ x ∈ v, (0 : ℝ) ≤ x) ∧
    topNeighbours Real.sqrt insertionStdSort (blankStore Real.sqrt) blankRatingsMixed
      [3, 4] 2 = [("A", .fin (3 / 5)), ("Z", .nan)] ∧
    dotSum ([3, 4] : List ℝ) (featuresOf (blankStore Real.sqrt) "A") = 9 ∧
    Dbl.ge (Dbl.nan : Dbl ℝ) (Dbl.fin 0) = false ∧
    (predictMovieScoreForUser insertionStdSort "Q" "w" 2 (blankStore Real.sqrt)).1
      = .ok .nan ∧
    (∀ S : StdSort ℝ,
      (predictMovieScoreForUser S "Q" "w" 2 (blankStore Real.sqrt)).1 = .ok .nan) := by
  have hall : ∀ S : StdSort ℝ,
      (predictMovieScoreForUser S "Q" "w" 2 (blankStore Real.sqrt)).1 = .ok .nan := by
    intro S
    apply predictMovieScoreForUser_nan Real.sqrt S (blankStore Real.sqrt)
      (blankStore_wellFormed Real.sqrt) "Q" "w" [3, 4] blankRatingsMixed
      (blankStore_filmQ Real.sqrt) (blankStore_userMixed Real.sqrt) 2
      (by rw [blankStore_ratedCountMixed]; decide)
    refine ⟨("Z", .nan), ?_, rfl⟩
    unfold topNeighbours
    have hlen : (S.sort (scoredNeighbours Real.sqrt (blankStore Real.sqrt)
        blankRatingsMixed [3, 4])).length ≤ (2 : Int).toNat := by
      rw [(S.perm _).length_eq, blankStore_scoredMixed]
      decide
    rw [List.take_of_length_le hlen]
    apply (S.perm _).mem_iff.2
    rw [blankStore_scoredMixed]
    simp
  refine ⟨blankStore_wellFormed Real.sqrt, blankStore_filmQ Real.sqrt,
    blankStore_userMixed Real.sqrt, blankStore_ratedCountMixed Real.sqrt,
    blankStore_nonneg, blankStore_topNeighboursMixed, ?_, rfl, hall insertionStdSort, hall⟩
  simp [featuresOf, blankStore, UMap.find?, List.lookup, dotSum]
  norm_num

end BetweenWitness

section SimilarityBounds

variable {α : Type} [LinearOrderedField α]

/-- The special value and the bounds of a similarity. -/
theorem similarity_spec (sqrt : α → α) (hsq : IsSqrt sqrt) (a b : List α) :
    (similarity sqrt a b = Dbl.nan ∨
      ∃ c, similarity sqrt a b = Dbl.fin c ∧ -1 ≤ c ∧ c ≤ 1) ∧
    (nonZero a → nonZero b → ∃ c, similarity sqrt a b = Dbl.fin c ∧ -1 ≤ c ∧ c ≤ 1) ∧
    (¬ nonZero a ∨ ¬ nonZero b → similarity sqrt a b = Dbl.nan) ∧
    similarity sqrt a b ≠ Dbl.fin (-INT_MAX) := by
  refine ⟨?_, ?_, ?_, ?_⟩
  · rcases similarity_cases sqrt hsq a b with h | ⟨h, h1, h2⟩
    · exact Or.inl h
    · exact Or.inr ⟨_, h, h1, h2⟩
  · intro ha hb
    exact ⟨_, similarity_fin sqrt hsq a b ha hb, cosine_bounds sqrt hsq a b⟩
  · rintro (h | h)
    · exact similarity_nan_left sqrt hsq a b ((not_nonZero a).1 h)
    · exact similarity_nan_right sqrt hsq a b ((not_nonZero b).1 h)
  · rcases similarity_cases sqrt hsq a b with h | ⟨h, h1, _⟩
    · rw [h]
      exact fun hh => Dbl.noConfusion hh
    · rw [h]
      intro hh
      have := Dbl.fin.inj hh
      rw [this] at h1
      exact absurd h1 (not_le.2 neg_INT_MAX_lt_neg_one)

/-- Claim C19, amended. In a store whose feature vectors have one length and whose norm
cache holds the norm of each feature vector, the similarity `predictMovieScoreForUser`
computes for two films of the feature table exists; it is NaN when one of the two
feature vectors has no element other than zero and a number in `[-1, 1]` otherwise.
Likewise every score `recommendByContent` computes for a film, whatever the preference
vector, is NaN when the preference vector or the feature vector has no element other than
zero and a number in `[-1, 1]` otherwise, and so differs from the marker `-INT_MAX`. -/
theorem similarity_bounds (sqrt : α → α) (hsq : IsSqrt sqrt) (s : Store α)
    (hlen : ∀ f g v w, s.moviesScores.find? f = some v →
      s.moviesScores.find? g = some w → v.length = w.length)
    (hcache : ∀ f, s.normedMoviesVectors.find? f
      = (s.moviesScores.find? f).map (norm sqrt)) :
    (∀ x y vx vy, s.moviesScores.find? x = some vx → s.moviesScores.find? y = some vy →
      ∃ val, filmSimilarity s x y = .ok val ∧
        (val = Dbl.nan ∨ ∃ c, val = Dbl.fin c ∧ -1 ≤ c ∧ c ≤ 1) ∧
        (nonZero vx → nonZero vy → ∃ c, val = Dbl.fin c ∧ -1 ≤ c ∧ c ≤ 1) ∧
        (¬ nonZero vx ∨ ¬ nonZero vy → val = Dbl.nan)) ∧
    (∀ preferVector singleFilm product,
      contentProduct sqrt s preferVector singleFilm = .ok product →
        ∃ v, s.moviesScores.find? singleFilm = some v ∧
          (product = Dbl.nan ∨ ∃ c, product = Dbl.fin c ∧ -1 ≤ c ∧ c ≤ 1) ∧
          (nonZero preferVector → nonZero v →
            ∃ c, product = Dbl.fin c ∧ -1 ≤ c ∧ c ≤ 1) ∧
          (¬ nonZero preferVector ∨ ¬ nonZero v → product = Dbl.nan) ∧
          product ≠ Dbl.fin (-INT_MAX)) := by
  constructor
  · intro x y vx vy hx hy
    have hcx : s.normedMoviesVectors.find? x = some (norm sqrt vx) := by
      rw [hcache x, hx]
      rfl
    have hcy : s.normedMoviesVectors.find? y = some (norm sqrt vy) := by
      rw [hcache y, hy]
      rfl
    have hs := similarity_spec sqrt hsq vx vy
    refine ⟨similarity sqrt vx vy, ?_, hs.1, hs.2.1, hs.2.2.1⟩
    simp only [filmSimilarity, UMap.atKey_of_find hx, UMap.atKey_of_find hy,
      dotProduct_eq vx vy (le_of_eq (hlen _ _ _ _ hx hy)), UMap.atKey_of_find hcx,
      UMap.atKey_of_find hcy, similarity]
  · intro pref f p hp
    simp only [contentProduct] at hp
    split at hp
    · cases hp
    · rename_i features hfeat
      split at hp
      · cases hp
      · rename_i dot hdot
        split at hp
        · cases hp
        · rename_i cached hcached
          simp only [Except.ok.injEq] at hp
          have hf := UMap.atKey_eq_ok.1 hfeat
          have hc := UMap.atKey_eq_ok.1 hcached
          rw [hcache f, hf] at hc
          simp only [Option.map_some', Option.some.injEq] at hc
          have hd := dotProduct_value pref features dot hdot
          subst hd
          subst hc
          have hp' : p = similarity sqrt pref features := hp.symm
          subst hp'
          exact ⟨features, hf, similarity_spec sqrt hsq pref features⟩

end SimilarityBounds

section SimilarityBoundsWitness

/-- Counterexample to claim C19. In the store with five films all feature vectors have
two elements and the cache holds their norms; the film `Z` has the feature vector
`[0, 0]`. The similarity `predictMovieScoreForUser` computes for `A` and `Z` is `0 / 0`,
NaN, and so is the score `recommendByContent` computes for `Z` with the preference vector
`[6, -8]` of the user `u`; NaN is neither at least -1 nor at most 1. -/
theorem similarity_out_of_bounds :
    (∀ f g v w, (blankStore Real.sqrt).moviesScores.find? f = some v →
      (blankStore Real.sqrt).moviesScores.find? g = some w → v.length = w.length) ∧
    (∀ f, (blankStore Real.sqrt).normedMoviesVectors.find? f
      = ((blankStore Real.sqrt).moviesScores.find? f).map (norm Real.sqrt)) ∧
    (blankStore Real.sqrt).moviesScores.find? "A" = some [3, 0] ∧
    (blankStore Real.sqrt).moviesScores.find? "Z" = some [0, 0] ∧
    filmSimilarity (blankStore Real.sqrt) "A" "Z" = .ok .nan ∧
    preferenceVector (blankStore Real.sqrt) blankRatings = .ok [6, -8] ∧
    contentProduct Real.sqrt (blankStore Real.sqrt) [6, -8] "Z" = .ok .nan ∧
    Dbl.ge (Dbl.nan : Dbl ℝ) (Dbl.fin (-1)) = false ∧
    Dbl.ge (Dbl.fin 1) (Dbl.nan : Dbl ℝ) = false := by
  refine ⟨(blankStore_wellFormed Real.sqrt).sameLength,
    (blankStore_wellFormed Real.sqrt).normCache, blankStore_filmA Real.sqrt,
    by simp [blankStore, UMap.find?, List.lookup], ?_, ?_, ?_, rfl, rfl⟩
  · simp [filmSimilarity, blankStore, UMap.find?, UMap.atKey, List.lookup, _dotProduct,
      innerProduct, norm, Dbl.div]
  · simp [preferenceVector, initialPreferVector, sumRated, centreRatings,
      _addToPreferenceVector, blankStore, blankRatings, UMap.find?, UMap.atKey,
      List.lookup, NA_VALUE]
    norm_num
  · simp [contentProduct, blankStore, UMap.find?, UMap.atKey, List.lookup, _dotProduct,
      innerProduct, norm, Dbl.div]

/-- Witness of claim C19: the store with five films over the reals. -/
theorem similarity_bounds_witness :
    IsSqrt Real.sqrt ∧
    (∀ f g v w, (blankStore Real.sqrt).moviesScores.find? f = some v →
      (blankStore Real.sqrt).moviesScores.find? g = some w → v.length = w.length) ∧
    (∀ f, (blankStore Real.sqrt).normedMoviesVectors.find? f
      = ((blankStore Real.sqrt).moviesScores.find? f).map (norm Real.sqrt)) ∧
    ((∀ x y vx vy, (blankStore Real.sqrt).moviesScores.find? x = some vx →
        (blankStore Real.sqrt).moviesScores.find? y = some vy →
        ∃ val, filmSimilarity (blankStore Real.sqrt) x y = .ok val ∧
          (val = Dbl.nan ∨ ∃ c, val = Dbl.fin c ∧ -1 ≤ c ∧ c ≤ 1) ∧
          (nonZero vx → nonZero vy → ∃ c, val = Dbl.fin c ∧ -1 ≤ c ∧ c ≤ 1) ∧
          (¬ nonZero vx ∨ ¬ nonZero vy → val = Dbl.nan)) ∧
      (∀ preferVector singleFilm product,
        contentProduct Real.sqrt (blankStore Real.sqrt) preferVector singleFilm
          = .ok product →
          ∃ v, (blankStore Real.sqrt).moviesScores.find? singleFilm = some v ∧
            (product = Dbl.nan ∨ ∃ c, product = Dbl.fin c ∧ -1 ≤ c ∧ c ≤ 1) ∧
            (nonZero preferVector → nonZero v →
              ∃ c, product = Dbl.fin c ∧ -1 ≤ c ∧ c ≤ 1) ∧
            (¬ nonZero preferVector ∨ ¬ nonZero v → product = Dbl.nan) ∧
            product ≠ Dbl.fin (-INT_MAX))) :=
  ⟨isSqrt_real, (blankStore_wellFormed Real.sqrt).sameLength,
    (blankStore_wellFormed Real.sqrt).normCache,
    similarity_bounds Real.sqrt isSqrt_real (blankStore Real.sqrt)
      (blankStore_wellFormed Real.sqrt).sameLength
      (blankStore_wellFormed Real.sqrt).normCache⟩

end SimilarityBoundsWitness

section Argmax

variable {α : Type} [LinearOrderedField α]

theorem nonZero_of_getD (v : List α) (i : Nat) (h : v.getD i 0 ≠ 0) : nonZero v := by
  rw [List.getD_eq_getElem?_getD] at h
  cases hv : v[i]? with
  | none =>
    rw [hv] at h
    exact absurd rfl h
  | some x =>
    rw [hv] at h
    obtain ⟨hi, hx⟩ := List.getElem?_eq_some_iff.1 hv
    exact ⟨x, hx ▸ List.getElem_mem hi, h⟩

/-- Claim C2, amended. On a store that satisfies the data-model invariants, for a known
user with an unrated film in the rank order, when the preference vector of the user (the
sum of `(rating - mean) * featureVector` over the rated films) has an element other than
zero and so has the feature vector of every unrated film of the rank order:
`recommendByContent` returns an unrated film `r` of the rank order whose cosine similarity
to the preference vector is greater than that of every unrated film before it in the rank
order and at least that of every unrated film after it, the first film in rank order among
those of maximal similarity. A film that is the only candidate is therefore returned
whatever its similarity is, zero included. -/
theorem recommendByContent_argmax (sqrt : α → α) (hsq : IsSqrt sqrt) (s : Store α)
    (hwf : WellFormed sqrt s) (userName : String) (stored : UMap α)
    (hu : s.usersRating.find? userName = some stored)
    (hex : ∃ f ∈ s.rankedFilmOrder, stored.find? f = some NA_VALUE)
    (hprefer : ∃ i, preferenceComponent s stored i ≠ 0)
    (hfilm : ∀ f ∈ s.rankedFilmOrder, stored.find? f = some NA_VALUE →
      nonZero (featuresOf s f)) :
    ∃ pref pre r post vr,
      (∀ f v, s.moviesScores.find? f = some v → pref.length = v.length) ∧
      (∀ i, pref.getD i 0 = preferenceComponent s stored i) ∧
      s.rankedFilmOrder = pre ++ r :: post ∧
      (recommendByContent sqrt userName s).1 = .ok r ∧
      stored.find? r = some NA_VALUE ∧
      s.moviesScores.find? r = some vr ∧
      (∀ f ∈ pre, stored.find? f = some NA_VALUE → ∃ v, s.moviesScores.find? f = some v ∧
        cosineSimilarity sqrt pref v < cosineSimilarity sqrt pref vr) ∧
      (∀ f ∈ post, stored.find? f = some NA_VALUE → ∃ v, s.moviesScores.find? f = some v ∧
        cosineSimilarity sqrt pref v ≤ cosineSimilarity sqrt pref vr) := by
  obtain ⟨c, hc, hcu⟩ := hex
  obtain ⟨pref, hpref, hlen⟩ := preferenceVector_ok sqrt s hwf userName stored hu
  have hcomp := preferenceVector_getD s stored pref hpref
  have hpz : nonZero pref := by
    obtain ⟨i, hi⟩ := hprefer
    exact nonZero_of_getD pref i (by rw [hcomp i]; exact hi)
  have hr : ∀ f ∈ s.rankedFilmOrder, ∃ v, stored.find? f = some v :=
    hwf.userTotal userName stored hu
  have hprod : ∀ f ∈ s.rankedFilmOrder, stored.find? f = some NA_VALUE →
      ∀ v, s.moviesScores.find? f = some v →
      contentProduct sqrt s pref f = .ok (Dbl.fin (cosineSimilarity sqrt pref v)) := by
    intro f hf hfu v hv
    rw [contentProduct_eq sqrt s hwf pref f v hv (hlen f v hv)]
    have hz := hfilm f hf hfu
    rw [featuresOf_of_find hv] at hz
    rw [similarity_fin sqrt hsq pref v hpz hz]
  have hs : ∀ f ∈ s.rankedFilmOrder, stored.find? f = some NA_VALUE →
      ∃ p, contentProduct sqrt s pref f = .ok (Dbl.fin p) ∧ -INT_MAX < p := by
    intro f hf hfu
    obtain ⟨v, hv⟩ := hwf.rankedKnown f hf
    exact ⟨_, hprod f hf hfu v hv, neg_INT_MAX_lt_cosine sqrt hsq pref v⟩
  rcases contentScan_initial sqrt s stored pref s.rankedFilmOrder "" hr hs with
    ⟨_, hall⟩ | ⟨pre, r, post, p, hl, hres, hru, hrp, hpre, hpost⟩
  · exact absurd hcu (hall c hc)
  · have hrmem : r ∈ s.rankedFilmOrder := by
      rw [hl]
      exact List.mem_append_right _ (List.mem_cons_self _ _)
    obtain ⟨vr, hvr⟩ := hwf.rankedKnown r hrmem
    have hpr := hprod r hrmem hru vr hvr
    rw [hrp] at hpr
    simp only [Except.ok.injEq, Dbl.fin.injEq] at hpr
    subst hpr
    refine ⟨pref, pre, r, post, vr, hlen, hcomp, hl,
      by simp only [recommendByContent, hu, hpref, hres], hru, hvr, ?_, ?_⟩
    · intro f hf hfu
      have hfm : f ∈ s.rankedFilmOrder := by
        rw [hl]
        exact List.mem_append_left _ hf
      obtain ⟨v, hv⟩ := hwf.rankedKnown f hfm
      exact ⟨v, hv, hpre f hf hfu _ (hprod f hfm hfu v hv)⟩
    · intro f hf hfu
      have hfm : f ∈ s.rankedFilmOrder := by
        rw [hl]
        exact List.mem_append_right _ (List.mem_cons_of_mem _ hf)
      obtain ⟨v, hv⟩ := hwf.rankedKnown f hfm
      exact ⟨v, hv, hpost f hf hfu _ (hprod f hfm hfu v hv)⟩

end Argmax

section ArgmaxWitness

theorem blankStore_preference :
    preferenceVector (blankStore Real.sqrt) blankRatingsFull = .ok [6, -8] := by
  simp [preferenceVector, initialPreferVector, sumRated, centreRatings,
    _addToPreferenceVector, blankStore, blankRatingsFull, UMap.find?, UMap.atKey,
    List.lookup, NA_VALUE]
  norm_num

theorem blankStore_content :
    (recommendByContent Real.sqrt "x" (blankStore Real.sqrt)).1 = .ok "P" := by
  simp only [recommendByContent, blankStore_userFull, blankStore_preference]
  simp [contentScan, contentProduct, blankStore, blankRatingsFull, UMap.find?, UMap.atKey,
    List.lookup, _dotProduct, innerProduct, norm, NA_VALUE, Dbl.div, Dbl.gt,
    sqrt_hundred, sqrt_sum_real, INT_MAX]
  norm_num

theorem blankStore_preferenceUser :
    preferenceVector (blankStore Real.sqrt) blankRatings = .ok [6, -8] := by
  simp [preferenceVector, initialPreferVector, sumRated, centreRatings,
    _addToPreferenceVector, blankStore, blankRatings, UMap.find?, UMap.atKey,
    List.lookup, NA_VALUE]
  norm_num

/-- Witness of claim C2: the user `x` of the store with five films, who rated `A`, `B` and
`Z` and did not rate `P = [1, 0]` and `Q = [3, 4]`. The preference vector is `[6, -8]`,
the similarities of `P` and `Q` are 3/5 and -7/25, and the film returned is `P`. -/
theorem recommendByContent_argmax_witness :
    IsSqrt Real.sqrt ∧ WellFormed Real.sqrt (blankStore Real.sqrt) ∧
    (blankStore Real.sqrt).usersRating.find? "x" = some blankRatingsFull ∧
    (∃ f ∈ (blankStore Real.sqrt).rankedFilmOrder,
      (blankRatingsFull : UMap ℝ).find? f = some NA_VALUE) ∧
    (∃ i, preferenceComponent (blankStore Real.sqrt) (blankRatingsFull : UMap ℝ) i ≠ 0) ∧
    (∀ f ∈ (blankStore Real.sqrt).rankedFilmOrder,
      (blankRatingsFull : UMap ℝ).find? f = some NA_VALUE →
      nonZero (featuresOf (blankStore Real.sqrt) f)) ∧
    preferenceVector (blankStore Real.sqrt) blankRatingsFull = .ok [6, -8] ∧
    cosineSimilarity Real.sqrt [6, -8] [1, 0] = 3 / 5 ∧
    cosineSimilarity Real.sqrt [6, -8] [3, 4] = -(7 / 25) ∧
    (recommendByContent Real.sqrt "x" (blankStore Real.sqrt)).1 = .ok "P" ∧
    ∃ pref pre r post vr,
      (∀ f v, (blankStore Real.sqrt).moviesScores.find? f = some v →
        pref.length = v.length) ∧
      (∀ i, pref.getD i 0
        = preferenceComponent (blankStore Real.sqrt) (blankRatingsFull : UMap ℝ) i) ∧
      (blankStore Real.sqrt).rankedFilmOrder = pre ++ r :: post ∧
      (recommendByContent Real.sqrt "x" (blankStore Real.sqrt)).1 = .ok r ∧
      (blankRatingsFull : UMap ℝ).find? r = some NA_VALUE ∧
      (blankStore Real.sqrt).moviesScores.find? r = some vr ∧
      (∀ f ∈ pre, (blankRatingsFull : UMap ℝ).find? f = some NA_VALUE →
        ∃ v, (blankStore Real.sqrt).moviesScores.find? f = some v ∧
          cosineSimilarity Real.sqrt pref v < cosineSimilarity Real.sqrt pref vr) ∧
      (∀ f ∈ post, (blankRatingsFull : UMap ℝ).find? f = some NA_VALUE →
        ∃ v, (blankStore Real.sqrt).moviesScores.find? f = some v ∧
          cosineSimilarity Real.sqrt pref v ≤ cosineSimilarity Real.sqrt pref vr) :=
  have hex : ∃ f ∈ (blankStore Real.sqrt).rankedFilmOrder,
      (blankRatingsFull : UMap ℝ).find? f = some NA_VALUE :=
    ⟨"P", by simp [blankStore], by simp [blankRatingsFull, UMap.find?, List.lookup]⟩
  have hprefer : ∃ i, preferenceComponent (blankStore Real.sqrt)
      (blankRatingsFull : UMap ℝ) i ≠ 0 := by
    refine ⟨0, ?_⟩
    rw [← preferenceVector_getD (blankStore Real.sqrt) blankRatingsFull [6, -8]
      blankStore_preference 0]
    norm_num
  have hfilm : ∀ f ∈ (blankStore Real.sqrt).rankedFilmOrder,
      (blankRatingsFull : UMap ℝ).find? f = some NA_VALUE →
      nonZero (featuresOf (blankStore Real.sqrt) f) := by
    intro f hf hr
    simp only [blankStore, List.mem_cons, List.mem_singleton, List.not_mem_nil,
      or_false] at hf
    rcases hf with rfl | rfl | rfl | rfl | rfl
    · simp [blankRatingsFull, UMap.find?, List.lookup, NA_VALUE] at hr
    · simp [blankRatingsFull, UMap.find?, List.lookup, NA_VALUE] at hr
    · simp [blankRatingsFull, UMap.find?, List.lookup, NA_VALUE] at hr
    · exact ⟨1, by simp [featuresOf, blankStore, UMap.find?, List.lookup], by norm_num⟩
    · exact ⟨3, by simp [featuresOf, blankStore, UMap.find?, List.lookup], by norm_num⟩
  have hcosP : cosineSimilarity Real.sqrt [6, -8] [1, 0] = 3 / 5 := by
    simp [cosineSimilarity, dotSum, norm, sqrt_hundred]
    norm_num
  have hcosQ : cosineSimilarity Real.sqrt [6, -8] [3, 4] = -(7 / 25) := by
    simp [cosineSimilarity, dotSum, norm, sqrt_hundred, sqrt_sum_real]
    norm_num
  ⟨isSqrt_real, blankStore_wellFormed Real.sqrt, blankStore_userFull Real.sqrt, hex,
    hprefer, hfilm, blankStore_preference, hcosP, hcosQ, blankStore_content,
    recommendByContent_argmax Real.sqrt isSqrt_real (blankStore Real.sqrt)
      (blankStore_wellFormed Real.sqrt) "x" blankRatingsFull
      (blankStore_userFull Real.sqrt) hex hprefer hfilm⟩

/-- Counterexample to claim C2. In the store with five films the user `u` rated
`A = [3, 0]` with 5 and `B = [0, 4]` with 1; the preference vector is `[6, -8]`. The
unrated films of the rank order are `Z = [0, 0]`, `P = [1, 0]` and `Q = [3, 4]`. The score
of `Z` is `0 / 0`, NaN; it is taken as the first candidate, and no later score is greater
than NaN, so `recommendByContent` returns `Z`, although `P` has the similarity 3/5 to the
preference vector and the comparison "NaN is at least 3/5" is false. -/
theorem recommendByContent_zero_vector :
    WellFormed Real.sqrt (blankStore Real.sqrt) ∧
    (blankStore Real.sqrt).usersRating.find? "u" = some blankRatings ∧
    (blankStore Real.sqrt).rankedFilmOrder = ["A", "B", "Z", "P", "Q"] ∧
    (blankRatings : UMap ℝ).find? "Z" = some NA_VALUE ∧
    (blankRatings : UMap ℝ).find? "P" = some NA_VALUE ∧
    preferenceVector (blankStore Real.sqrt) blankRatings = .ok [6, -8] ∧
    contentProduct Real.sqrt (blankStore Real.sqrt) [6, -8] "Z" = .ok .nan ∧
    contentProduct Real.sqrt (blankStore Real.sqrt) [6, -8] "P" = .ok (.fin (3 / 5)) ∧
    Dbl.ge (Dbl.nan : Dbl ℝ) (Dbl.fin (3 / 5)) = false ∧
    (recommendByContent Real.sqrt "u" (blankStore Real.sqrt)).1 = .ok "Z" := by
  refine ⟨blankStore_wellFormed Real.sqrt, blankStore_user Real.sqrt, rfl,
    by simp [blankRatings, UMap.find?, List.lookup],
    by simp [blankRatings, UMap.find?, List.lookup], blankStore_preferenceUser, ?_, ?_,
    rfl, ?_⟩
  · simp [contentProduct, blankStore, UMap.find?, UMap.atKey, List.lookup, _dotProduct,
      innerProduct, norm, Dbl.div]
  · simp [contentProduct, blankStore, UMap.find?, UMap.atKey, List.lookup, _dotProduct,
      innerProduct, norm, Dbl.div, sqrt_hundred]
    norm_num
  · simp only [recommendByContent, blankStore_user, blankStore_preferenceUser]
    simp [contentScan, contentProduct, blankStore, blankRatings, UMap.find?, UMap.atKey,
      List.lookup, _dotProduct, innerProduct, norm, NA_VALUE, Dbl.div, Dbl.gt,
      sqrt_hundred, sqrt_sum_real, INT_MAX]

end ArgmaxWitness

end Recommender
